import Mathlib

/-!
Verification of the schema/form/code correspondence core of the repository:
the schema normalizer, form-descriptor builder, code-sample generator
(`code-generator.tsx`) and the example reverse parser (`example-parser.ts`).

The TypeScript code manipulates untyped JSON data (`any`), so the embedding
models all schema nodes, form values and request bodies as one inductive
`Json` type that also carries the JavaScript `undefined` value (needed to
model absent properties and the `=== undefined` checks of the source).
JavaScript numbers are modelled as integers: every numeric literal the
claims touch is integral, and no claim depends on floating-point behaviour.
-/

set_option maxRecDepth 8000

/-- A JavaScript/JSON value as handled by the untyped TypeScript source.
`undef` models JavaScript `undefined`; objects are insertion-ordered
association lists, exactly like JavaScript object property order for
string keys. -/
inductive Json where
  | null : Json
  | undef : Json
  | bool : Bool → Json
  | num : Int → Json
  | str : String → Json
  | arr : List Json → Json
  | obj : List (String × Json) → Json
  deriving Repr

mutual

/-- Boolean structural equality on `Json` (the nested inductive does not
support derived `DecidableEq`). -/
def Json.beq : Json → Json → Bool
  | .null, .null => true
  | .undef, .undef => true
  | .bool a, .bool b => a == b
  | .num a, .num b => a == b
  | .str a, .str b => a == b
  | .arr a, .arr b => Json.beqList a b
  | .obj a, .obj b => Json.beqEntries a b
  | _, _ => false

/-- Elementwise `Json.beq` on lists. -/
def Json.beqList : List Json → List Json → Bool
  | [], [] => true
  | a :: as, b :: bs => Json.beq a b && Json.beqList as bs
  | _, _ => false

/-- Elementwise `Json.beq` on object entry lists. -/
def Json.beqEntries : List (String × Json) → List (String × Json) → Bool
  | [], [] => true
  | (k1, v1) :: as, (k2, v2) :: bs => k1 == k2 && Json.beq v1 v2 && Json.beqEntries as bs
  | _, _ => false

end

mutual

theorem Json.beq_iff : ∀ (a b : Json), (Json.beq a b = true ↔ a = b)
  | .null, b => by cases b <;> simp [Json.beq]
  | .undef, b => by cases b <;> simp [Json.beq]
  | .bool x, b => by cases b <;> simp [Json.beq]
  | .num x, b => by cases b <;> simp [Json.beq]
  | .str x, b => by cases b <;> simp [Json.beq]
  | .arr xs, b => by
      cases b <;> simp [Json.beq]
      exact Json.beqList_iff xs _
  | .obj xs, b => by
      cases b <;> simp [Json.beq]
      exact Json.beqEntries_iff xs _

theorem Json.beqList_iff : ∀ (a b : List Json), (Json.beqList a b = true ↔ a = b)
  | [], b => by cases b <;> simp [Json.beqList]
  | x :: xs, b => by
      cases b with
      | nil => simp [Json.beqList]
      | cons y ys =>
        simp [Json.beqList, Bool.and_eq_true, Json.beq_iff x y, Json.beqList_iff xs ys]

theorem Json.beqEntries_iff :
    ∀ (a b : List (String × Json)), (Json.beqEntries a b = true ↔ a = b)
  | [], b => by cases b <;> simp [Json.beqEntries]
  | (k, v) :: xs, b => by
      cases b with
      | nil => simp [Json.beqEntries]
      | cons y ys =>
        obtain ⟨k2, v2⟩ := y
        simp [Json.beqEntries, Bool.and_eq_true, Json.beq_iff v v2, Json.beqEntries_iff xs ys,
          and_assoc]

end

instance : DecidableEq Json := fun a b => decidable_of_iff _ (Json.beq_iff a b)

namespace Json

/-- JavaScript truthiness of a value (`if (v)`): `undefined`, `null`,
`false`, `0` and `""` are falsy, everything else truthy. -/
def truthy : Json → Bool
  | .null => false
  | .undef => false
  | .bool b => b
  | .num n => n != 0
  | .str s => s ≠ ""
  | .arr _ => true
  | .obj _ => true

/-- Property access `o[k]` on a JavaScript object: `undefined` when the key
is missing or the value is not an object. -/
def get (j : Json) (k : String) : Json :=
  match j with
  | .obj es =>
    match es.find? (fun e => e.1 = k) with
    | some e => e.2
    | none => .undef
  | _ => Json.undef

/-- Whether a value is an object with an entry for `k` (used to model
JavaScript spread/override semantics). -/
def hasKey (j : Json) (k : String) : Bool :=
  match j with
  | .obj es => es.any (fun e => e.1 = k)
  | _ => false

/-- Assignment `o[k] = v` on a JavaScript object: updates the value in
place when the key exists (keeping its position) and appends otherwise. -/
def setKey : List (String × Json) → String → Json → List (String × Json)
  | [], k, v => [(k, v)]
  | e :: es, k, v =>
    if e.1 = k then (k, v) :: es else e :: setKey es k v

/-- `Array.isArray(v)`. -/
def isArr : Json → Bool
  | .arr _ => true
  | _ => false

/-- JavaScript `typeof v === 'object'` (true for objects, arrays and
`null`). -/
def typeofObject : Json → Bool
  | .obj _ => true
  | .arr _ => true
  | .null => true
  | _ => false

/-- The `v || w` operator on JavaScript values. -/
def jsOr (a b : Json) : Json := if a.truthy then a else b

/-- Decimal digits of a natural number, most significant first; each
step divides by ten, so fuel `n + 1` always suffices. -/
def natDigits : Nat → Nat → List Char
  | 0, _ => []
  | fuel + 1, n =>
    if n < 10 then [Char.ofNat (48 + n)]
    else natDigits fuel (n / 10) ++ [Char.ofNat (48 + n % 10)]

/-- Decimal rendering of a natural number. -/
def natToString (n : Nat) : String := ⟨natDigits (n + 1) n⟩

/-- Decimal rendering of an integer, as JavaScript renders integral
numbers. -/
def intToString (n : Int) : String :=
  if n < 0 then "-" ++ natToString (Int.natAbs n) else natToString (Int.natAbs n)

/-- JavaScript `String(v)` / `.toString()` coercion. Arrays render as the
comma-separated rendering of their elements with `null`/`undefined`
elements blank; plain objects render as the `[object Object]` tag. -/
def jsToString : Json → String
  | .null => "null"
  | .undef => "undefined"
  | .bool b => if b then "true" else "false"
  | .num n => intToString n
  | .str s => s
  | .arr xs => String.intercalate "," (xs.map fun x =>
      match x with
      | .null => ""
      | .undef => ""
      | .bool b => if b then "true" else "false"
      | .num n => intToString n
      | .str s => s
      | .arr _ => "[...]"
      | .obj _ => "[object Object]")
  | .obj _ => "[object Object]"

end Json

/-- The characters that need care in string literals, named once. -/
def chLBrace : Char := Char.ofNat 123
def chRBrace : Char := Char.ofNat 125
def chDQuote : Char := Char.ofNat 34
def chSQuote : Char := Char.ofNat 39
def chBacktick : Char := Char.ofNat 96
def chBackslash : Char := Char.ofNat 92

example : Json.truthy (.arr []) = true := by decide
example : Json.get (.obj [("a", .num 1)]) "a" = .num 1 := by decide
example : Json.jsToString (.arr [.str "x", .null, .num 3]) = "x,,3" := by decide

@[simp] theorem Json.truthy_null : Json.null.truthy = false := rfl
@[simp] theorem Json.truthy_undef : Json.undef.truthy = false := rfl
@[simp] theorem Json.truthy_arr (xs : List Json) : (Json.arr xs).truthy = true := rfl
@[simp] theorem Json.truthy_obj (es : List (String × Json)) : (Json.obj es).truthy = true := rfl

/-- Strict equality `v === 's'` of a JavaScript value with a string
literal: true exactly when the value is that string. -/
def Json.isStrEq (j : Json) (s : String) : Bool :=
  match j with
  | .str t => t = s
  | _ => false

/-- The contents of a union marker (`anyOf`/`oneOf`). The data model fixes
union markers to be arrays of schema nodes; values of other types are
outside the embedding and contribute no variants. -/
def Json.variantList : Json → List Json
  | .arr vs => vs
  | _ => []

/-!
## Schema Normalizer (`code-generator.tsx`, `pickVariant` /
`mergeContentPartTypes` / `normalizeSchema`)
-/

/-- First check of `pickVariant`: an array-of-object variant
(`r.type === 'array' && r.items && (r.items?.type === 'object' ||
r.items?.properties)`). -/
def isArrayOfObjectVariant (r : Json) : Bool :=
  (r.get "type").isStrEq "array" && (r.get "items").truthy &&
    (((r.get "items").get "type").isStrEq "object" ||
      ((r.get "items").get "properties").truthy)

/-- Second check of `pickVariant`: an object/properties-bearing variant
(`r.type === 'object' || r.properties`). -/
def isObjectVariant (r : Json) : Bool :=
  (r.get "type").isStrEq "object" || (r.get "properties").truthy

/-- Third check of `pickVariant`: any array variant
(`r.type === 'array'`). -/
def isArrayVariant (r : Json) : Bool :=
  (r.get "type").isStrEq "array"

/-- Fourth check of `pickVariant`: any non-null variant
(`r.type !== 'null'`). -/
def isNonNullVariant (r : Json) : Bool :=
  !((r.get "type").isStrEq "null")

/-- The ordered check list of `pickVariant`. -/
def pickVariantChecks : List (Json → Bool) :=
  [isArrayOfObjectVariant, isObjectVariant, isArrayVariant, isNonNullVariant]

/-- The nested `for (const check of checks) for (const variant of
variants)` loop of `pickVariant`: the first variant that is truthy and
passes the current check wins; otherwise move to the next check. -/
def pickVariantGo : List (Json → Bool) → List Json → Json
  | [], _ => Json.null
  | c :: cs, vs =>
    match vs.find? (fun v => v.truthy && c v) with
    | some v => v
    | none => pickVariantGo cs vs

/-- `pickVariant(variants)`: `null` when the variant list is missing or
empty, otherwise the loop over the four checks. -/
def pickVariant (variants : Json) : Json :=
  match variants with
  | .arr vs => if vs.length = 0 then Json.null else pickVariantGo pickVariantChecks vs
  | _ => Json.null

/-- Object-spread `{ ...picked, extra... }`: `picked`'s entries first
(overridden in place by a later duplicate key), then the extra entries.
Spreading a non-object contributes no entries. -/
def spreadWith (picked : Json) (extra : List (String × Json)) : Json :=
  match picked with
  | .obj es => Json.obj (extra.foldl (fun acc e => Json.setKey acc e.1 e.2) es)
  | _ => Json.obj extra

/-- The inner collection loop of `mergeContentPartTypes`: for every truthy
object variant, look at `properties.content`; for every `anyOf` content
variant that is an array with truthy items, collect `items.anyOf`'s
elements (or `items` itself when it has no `anyOf`). -/
def collectContentParts (variants : List Json) : List Json :=
  variants.foldl
    (fun acc variant =>
      if !variant.truthy || !((variant.get "type").isStrEq "object") then acc
      else
        let contentProp := (variant.get "properties").get "content"
        if !contentProp.truthy then acc
        else if (contentProp.get "anyOf").truthy then
          (contentProp.get "anyOf").variantList.foldl
            (fun acc2 cv =>
              if (cv.get "type").isStrEq "array" && (cv.get "items").truthy then
                let itemsSchema := cv.get "items"
                if (itemsSchema.get "anyOf").truthy then
                  acc2 ++ (itemsSchema.get "anyOf").variantList
                else acc2 ++ [itemsSchema]
              else acc2)
            acc
        else acc)
    []

/-- `mergeContentPartTypes(parentSchema)`: requires a discriminator-based
`anyOf`; collects all content-part schemas; more than one part keeps the
discriminated-union shape, exactly one is returned as-is, none gives
`null`. -/
def mergeContentPartTypes (parentSchema : Json) : Json :=
  if !(parentSchema.get "anyOf").truthy || !(parentSchema.get "discriminator").truthy then
    Json.null
  else
    match collectContentParts (parentSchema.get "anyOf").variantList with
    | [] => Json.null
    | [x] => x
    | xs =>
      Json.obj [("anyOf", Json.arr xs),
        ("discriminator", Json.obj [("propertyName", Json.str "type")])]

/-- `normalizeSchema(schema)`: falsy schemas give `null`; a
discriminator-based `anyOf` picks a representative variant and attaches
`_discriminator`/`_allVariants`; a plain `anyOf` or `oneOf` picks a
variant with the original schema as fallback. When the discriminator
branch picks nothing the function falls through to the `oneOf` check. -/
def normalizeSchema (schema : Json) : Json :=
  if !schema.truthy then Json.null
  else if (schema.get "anyOf").truthy && (schema.get "discriminator").truthy then
    let picked := pickVariant (schema.get "anyOf")
    if picked.truthy then
      spreadWith picked
        [("_discriminator", schema.get "discriminator"),
         ("_allVariants", schema.get "anyOf")]
    else if (schema.get "oneOf").truthy then
      Json.jsOr (pickVariant (schema.get "oneOf")) schema
    else schema
  else if (schema.get "anyOf").truthy then
    Json.jsOr (pickVariant (schema.get "anyOf")) schema
  else if (schema.get "oneOf").truthy then
    Json.jsOr (pickVariant (schema.get "oneOf")) schema
  else schema

/-- Spec-side selection priority for claim C3, written from the spec's
words: pick the first array-of-object variant, else the first
object/properties-bearing variant, else the first array variant, else
the first non-null variant. -/
def specUnionPriority (vs : List Json) : Option Json :=
  ((vs.find? (fun v => v.truthy && isArrayOfObjectVariant v)).or
    ((vs.find? (fun v => v.truthy && isObjectVariant v)).or
      ((vs.find? (fun v => v.truthy && isArrayVariant v)).or
        (vs.find? (fun v => v.truthy && isNonNullVariant v)))))

theorem pickVariantGo_eq_spec (vs : List Json) :
    pickVariantGo pickVariantChecks vs =
      match specUnionPriority vs with
      | some v => v
      | none => Json.null := by
  unfold pickVariantChecks specUnionPriority
  simp only [pickVariantGo]
  cases h1 : vs.find? (fun v => v.truthy && isArrayOfObjectVariant v) <;>
    cases h2 : vs.find? (fun v => v.truthy && isObjectVariant v) <;>
      cases h3 : vs.find? (fun v => v.truthy && isArrayVariant v) <;>
        cases h4 : vs.find? (fun v => v.truthy && isNonNullVariant v) <;>
          simp [Option.or]

theorem find?_truthy {p : Json → Bool} {vs : List Json} {v : Json}
    (h : vs.find? (fun v => v.truthy && p v) = some v) : v.truthy = true := by
  have := List.find?_some h
  exact (Bool.and_eq_true _ _ |>.mp this).1

theorem specUnionPriority_truthy {vs : List Json} {v : Json}
    (h : specUnionPriority vs = some v) : v.truthy = true := by
  unfold specUnionPriority at h
  rcases h1 : vs.find? (fun v => v.truthy && isArrayOfObjectVariant v) with _ | w <;>
    rw [h1] at h
  · rcases h2 : vs.find? (fun v => v.truthy && isObjectVariant v) with _ | w <;>
      rw [h2] at h
    · rcases h3 : vs.find? (fun v => v.truthy && isArrayVariant v) with _ | w <;>
        rw [h3] at h
      · rcases h4 : vs.find? (fun v => v.truthy && isNonNullVariant v) with _ | w <;>
          rw [h4] at h
        · simp [Option.or] at h
        · simp [Option.or] at h
          exact h ▸ find?_truthy h4
      · simp [Option.or] at h
        exact h ▸ find?_truthy h3
    · simp [Option.or] at h
      exact h ▸ find?_truthy h2
  · simp [Option.or] at h
    exact h ▸ find?_truthy h1

theorem jsOr_pickVariant_arr (vs : List Json) (s : Json) :
    Json.jsOr (pickVariant (Json.arr vs)) s = (specUnionPriority vs).getD s := by
  unfold pickVariant
  by_cases hvs : vs.length = 0
  · rcases List.length_eq_zero.mp hvs with rfl
    simp [specUnionPriority, Json.jsOr, Json.truthy]
  · simp only [hvs, if_false, pickVariantGo_eq_spec]
    cases h : specUnionPriority vs with
    | none => simp [Json.jsOr, Json.truthy]
    | some v => simp [Json.jsOr, specUnionPriority_truthy h]

/-- C3: for a schema node carrying `anyOf` or `oneOf` without a
discriminator, `normalizeSchema` selects the variant by the total priority
order (first array-of-object variant, then first object/properties-bearing
variant, then first array variant, then first non-null variant) and falls
back to the original node when no variant qualifies; being an equation
against a total selection function, the choice is deterministic. -/
theorem normalizeSchema_union_priority (s : Json) (vs : List Json)
    (hs : s.truthy = true)
    (hu : (s.get "anyOf" = Json.arr vs ∧ (s.get "discriminator").truthy = false) ∨
          ((s.get "anyOf").truthy = false ∧ s.get "oneOf" = Json.arr vs)) :
    normalizeSchema s = (specUnionPriority vs).getD s := by
  unfold normalizeSchema
  rcases hu with ⟨ha, hd⟩ | ⟨ha, ho⟩
  · simp only [hs, ha, hd, Json.truthy_arr, Bool.not_true, Bool.true_and, Bool.and_false,
      Bool.false_eq_true, if_false, if_true]
    exact jsOr_pickVariant_arr vs s
  · simp only [hs, ha, ho, Json.truthy_arr, Bool.not_true, Bool.false_and,
      Bool.false_eq_true, if_false, if_true]
    exact jsOr_pickVariant_arr vs s

/-- Witness for C3: a concrete `anyOf` union of a null variant and a
string variant resolves to the string variant (priority (4), first
non-null). -/
theorem normalizeSchema_union_priority_witness :
    (Json.obj [("anyOf", Json.arr [Json.obj [("type", Json.str "null")],
       Json.obj [("type", Json.str "string")]])]).truthy = true ∧
    normalizeSchema (Json.obj [("anyOf", Json.arr [Json.obj [("type", Json.str "null")],
       Json.obj [("type", Json.str "string")]])]) =
      (specUnionPriority [Json.obj [("type", Json.str "null")],
        Json.obj [("type", Json.str "string")]]).getD
        (Json.obj [("anyOf", Json.arr [Json.obj [("type", Json.str "null")],
          Json.obj [("type", Json.str "string")]])]) :=
  ⟨by decide,
   normalizeSchema_union_priority _ _ (by decide) (Or.inl (by constructor <;> decide))⟩

example :
    normalizeSchema (Json.obj [("anyOf", Json.arr [Json.obj [("type", Json.str "null")],
       Json.obj [("type", Json.str "string")]])]) = Json.obj [("type", Json.str "string")] := by
  decide

/-!
## Code Sample Generator: path and query parameter resolution
(`code-generator.tsx`, `generateCodeSamples` lines 60–93)
-/

/-- One entry of `operation.parameters`. The `in` location is kept as a
string (`path`/`query`/`header`); `schema` and the parameter-level
`example` are `undef` when absent, like missing JavaScript properties. -/
structure OperationParam where
  name : String
  paramIn : String
  required : Option Bool := none
  schema : Json := .undef
  paramExample : Json := .undef
  deriving Repr, DecidableEq

/-- JavaScript record lookup `m[k]`, `undefined` when the key is absent. -/
def lookupJ (es : List (String × Json)) (k : String) : Json :=
  match es.find? (fun e => e.1 = k) with
  | some e => e.2
  | none => Json.undef

/-- `formValues?.[name]`: `undefined` when the whole map is absent. -/
def formLookup (formValues : Option (List (String × Json))) (name : String) : Json :=
  match formValues with
  | some m => lookupJ m name
  | none => Json.undef

/-- The path-parameter value resolution of `generateCodeSamples`
(line 67): `formValues?.[param.name] || param.schema?.example ||
param.example || param.schema?.default || 'example-id'`, with the
JavaScript `||` short-circuiting on truthiness. -/
def resolvePathParamValue (formValues : Option (List (String × Json)))
    (p : OperationParam) : Json :=
  ((((formLookup formValues p.name).jsOr
      (p.schema.get "example")).jsOr
      p.paramExample).jsOr
      (p.schema.get "default")).jsOr
      (Json.str "example-id")

/-- First index at which `pat` occurs in `s` (leftmost match of a literal
pattern, the semantics of `String.prototype.replace` with a string
pattern). -/
def findSubstrIdx : List Char → List Char → Option Nat
  | s, pat =>
    if pat.isPrefixOf s then some 0
    else
      match s with
      | [] => none
      | _ :: cs => (findSubstrIdx cs pat).map (· + 1)

/-- JavaScript `s.replace(pat, rep)` with a string pattern: replaces the
first occurrence only. (`$`-escape sequences in the replacement are
outside the embedding; no generated replacement uses them.) -/
def String.replaceFirst (s pat rep : String) : String :=
  match findSubstrIdx s.data pat.data with
  | some i => ⟨s.data.take i ++ rep.data ++ s.data.drop (i + pat.data.length)⟩
  | none => s

/-- The path-building loop of `generateCodeSamples` (lines 63–76):
for each `in: 'path'` parameter, resolve a value, record it in
`pathParams` and substitute it for the brace-wrapped placeholder in the
path template. Returns the final path and the `pathParams` record. -/
def resolvePathLoop (params : List OperationParam)
    (formValues : Option (List (String × Json))) (path : String) :
    String × List (String × Json) :=
  params.foldl
    (fun acc p =>
      if p.paramIn = "path" then
        let value := resolvePathParamValue formValues p
        (acc.1.replaceFirst ("\x7b" ++ p.name ++ "\x7d") value.jsToString,
         Json.setKey acc.2 p.name value)
      else acc)
    (path, [])

/-- The first JavaScript-truthy element of a list, with a default: the
spec-side formulation of a `||`-precedence chain. -/
def firstTruthyD (xs : List Json) (d : Json) : Json :=
  match xs.find? Json.truthy with
  | some v => v
  | none => d

theorem Json.jsOr_pos {a : Json} (b : Json) (h : a.truthy = true) : a.jsOr b = a := by
  simp [Json.jsOr, h]

theorem Json.jsOr_neg {a : Json} (b : Json) (h : a.truthy = false) : a.jsOr b = b := by
  simp [Json.jsOr, h]

theorem Json.jsOr_assoc (a b c : Json) : (a.jsOr b).jsOr c = a.jsOr (b.jsOr c) := by
  by_cases h : a.truthy = true
  · rw [Json.jsOr_pos b h, Json.jsOr_pos _ h, Json.jsOr_pos _ h]
  · rw [Bool.not_eq_true] at h
    rw [Json.jsOr_neg b h, Json.jsOr_neg _ h]

/-- Counterexample to C6 as stated: for a path parameter whose current
form value is present but JavaScript-falsy (the number `0`), the code
substitutes the schema example instead of the form value. -/
theorem resolvePathParamValue_formValue_skipped :
    formLookup (some [("id", Json.num 0)]) "id" = Json.num 0 ∧
    resolvePathParamValue (some [("id", Json.num 0)])
      { name := "id", paramIn := "path",
        schema := Json.obj [("example", Json.str "abc")] } = Json.str "abc" ∧
    Json.str "abc" ≠ Json.num 0 := by
  refine ⟨by decide, by decide, by decide⟩

/-- C6 (amended): the value substituted for a path parameter is the first
JavaScript-truthy value among: current form value, schema example,
parameter-level example, schema default; when all are falsy the literal
placeholder string `example-id` is used. In particular a truthy form value
always wins, but a falsy one (`0`, `""`, `false`, `null`) is skipped. -/
theorem resolvePathParamValue_priority (formValues : Option (List (String × Json)))
    (p : OperationParam) :
    resolvePathParamValue formValues p =
      firstTruthyD
        [formLookup formValues p.name, p.schema.get "example", p.paramExample,
          p.schema.get "default"]
        (Json.str "example-id") := by
  unfold resolvePathParamValue
  rw [Json.jsOr_assoc, Json.jsOr_assoc, Json.jsOr_assoc]
  cases h1 : (formLookup formValues p.name).truthy <;>
    cases h2 : (p.schema.get "example").truthy <;>
      cases h3 : p.paramExample.truthy <;>
        cases h4 : (p.schema.get "default").truthy <;>
          simp [firstTruthyD, List.find?, h1, h2, h3, h4, Json.jsOr_pos, Json.jsOr_neg]

/-!
## Code Sample Generator: request body construction
(`code-generator.tsx`, `generateCodeSamples` lines 102–248)
-/

/-- `Array.isArray(v) ? v : []` style access to array elements. -/
def Json.arrItems : Json → List Json
  | .arr xs => xs
  | _ => []

/-- `Object.values(v)`: entry values of an object, elements of an array,
nothing for primitives. -/
def jsObjectValues : Json → List Json
  | .obj es => es.map (·.2)
  | .arr xs => xs
  | _ => []

/-- `Object.entries(v)`: key/value pairs of an object, index/element pairs
of an array, nothing for primitives (string character entries are not
needed by any claim and are outside the embedding). -/
def jsEntries : Json → List (String × Json)
  | .obj es => es
  | .arr xs => (xs.enum).map (fun e => (Nat.repr e.1, e.2))
  | _ => []

/-- `Object.keys(v).length` as used by the generator's emptiness checks
(arrays count elements, strings count characters, primitives have no
keys). -/
def jsKeysLength : Json → Nat
  | .obj es => es.length
  | .arr xs => xs.length
  | .str s => s.length
  | _ => 0

/-- The repeated test `v !== undefined && v !== null && v !== ''`. -/
def filledEntry (v : Json) : Bool :=
  v != Json.undef && v != Json.null && v != Json.str ""

/-- The item filter of the form-value array branch (lines 128–134):
objects survive when some own value is non-empty, primitives when they
are themselves non-empty. -/
def bodyFilterItem (item : Json) : Bool :=
  if item.typeofObject && item != Json.null then
    (jsObjectValues item).any filledEntry
  else filledEntry item

/-- `s.startsWith(pre)` implemented over the character list (the string
library's own version does not evaluate inside the kernel). -/
def strStartsWith (s pre : String) : Bool := pre.data.isPrefixOf s.data

/-- One iteration of the form-value body construction loop
(lines 116–156): skips `__`-internal keys, empty primitives, and empty
arrays; filters array items and object entries, dropping the key when
nothing survives. -/
def formBodyStep (body : List (String × Json)) (e : String × Json) :
    List (String × Json) :=
  let key := e.1
  let value := e.2
  if strStartsWith key "__" then body
  else if value == Json.undef || value == Json.null || value == Json.str "" then body
  else if value.isArr && (value.arrItems).length = 0 then body
  else if value.isArr then
    let filteredArray := (value.arrItems).filter bodyFilterItem
    if filteredArray.length > 0 then Json.setKey body key (Json.arr filteredArray)
    else body
  else if value.typeofObject && value != Json.null then
    let filteredObj := (jsEntries value).foldl
      (fun acc oe => if filledEntry oe.2 then Json.setKey acc oe.1 oe.2 else acc) []
    if filteredObj.length > 0 then Json.setKey body key (Json.obj filteredObj)
    else body
  else Json.setKey body key value

/-- The form-value body construction (lines 114–156). -/
def buildBodyFromForm (formValues : List (String × Json)) : List (String × Json) :=
  formValues.foldl formBodyStep []

/-- `getDefaultValue(type, format)` (lines 564–593): format-specific
placeholders first, then a type-keyed placeholder, `'value'` as final
default. -/
def getDefaultValue (ty fmt : Json) : Json :=
  if fmt.isStrEq "email" then .str "user@example.com"
  else if fmt.isStrEq "password" then .str "password"
  else if fmt.isStrEq "uuid" then .str "123e4567-e89b-12d3-a456-426614174000"
  else if fmt.isStrEq "date-time" then .str "2024-01-01T00:00:00Z"
  else if ty.isStrEq "string" then .str "string"
  else if ty.isStrEq "integer" || ty.isStrEq "number" then .num 0
  else if ty.isStrEq "boolean" then .bool false
  else if ty.isStrEq "array" then .arr []
  else if ty.isStrEq "object" then .obj []
  else .str "value"

/-- The `anyOf` unwrapping of the fallback body synthesis (lines 174–179
and 196–201): pick the first variant whose `type` is neither `'null'` nor
absent, carrying over the parent description. -/
def resolveAnyOfForDefault (prop : Json) : Json :=
  if (prop.get "anyOf").truthy && (prop.get "anyOf").isArr then
    match (prop.get "anyOf").arrItems.find?
        (fun s => !((s.get "type").isStrEq "null") && s.get "type" != Json.undef) with
    | some nn =>
      spreadWith nn [("description", (prop.get "description").jsOr (nn.get "description"))]
    | none => prop
  else prop

/-- The value synthesized for one property in the fallback body
(`schema.example || schema.default || getDefaultValue(...)`). -/
def defaultPropValue (schema : Json) : Json :=
  ((schema.get "example").jsOr (schema.get "default")).jsOr
    (getDefaultValue (schema.get "type") (schema.get "format"))

/-- The fallback body synthesis from schema properties (lines 164–207):
first pass keeps required properties and properties with an
example/default; when that yields nothing but required names exist, a
second pass fills every required property present in `properties`. -/
def buildBodyFromSchema (resolvedSchema : Json) : Json :=
  let properties := (resolvedSchema.get "properties").jsOr (Json.obj [])
  let required := (resolvedSchema.get "required").jsOr (Json.arr [])
  let pass1 := (jsEntries properties).foldl
    (fun acc e =>
      let schema := resolveAnyOfForDefault e.2
      if required.arrItems.any (· == Json.str e.1) ||
          schema.get "example" != Json.undef || schema.get "default" != Json.undef then
        Json.setKey acc e.1 (defaultPropValue schema)
      else acc)
    []
  if pass1.length = 0 && required.arrItems.length > 0 then
    Json.obj (required.arrItems.foldl
      (fun acc rname =>
        let prop := properties.get rname.jsToString
        if prop.truthy then
          Json.setKey acc rname.jsToString (defaultPropValue (resolveAnyOfForDefault prop))
        else acc)
      [])
  else Json.obj pass1

/-- The keep-filter of `cleanEmptyArrays` on array items (lines 221–227):
already-removed items go, non-array objects need some non-empty own
value, everything else needs to be non-empty itself. -/
def cleanKeep (item : Json) : Bool :=
  if item == Json.undef then false
  else if item.typeofObject && item != Json.null && !item.isArr then
    (jsObjectValues item).any filledEntry
  else filledEntry item

mutual

/-- `cleanEmptyArrays` (lines 212–242): recursively removes empty arrays
(signalled by `undefined`), filters array items, and drops object keys
whose cleaned value was removed; an object retaining no values is removed
as well. Non-container values pass through unchanged. -/
def cleanEmptyArrays : Json → Json
  | .arr xs =>
    if xs.length = 0 then .undef
    else
      let filtered := cleanItems xs
      if filtered.length > 0 then .arr filtered else .undef
  | .obj es =>
    let cleaned := cleanEntries es
    if cleaned.length > 0 then .obj cleaned else .undef
  | j => j

/-- `obj.map(cleanEmptyArrays).filter(...)` over array items. -/
def cleanItems : List Json → List Json
  | [] => []
  | x :: xs =>
    let cx := cleanEmptyArrays x
    if cleanKeep cx then cx :: cleanItems xs else cleanItems xs

/-- The entry loop of the object branch: keep an entry when its cleaned
value is not removed. -/
def cleanEntries : List (String × Json) → List (String × Json)
  | [] => []
  | (k, v) :: es =>
    let cv := cleanEmptyArrays v
    if cv != Json.undef then (k, cv) :: cleanEntries es else cleanEntries es

end

/-- The request body before the final cleanup (lines 110–208): the
form-value construction when form values exist and survive filtering,
otherwise the explicit example, otherwise the schema synthesis. -/
def rawRequestBody (jsonContent : Json)
    (formValues : Option (List (String × Json))) : Json :=
  let resolvedSchema := jsonContent.get "schema"
  let body1 : Json :=
    match formValues with
    | some fv => if fv.length > 0 then Json.obj (buildBodyFromForm fv) else Json.null
    | none => Json.null
  if !body1.truthy || jsKeysLength body1 = 0 then
    let fromExample :=
      ((jsonContent.get "example").jsOr (resolvedSchema.get "example")).jsOr
        (Json.obj [])
    if !fromExample.truthy || jsKeysLength fromExample = 0 then
      buildBodyFromSchema resolvedSchema
    else fromExample
  else body1

/-- The final cleanup wrapper (lines 244–247): run `cleanEmptyArrays` on a
truthy body and replace a fully-removed or non-object result by the empty
object. -/
def finalizeBody (body : Json) : Json :=
  if body.truthy then
    let cleaned := cleanEmptyArrays body
    if cleaned.truthy && cleaned.typeofObject && !cleaned.isArr then cleaned
    else Json.obj []
  else body

/-- The complete request-body computation of `generateCodeSamples`
(lines 102–248) given the `requestBody.content` record and the optional
form values: content-type selection, form-value construction, example
fallback, schema fallback, and the final recursive cleanup. -/
def buildRequestBody (requestBodyContent : Option (List (String × Json)))
    (formValues : Option (List (String × Json))) : Json :=
  match requestBodyContent with
  | none => Json.null
  | some content =>
    let contentType :=
      match content.head? with
      | some e => if e.1 ≠ "" then e.1 else "application/json"
      | none => "application/json"
    let jsonContent := lookupJ content contentType
    if !jsonContent.truthy then Json.null
    else finalizeBody (rawRequestBody jsonContent formValues)

example : buildBodyFromForm [("a", .str "x"), ("b", .arr []), ("c", .str "")] =
    [("a", .str "x")] := by decide
example : cleanEmptyArrays (.obj [("t", .arr []), ("u", .num 3)]) = .obj [("u", .num 3)] := by
  decide

/-!
## Claim C4: empty form values and the generated request body
-/

/-- The claim's notion of an empty form value: `undefined`, `null`, the
empty string, an empty array, or an object whose every entry is
`undefined`/`null`/empty-string. -/
def emptyFormValue (v : Json) : Bool :=
  v == Json.undef || v == Json.null || v == Json.str "" || v == Json.arr [] ||
  (match v with
   | .obj es => es.all (fun e => !filledEntry e.2)
   | _ => false)

theorem setKey_any_ne (es : List (String × Json)) (k' : String) (v : Json) (k : String)
    (h : k ≠ k') :
    ((Json.setKey es k' v).any (fun e => e.1 = k)) = es.any (fun e => e.1 = k) := by
  induction es with
  | nil =>
    simp only [Json.setKey, List.any_cons, List.any_nil, Bool.or_false, decide_eq_true_eq]
    simp [h.symm]
  | cons e es ih =>
    by_cases he : e.1 = k'
    · simp only [Json.setKey, he, if_true, List.any_cons, decide_eq_true_eq]
    · simp only [Json.setKey, he, if_false, List.any_cons, ih]

theorem allUnfilled_foldl (es : List (String × Json)) :
    ∀ acc : List (String × Json), (∀ oe ∈ es, filledEntry oe.2 = false) →
      (es.foldl (fun acc oe => if filledEntry oe.2 then Json.setKey acc oe.1 oe.2 else acc)
        acc) = acc := by
  induction es with
  | nil => intro acc _; rfl
  | cons oe oes ih =>
    intro acc h
    have h0 := h oe (List.mem_cons_self _ _)
    simp only [List.foldl_cons, h0, if_false, Bool.false_eq_true]
    exact ih acc (fun x hx => h x (List.mem_cons_of_mem _ hx))

theorem formBodyStep_empty_drop (body : List (String × Json)) (k : String) (v : Json)
    (h : emptyFormValue v = true) : formBodyStep body (k, v) = body := by
  by_cases hpre : strStartsWith k "__"
  · unfold formBodyStep; simp [hpre]
  · rcases v with _ | _ | b | n | s | xs | es
    · unfold formBodyStep; simp [hpre]
    · unfold formBodyStep; simp [hpre]
    · simp [emptyFormValue] at h
    · simp [emptyFormValue] at h
    · simp [emptyFormValue] at h
      subst h
      unfold formBodyStep; simp [hpre]
    · simp [emptyFormValue] at h
      subst h
      unfold formBodyStep
      simp [hpre, Json.isArr, Json.arrItems]
    · simp [emptyFormValue] at h
      have hall : ∀ oe ∈ es, filledEntry oe.2 = false := by
        intro oe hoe
        have := h oe.1 oe.2 hoe
        simp [this]
      unfold formBodyStep
      simp only [hpre, if_false, Bool.false_eq_true]
      have h1 : ((Json.obj es == Json.undef) || (Json.obj es == Json.null) ||
          (Json.obj es == Json.str "")) = false := by simp
      simp only [h1, if_false, Bool.false_eq_true, Json.isArr, Bool.false_and,
        Json.typeofObject, Bool.true_and]
      have h2 : (Json.obj es != Json.null) = true := by simp
      simp only [h2, if_true, jsEntries, allUnfilled_foldl es [] hall, List.length_nil,
        gt_iff_lt, lt_self_iff_false, if_false]

theorem formBodyStep_any_ne (acc : List (String × Json)) (e : String × Json) (k : String)
    (h : k ≠ e.1) :
    ((formBodyStep acc e).any (fun x => x.1 = k)) = acc.any (fun x => x.1 = k) := by
  obtain ⟨k1, v1⟩ := e
  simp only at h
  unfold formBodyStep
  dsimp only
  split_ifs <;> first
    | rfl
    | (exact setKey_any_ne _ _ _ _ h)

theorem buildBodyFromForm_no_empty_key (fv : List (String × Json)) (k : String)
    (hk : ∀ e ∈ fv, e.1 = k → emptyFormValue e.2 = true) :
    ((buildBodyFromForm fv).any (fun e => e.1 = k)) = false := by
  unfold buildBodyFromForm
  have general : ∀ (l : List (String × Json)),
      (∀ e ∈ l, e.1 = k → emptyFormValue e.2 = true) →
      ∀ acc : List (String × Json), (acc.any (fun e => e.1 = k)) = false →
      ((l.foldl formBodyStep acc).any (fun e => e.1 = k)) = false := by
    intro l
    induction l with
    | nil => intro _ acc hacc; simpa using hacc
    | cons e es ih =>
      intro hl acc hacc
      simp only [List.foldl_cons]
      apply ih (fun x hx hxk => hl x (List.mem_cons_of_mem _ hx) hxk)
      by_cases hek : e.1 = k
      · have hemp := hl e (List.mem_cons_self _ _) hek
        obtain ⟨k1, v1⟩ := e
        simp only at hek
        subst hek
        rw [formBodyStep_empty_drop acc k1 v1 hemp]
        exact hacc
      · rw [formBodyStep_any_ne acc e k (fun hh => hek hh.symm)]
        exact hacc
  exact general fv hk [] rfl

theorem cleanEntries_any_sub (es : List (String × Json)) (k : String)
    (h : ((cleanEntries es).any (fun e => e.1 = k)) = true) :
    (es.any (fun e => e.1 = k)) = true := by
  induction es with
  | nil => simp [cleanEntries] at h
  | cons e es ih =>
    obtain ⟨k1, v1⟩ := e
    unfold cleanEntries at h
    by_cases hc : (cleanEmptyArrays v1 != Json.undef) = true
    · simp only [hc, if_true, List.any_cons, Bool.or_eq_true] at h
      rcases h with h | h
      · simp [List.any_cons, h]
      · simp [List.any_cons, ih h]
    · simp only [hc, if_false, Bool.false_eq_true] at h
      simp [List.any_cons, ih h]

theorem lookup_nodup_all (fv : List (String × Json)) (k : String)
    (hnd : (fv.map Prod.fst).Nodup)
    (hempty : emptyFormValue (lookupJ fv k) = true) :
    ∀ e ∈ fv, e.1 = k → emptyFormValue e.2 = true := by
  induction fv with
  | nil => intro e he; cases he
  | cons f fs ih =>
    intro e he hek
    rcases List.mem_cons.mp he with rfl | hmem
    · unfold lookupJ at hempty
      rw [List.find?_cons_of_pos _ (by simp [hek])] at hempty
      exact hempty
    · have hnd2 : (f.1 :: fs.map Prod.fst).Nodup := by rw [List.map_cons] at hnd; exact hnd
      by_cases hf : f.1 = k
      · exfalso
        have h1 : k ∈ fs.map Prod.fst := hek ▸ List.mem_map_of_mem Prod.fst hmem
        have h2 := (List.nodup_cons.mp hnd2).1
        exact h2 (hf ▸ h1)
      · apply ih (List.nodup_cons.mp hnd2).2 _ e hmem hek
        unfold lookupJ at hempty ⊢
        rwa [List.find?_cons_of_neg _ (by simp [hf])] at hempty

/-- Counterexample to C4 as stated: a form value map whose only key holds
an empty array produces an empty filtered body, so the generator falls
back to the content example — which reintroduces the very key that was
left empty. -/
theorem buildRequestBody_empty_key_reappears :
    lookupJ [("tags", Json.arr [])] "tags" = Json.arr [] ∧
    (buildRequestBody
      (some [("application/json",
        Json.obj [("example", Json.obj [("tags", Json.arr [Json.str "x"])])])])
      (some [("tags", Json.arr [])])).hasKey "tags" = true :=
  ⟨by decide, by decide⟩

/-- C4 (amended): as long as the body built from the form values is
non-empty (some form value survives the filter), every key whose form
value is empty — `undefined`, `null`, the empty string, an empty array,
or an all-empty object — is absent from the generated request body, the
final recursive cleanup included. When every form value filters out, the
generator instead falls back to the example/schema synthesis, which can
reintroduce such keys with synthesized values. -/
theorem buildRequestBody_omits_empty_form_keys
    (content : List (String × Json)) (fv : List (String × Json)) (k : String)
    (hnd : (fv.map Prod.fst).Nodup)
    (hne : buildBodyFromForm fv ≠ [])
    (hempty : emptyFormValue (lookupJ fv k) = true) :
    (buildRequestBody (some content) (some fv)).hasKey k = false := by
  have hk := lookup_nodup_all fv k hnd hempty
  have hbody := buildBodyFromForm_no_empty_key fv k hk
  have hfv : fv ≠ [] := by
    intro hcon
    exact hne (by rw [hcon]; rfl)
  have hlen : fv.length > 0 := List.length_pos.mpr hfv
  unfold buildRequestBody
  set ct := (match fv with
    | _ => match content.head? with
      | some e => if e.1 ≠ "" then e.1 else "application/json"
      | none => "application/json") with hct
  by_cases hjc : (lookupJ content (match content.head? with
      | some e => if e.1 ≠ "" then e.1 else "application/json"
      | none => "application/json")).truthy = true
  case neg =>
    simp only [hjc, Bool.not_false, Bool.not_true, if_false, Bool.false_eq_true, if_true]
    simp [Json.hasKey]
  case pos =>
    simp only [hjc, Bool.not_true, Bool.false_eq_true, if_false]
    have hraw : rawRequestBody
        (lookupJ content (match content.head? with
          | some e => if e.1 ≠ "" then e.1 else "application/json"
          | none => "application/json")) (some fv) =
        Json.obj (buildBodyFromForm fv) := by
      unfold rawRequestBody
      simp only [hlen, if_true, gt_iff_lt]
      have h1 : (Json.obj (buildBodyFromForm fv)).truthy = true := rfl
      have h2 : jsKeysLength (Json.obj (buildBodyFromForm fv)) =
          (buildBodyFromForm fv).length := rfl
      simp only [h1, Bool.not_true, Bool.false_eq_true, false_or, h2]
      simp [List.length_eq_zero, hne]
    rw [hraw]
    unfold finalizeBody
    have h1 : (Json.obj (buildBodyFromForm fv)).truthy = true := rfl
    simp only [h1, if_true]
    have hclean : cleanEmptyArrays (Json.obj (buildBodyFromForm fv)) =
        (if (cleanEntries (buildBodyFromForm fv)).length > 0 then
          Json.obj (cleanEntries (buildBodyFromForm fv)) else Json.undef) := by
      rfl
    rw [hclean]
    by_cases hce : (cleanEntries (buildBodyFromForm fv)).length > 0
    · simp only [hce, if_true, Json.truthy_obj, Json.typeofObject, Json.isArr,
        Bool.not_false, Bool.and_true, Bool.and_self, if_true]
      unfold Json.hasKey
      by_cases hany : ((cleanEntries (buildBodyFromForm fv)).any (fun e => e.1 = k)) = true
      · exact absurd (cleanEntries_any_sub _ _ hany) (by simp [hbody])
      · exact Bool.not_eq_true _ ▸ hany
    · simp only [hce, if_false]
      simp [Json.truthy_undef, Json.hasKey]

/-- Witness for C4 (amended): with one non-empty key `a` and the key
`tags` left as an empty array, `tags` does not appear in the generated
body. -/
theorem buildRequestBody_omits_empty_form_keys_witness :
    (([("a", Json.str "x"), ("tags", Json.arr [])].map
      (Prod.fst (α := String) (β := Json))).Nodup) ∧
    buildBodyFromForm [("a", Json.str "x"), ("tags", Json.arr [])] ≠ [] ∧
    emptyFormValue (lookupJ [("a", Json.str "x"), ("tags", Json.arr [])] "tags") = true ∧
    (buildRequestBody (some [("application/json", Json.obj [])])
      (some [("a", Json.str "x"), ("tags", Json.arr [])])).hasKey "tags" = false :=
  ⟨by decide, by decide, by decide,
    buildRequestBody_omits_empty_form_keys _ _ _ (by decide) (by decide) (by decide)⟩

/-!
## Form Descriptor Builder (`code-generator.tsx`, `formatLabel` /
`getFieldType` / `processSchemaProperties`, lines 781–991)
-/

/-- A built form field (the `FormFieldConfig` interface of
`components/api-playground/types`). Attributes that the source leaves
unset on a branch are `Json.undef` (respectively `none` for `nullable`,
`nestedFields` and `discriminator`), matching absent JavaScript object
properties. The `discriminator` component is the
`{propertyName, variants}` record with `variants` as an insertion-ordered
map from discriminator value to field list. -/
inductive FormFieldConfig where
  | mk
    (name : String)
    (label : String)
    (description : Json)
    (ftype : String)
    (placeholder : Json)
    (defaultValue : Json)
    (options : Json)
    (required : Bool)
    (nullable : Option Bool)
    (format : Json)
    (minimum : Json)
    (maximum : Json)
    (itemSchema : Json)
    (nestedFields : Option (List FormFieldConfig))
    (discriminator : Option (String × List (String × List FormFieldConfig)))
  deriving Repr

def FormFieldConfig.name : FormFieldConfig → String
  | .mk n _ _ _ _ _ _ _ _ _ _ _ _ _ _ => n

def FormFieldConfig.label : FormFieldConfig → String
  | .mk _ l _ _ _ _ _ _ _ _ _ _ _ _ _ => l

def FormFieldConfig.description : FormFieldConfig → Json
  | .mk _ _ d _ _ _ _ _ _ _ _ _ _ _ _ => d

def FormFieldConfig.ftype : FormFieldConfig → String
  | .mk _ _ _ t _ _ _ _ _ _ _ _ _ _ _ => t

def FormFieldConfig.placeholder : FormFieldConfig → Json
  | .mk _ _ _ _ p _ _ _ _ _ _ _ _ _ _ => p

def FormFieldConfig.defaultValue : FormFieldConfig → Json
  | .mk _ _ _ _ _ d _ _ _ _ _ _ _ _ _ => d

def FormFieldConfig.options : FormFieldConfig → Json
  | .mk _ _ _ _ _ _ o _ _ _ _ _ _ _ _ => o

def FormFieldConfig.required : FormFieldConfig → Bool
  | .mk _ _ _ _ _ _ _ r _ _ _ _ _ _ _ => r

def FormFieldConfig.nullable : FormFieldConfig → Option Bool
  | .mk _ _ _ _ _ _ _ _ n _ _ _ _ _ _ => n

def FormFieldConfig.format : FormFieldConfig → Json
  | .mk _ _ _ _ _ _ _ _ _ f _ _ _ _ _ => f

def FormFieldConfig.minimum : FormFieldConfig → Json
  | .mk _ _ _ _ _ _ _ _ _ _ m _ _ _ _ => m

def FormFieldConfig.maximum : FormFieldConfig → Json
  | .mk _ _ _ _ _ _ _ _ _ _ _ m _ _ _ => m

def FormFieldConfig.itemSchema : FormFieldConfig → Json
  | .mk _ _ _ _ _ _ _ _ _ _ _ _ s _ _ => s

def FormFieldConfig.nestedFields : FormFieldConfig → Option (List FormFieldConfig)
  | .mk _ _ _ _ _ _ _ _ _ _ _ _ _ nf _ => nf

def FormFieldConfig.discriminator :
    FormFieldConfig → Option (String × List (String × List FormFieldConfig))
  | .mk _ _ _ _ _ _ _ _ _ _ _ _ _ _ d => d

/-- Generic JavaScript record assignment (`rec[k] = v`): update in place
or append. -/
def setAssoc {α : Type} : List (String × α) → String → α → List (String × α)
  | [], k, v => [(k, v)]
  | e :: es, k, v => if e.1 = k then (k, v) :: es else e :: setAssoc es k v

/-- `formatLabel(name)`: first character upper-cased, underscores of the
remainder replaced by spaces. -/
def formatLabel (name : String) : String :=
  match name.data with
  | [] => ""
  | c :: cs => String.mk (c.toUpper :: cs.map (fun ch => if ch = '_' then ' ' else ch))

/-- `getFieldType(schema)` (lines 785–792). -/
def getFieldType (schema : Json) : String :=
  if (schema.get "type").isStrEq "boolean" then "switch"
  else if (schema.get "enum").truthy then "select"
  else if (schema.get "type").isStrEq "integer" || (schema.get "type").isStrEq "number" then
    "number"
  else if (schema.get "format").isStrEq "date-time" ||
      (schema.get "format").isStrEq "datetime" then "datetime"
  else if (schema.get "format").isStrEq "date" then "date"
  else "text"

/-- Split a character list on a separator character
(`String.prototype.split` semantics: `""` splits to `[""]`). -/
def splitOnChar : List Char → Char → List (List Char)
  | [], _ => [[]]
  | x :: xs, c =>
    let rest := splitOnChar xs c
    if x = c then [] :: rest
    else
      match rest with
      | r :: rs => (x :: r) :: rs
      | [] => [[x]]

/-- `f.name.split('.').pop() || f.name` — the last dot-segment of a field
name, with the whole name as fallback when the last segment is empty. -/
def lastDotSegment (name : String) : String :=
  match (splitOnChar name.data '.').getLast? with
  | some last => if last.isEmpty then name else String.mk last
  | none => name

/-- `v?.[i]` element access with optional chaining. -/
def jsIndex (j : Json) (i : Nat) : Json :=
  match j with
  | .arr xs => xs.getD i Json.undef
  | _ => Json.undef

/-- `Array.isArray(d) ? d : []` — the default value used for array-typed
fields. -/
def arrDefault (d : Json) : Json := if d.isArr then d else .arr []

/-- `vals.map(val => ({ value: val, label: val }))`. -/
def optionPairs (vals : List Json) : Json :=
  .arr (vals.map (fun v => .obj [("value", v), ("label", v)]))

/-- `e?.map(val => ({value: val, label: val}))` with optional chaining:
`undefined` when the enum is absent. -/
def enumOptionsOpt (e : Json) : Json :=
  match e with
  | .arr vs => optionPairs vs
  | _ => Json.undef

/-- `example?.toString()`: `undefined` for `null`/`undefined`, the
JavaScript string coercion otherwise. -/
def jsToStringOpt (v : Json) : Json :=
  match v with
  | .null => .undef
  | .undef => .undef
  | v => .str v.jsToString

/-- The `nullable` detection of `processSchemaProperties` (lines 805–808):
`propSchemaObj?.anyOf?.some(variant => variant?.type === 'null') ||
false`. -/
def propIsNullable (prop : Json) : Bool :=
  (prop.get "anyOf").variantList.any (fun v => (v.get "type").isStrEq "null")

/-- The per-variant collection loop of the discriminated content case
(lines 830–847), parameterized by the recursive field builder `rec`
(`processSchemaProperties` at the remaining fuel): for every variant with
truthy `properties` and a truthy first `type`-enum value, append the tag
to the tag list and register the variant's built fields — minus every
field whose last dot-segment is `type` — under the tag in the variants
record. `none` propagates fuel exhaustion of `rec`. -/
def contentVariantsFold (rec : Json → Json → String → Option (List FormFieldConfig)) :
    List Json → List Json × List (String × List FormFieldConfig) →
    Option (List Json × List (String × List FormFieldConfig))
  | [], acc => some acc
  | variant :: rest, acc =>
    if (variant.get "properties").truthy then
      let typeEnum := jsIndex (((variant.get "properties").get "type").get "enum") 0
      if typeEnum.truthy then
        match rec variant ((variant.get "required").jsOr (Json.arr [])) "" with
        | none => none
        | some variantNested =>
          contentVariantsFold rec rest
            (acc.1 ++ [typeEnum],
             setAssoc acc.2 typeEnum.jsToString
               (variantNested.filter (fun f => lastDotSegment f.name ≠ "type")))
      else contentVariantsFold rec rest acc
    else contentVariantsFold rec rest acc

/-- The synthesized discriminator selector (lines 851–858): a required
single-select named `type` whose options are the collected tag values. -/
def contentTypeField (allTypeEnums : List Json) : FormFieldConfig :=
  .mk "type" "Type" (.str "The type of the content part.") "select"
    .undef .undef (optionPairs allTypeEnums) true none .undef .undef .undef
    .undef none none

/-- The content special case of `processSchemaProperties` (lines 818–905),
parameterized by the recursive field builder `rec`. Result: outer `none`
is fuel exhaustion; `some none` means the case fell through to the
generic array handling; `some (some f)` is the built field. -/
def buildContentField (rec : Json → Json → String → Option (List FormFieldConfig))
    (resolved propSchema : Json) (fieldName label : String) (isRequired : Bool) :
    Option (Option FormFieldConfig) :=
  if (propSchema.get "type").isStrEq "array" && (propSchema.get "items").truthy then
    let merged := mergeContentPartTypes
      (Json.obj [("anyOf", resolved.get "_allVariants"),
        ("discriminator", resolved.get "_discriminator")])
    if merged.truthy then
      if (merged.get "anyOf").truthy then
        match contentVariantsFold rec (merged.get "anyOf").variantList ([], []) with
        | none => none
        | some acc =>
          let allFields := contentTypeField acc.1 :: acc.2.foldl (fun l e => l ++ e.2) []
          if allFields.length > 0 then
            some (some (.mk fieldName label (propSchema.get "description")
              "array-object" .undef (arrDefault (propSchema.get "default"))
              .undef isRequired none .undef .undef .undef .undef
              (some allFields) (some ("type", acc.2))))
          else some none
      else
        let itemsSchema := normalizeSchema merged
        if itemsSchema.truthy && ((itemsSchema.get "type").isStrEq "object" ||
            (itemsSchema.get "properties").truthy) then
          match rec itemsSchema ((itemsSchema.get "required").jsOr (Json.arr [])) "" with
          | none => none
          | some nested =>
            if nested.length > 0 then
              some (some (.mk fieldName label (propSchema.get "description")
                "array-object" .undef (arrDefault (propSchema.get "default"))
                .undef isRequired none .undef .undef .undef itemsSchema
                (some nested) none))
            else some none
        else some none
    else some none
  else some none

/-- One iteration of the property loop of `processSchemaProperties`
(lines 801–988), parameterized by the recursive field builder `rec`:
nullable detection on the raw property, normalization, the content
special case, then the array / object / primitive cases, appending at
most one field per property. `none` propagates fuel exhaustion. -/
def processPropertyStep (rec : Json → Json → String → Option (List FormFieldConfig))
    (resolved schemaRequired : Json) (parentName : String)
    (fields : List FormFieldConfig) (entry : String × Json) :
    Option (List FormFieldConfig) :=
  let name := entry.1
  let prop := entry.2
  let isNullable := propIsNullable prop
  let propSchema := normalizeSchema prop
  if !propSchema.truthy then some fields
  else
    let fieldName := if parentName ≠ "" then parentName ++ "." ++ name else name
    let isRequired := schemaRequired.arrItems.any (fun r => r == Json.str name)
    let label := formatLabel name
    let contentField : Option (Option FormFieldConfig) :=
      if name = "content" && (resolved.get "_discriminator").truthy &&
          (resolved.get "_allVariants").truthy then
        buildContentField rec resolved propSchema fieldName label isRequired
      else some none
    match contentField with
    | none => none
    | some (some f) => some (fields ++ [f])
    | some none =>
      -- Array (lines 908–948)
      if (propSchema.get "type").isStrEq "array" && (propSchema.get "items").truthy then
        let itemsSchema := normalizeSchema (propSchema.get "items")
        let arrayTail : Option (List FormFieldConfig) :=
          if itemsSchema.truthy && (itemsSchema.get "enum").truthy then
            some (fields ++ [.mk fieldName label (propSchema.get "description")
              "multi-select" .undef (arrDefault (propSchema.get "default"))
              (optionPairs (itemsSchema.get "enum").arrItems) isRequired none
              .undef .undef .undef .undef none none])
          else
            some (fields ++ [.mk fieldName label (propSchema.get "description")
              "array"
              ((propSchema.get "description").jsOr
                (.str "Enter comma-separated values"))
              (arrDefault (propSchema.get "default")) .undef isRequired none
              .undef .undef .undef .undef none none])
        if itemsSchema.truthy && ((itemsSchema.get "type").isStrEq "object" ||
            (itemsSchema.get "properties").truthy) then
          match rec itemsSchema ((itemsSchema.get "required").jsOr (Json.arr [])) "" with
          | none => none
          | some nested =>
            if nested.length > 0 then
              some (fields ++ [.mk fieldName label (propSchema.get "description")
                "array-object" .undef (arrDefault (propSchema.get "default"))
                .undef isRequired none .undef .undef .undef itemsSchema
                (some nested) none])
            else arrayTail
        else arrayTail
      else
        -- Object (lines 951–969), falling through to Primitive
        -- (lines 972–987) when it yields no nested fields.
        let primitiveField : FormFieldConfig :=
          .mk fieldName label (propSchema.get "description")
            (getFieldType propSchema)
            (if (propSchema.get "type").isStrEq "array" then
              (propSchema.get "description").jsOr
                (.str "Enter comma-separated values")
            else
              (propSchema.get "description").jsOr
                (jsToStringOpt (propSchema.get "example")))
            (if (propSchema.get "type").isStrEq "array" then
              arrDefault (propSchema.get "default")
            else propSchema.get "default")
            (enumOptionsOpt (propSchema.get "enum")) isRequired (some isNullable)
            (propSchema.get "format") (propSchema.get "minimum")
            (propSchema.get "maximum") .undef none none
        if (propSchema.get "type").isStrEq "object" ||
            (propSchema.get "properties").truthy then
          let objectSchema :=
            if (propSchema.get "type").isStrEq "object" then propSchema
            else normalizeSchema propSchema
          match (if (objectSchema.get "properties").truthy then
              rec objectSchema ((objectSchema.get "required").jsOr (Json.arr [])) fieldName
            else some []) with
          | none => none
          | some nested =>
            if nested.length > 0 then
              some (fields ++ [.mk fieldName label (propSchema.get "description")
                "object" .undef ((propSchema.get "default").jsOr (.obj []))
                .undef isRequired none .undef .undef .undef .undef
                (some nested) none])
            else some (fields ++ [primitiveField])
        else some (fields ++ [primitiveField])

/-- `processSchemaProperties(schema, required, parentName)` (lines
794–991). The extra `Nat` argument is recursion fuel: the source assumes
an acyclic, fully dereferenced schema document (its recursion depth is
bounded by the schema's nesting depth), and `none` signals that the
supplied fuel was insufficient — claim theorems quantify over the fuel.
The unused 4th source parameter `parentSchema` is dropped. Every
recursive call of the source consumes one unit of fuel. -/
def processSchemaProperties : Nat → Json → Json → String → Option (List FormFieldConfig)
  | 0, _, _, _ => none
  | Nat.succ fuel, schema, required, parentName =>
    let resolved := normalizeSchema schema
    if !(resolved.get "properties").truthy then some []
    else
      let schemaRequired := (resolved.get "required").jsOr required
      (jsEntries (resolved.get "properties")).foldlM
        (processPropertyStep (fun s r p => processSchemaProperties fuel s r p)
          resolved schemaRequired parentName)
        []

/-- The `text` content-part variant of the spec's concrete scenario:
`text{text: string}` with a `type` tag enum `['text']`. -/
def textPartSchema : Json :=
  .obj [("type", .str "object"),
    ("properties", .obj [("type", .obj [("enum", .arr [.str "text"])]),
      ("text", .obj [("type", .str "string")])]),
    ("required", .arr [.str "type", .str "text"])]

/-- The `image` content-part variant: `image{url: string}`. -/
def imagePartSchema : Json :=
  .obj [("type", .str "object"),
    ("properties", .obj [("type", .obj [("enum", .arr [.str "image"])]),
      ("url", .obj [("type", .str "string")])])]

/-- A message variant whose `content` property is a union containing an
array of the two content parts. -/
def msgVariantSchema : Json :=
  .obj [("type", .str "object"),
    ("properties", .obj [("content",
      .obj [("anyOf", .arr [.obj [("type", .str "array"),
        ("items", .obj [("anyOf", .arr [textPartSchema, imagePartSchema])])]])])])]

/-- The discriminated parent schema carrying the content-part union. -/
def chatParentSchema : Json :=
  .obj [("anyOf", .arr [msgVariantSchema]),
    ("discriminator", .obj [("propertyName", .str "role")])]

example :
    ((processSchemaProperties 5 chatParentSchema (.arr []) "").map
      (fun fs => fs.map (·.name))) = some ["content"] := by decide

example :
    ((processSchemaProperties 5 chatParentSchema (.arr []) "").map
      (fun fs => fs.map (·.ftype))) = some ["array-object"] := by decide

example :
    ((processSchemaProperties 5 chatParentSchema (.arr []) "").map
      (fun fs => fs.map (fun f => (f.nestedFields.getD []).map (·.name)))) =
    some [["type", "text", "url"]] := by decide

example :
    ((processSchemaProperties 5 chatParentSchema (.arr []) "").map
      (fun fs => fs.map (fun f =>
        (f.discriminator.map Prod.fst,
          f.discriminator.map (fun d => d.2.map (fun v => (v.1, v.2.map (·.name)))))))) =
    some [(some "type", some [("text", ["text"]), ("image", ["url"])])] := by decide

/-!
## Claim C2: the discriminated content-part union
-/

/-- Generic record lookup returning the stored value. -/
def lookupAssoc {α : Type} (es : List (String × α)) (k : String) : Option α :=
  (es.find? (fun e => e.1 = k)).map (·.2)

theorem lookupAssoc_setAssoc_self {α : Type} (es : List (String × α)) (k : String) (v : α) :
    lookupAssoc (setAssoc es k v) k = some v := by
  induction es with
  | nil => simp [setAssoc, lookupAssoc, List.find?]
  | cons e es ih =>
    by_cases he : e.1 = k
    · simp [setAssoc, he, lookupAssoc, List.find?]
    · simp only [setAssoc, he, if_false]
      simp only [lookupAssoc] at ih ⊢
      rw [List.find?_cons_of_neg _ (by simp [he])]
      exact ih

theorem lookupAssoc_setAssoc_ne {α : Type} (es : List (String × α)) (k : String) (v : α)
    (k' : String) (h : k' ≠ k) :
    lookupAssoc (setAssoc es k v) k' = lookupAssoc es k' := by
  have hkk : ¬ k = k' := fun hh => h hh.symm
  induction es with
  | nil =>
    simp only [setAssoc, lookupAssoc]
    rw [List.find?_cons_of_neg _ (by simp [hkk])]
  | cons e es ih =>
    by_cases he : e.1 = k
    · have he' : ¬ e.1 = k' := by rw [he]; exact hkk
      simp only [setAssoc, he, if_true, lookupAssoc]
      rw [List.find?_cons_of_neg _ (by simp [hkk]), List.find?_cons_of_neg _ (by simp [he'])]
    · simp only [setAssoc, he, if_false, lookupAssoc] at ih ⊢
      by_cases he' : e.1 = k'
      · rw [List.find?_cons_of_pos _ (by simp [he']), List.find?_cons_of_pos _ (by simp [he'])]
      · rw [List.find?_cons_of_neg _ (by simp [he']), List.find?_cons_of_neg _ (by simp [he'])]
        exact ih

/-- The type tag a variant contributes in the content-part collection:
the first `enum` value of its `type` property, present only when the
variant has truthy `properties` and the tag itself is truthy. -/
def tagOf (w : Json) : Option Json :=
  if (w.get "properties").truthy then
    let t := jsIndex (((w.get "properties").get "type").get "enum") 0
    if t.truthy then some t else none
  else none

theorem contentVariantsFold_cons_tag
    (rec : Json → Json → String → Option (List FormFieldConfig))
    (v : Json) (rest : List Json)
    (acc : List Json × List (String × List FormFieldConfig)) (t : Json)
    (ht : tagOf v = some t) :
    contentVariantsFold rec (v :: rest) acc =
      match rec v ((v.get "required").jsOr (Json.arr [])) "" with
      | none => none
      | some nested => contentVariantsFold rec rest
          (acc.1 ++ [t], setAssoc acc.2 t.jsToString
            (nested.filter (fun f => lastDotSegment f.name ≠ "type"))) := by
  unfold tagOf at ht
  by_cases h1 : (v.get "properties").truthy = true
  · rw [if_pos h1] at ht
    by_cases h2 : (jsIndex (((v.get "properties").get "type").get "enum") 0).truthy = true
    · rw [if_pos h2] at ht
      have ht2 : jsIndex (((v.get "properties").get "type").get "enum") 0 = t :=
        Option.some.inj ht
      subst ht2
      simp only [contentVariantsFold, h1, h2, if_true]
    · rw [if_neg h2] at ht; cases ht
  · rw [if_neg h1] at ht; cases ht

theorem contentVariantsFold_cons_notag
    (rec : Json → Json → String → Option (List FormFieldConfig))
    (v : Json) (rest : List Json)
    (acc : List Json × List (String × List FormFieldConfig))
    (ht : tagOf v = none) :
    contentVariantsFold rec (v :: rest) acc = contentVariantsFold rec rest acc := by
  unfold tagOf at ht
  by_cases h1 : (v.get "properties").truthy = true
  · rw [if_pos h1] at ht
    by_cases h2 : (jsIndex (((v.get "properties").get "type").get "enum") 0).truthy = true
    · rw [if_pos h2] at ht; cases ht
    · simp only [contentVariantsFold, h1, if_true, h2, Bool.false_eq_true, if_false]
  · simp only [contentVariantsFold, h1, Bool.false_eq_true, if_false]

theorem contentVariantsFold_tags
    (rec : Json → Json → String → Option (List FormFieldConfig)) :
    ∀ (vs : List Json) (acc : List Json × List (String × List FormFieldConfig))
      (out : List Json × List (String × List FormFieldConfig)),
    contentVariantsFold rec vs acc = some out → out.1 = acc.1 ++ vs.filterMap tagOf := by
  intro vs
  induction vs with
  | nil =>
    intro acc out h
    simp only [contentVariantsFold] at h
    cases h
    simp
  | cons v rest ih =>
    intro acc out h
    cases htag : tagOf v with
    | none =>
      rw [contentVariantsFold_cons_notag _ _ _ _ htag] at h
      rw [ih _ _ h]
      simp [List.filterMap_cons, htag]
    | some t =>
      rw [contentVariantsFold_cons_tag _ _ _ _ _ htag] at h
      cases hrec : rec v ((v.get "required").jsOr (Json.arr [])) "" with
      | none => rw [hrec] at h; cases h
      | some nested =>
        rw [hrec] at h
        rw [ih _ _ h]
        simp [List.filterMap_cons, htag]

theorem contentVariantsFold_frozen
    (rec : Json → Json → String → Option (List FormFieldConfig)) :
    ∀ (vs : List Json) (acc : List Json × List (String × List FormFieldConfig))
      (out : List Json × List (String × List FormFieldConfig)) (k : String),
    contentVariantsFold rec vs acc = some out →
    (∀ w ∈ vs, ∀ tw, tagOf w = some tw → tw.jsToString ≠ k) →
    lookupAssoc out.2 k = lookupAssoc acc.2 k := by
  intro vs
  induction vs with
  | nil =>
    intro acc out k h _
    simp only [contentVariantsFold] at h
    cases h
    rfl
  | cons v rest ih =>
    intro acc out k h hk
    cases htag : tagOf v with
    | none =>
      rw [contentVariantsFold_cons_notag _ _ _ _ htag] at h
      exact ih _ _ _ h (fun w hw => hk w (List.mem_cons_of_mem _ hw))
    | some t =>
      rw [contentVariantsFold_cons_tag _ _ _ _ _ htag] at h
      cases hrec : rec v ((v.get "required").jsOr (Json.arr [])) "" with
      | none => rw [hrec] at h; cases h
      | some nested =>
        rw [hrec] at h
        rw [ih _ _ _ h (fun w hw => hk w (List.mem_cons_of_mem _ hw))]
        exact lookupAssoc_setAssoc_ne _ _ _ _
          (fun heq => hk v (List.mem_cons_self _ _) t htag heq.symm)

theorem contentVariantsFold_registers
    (rec : Json → Json → String → Option (List FormFieldConfig)) :
    ∀ (pre : List Json) (variant : Json) (post : List Json)
      (acc out : List Json × List (String × List FormFieldConfig)) (t : Json),
    contentVariantsFold rec (pre ++ variant :: post) acc = some out →
    tagOf variant = some t →
    (∀ w ∈ post, ∀ tw, tagOf w = some tw → tw.jsToString ≠ t.jsToString) →
    ∃ nested, rec variant ((variant.get "required").jsOr (Json.arr [])) "" = some nested ∧
      lookupAssoc out.2 t.jsToString =
        some (nested.filter (fun f => lastDotSegment f.name ≠ "type")) := by
  intro pre
  induction pre with
  | nil =>
    intro variant post acc out t h htag hpost
    simp only [List.nil_append] at h
    rw [contentVariantsFold_cons_tag _ _ _ _ _ htag] at h
    cases hrec : rec variant ((variant.get "required").jsOr (Json.arr [])) "" with
    | none => rw [hrec] at h; cases h
    | some nested =>
      rw [hrec] at h
      refine ⟨nested, rfl, ?_⟩
      rw [contentVariantsFold_frozen rec post _ out _ h hpost]
      exact lookupAssoc_setAssoc_self _ _ _
  | cons p pre' ih =>
    intro variant post acc out t h htag hpost
    simp only [List.cons_append] at h
    cases htagp : tagOf p with
    | none =>
      rw [contentVariantsFold_cons_notag _ _ _ _ htagp] at h
      exact ih variant post _ out t h htag hpost
    | some tp =>
      rw [contentVariantsFold_cons_tag _ _ _ _ _ htagp] at h
      cases hrec : rec p ((p.get "required").jsOr (Json.arr [])) "" with
      | none => rw [hrec] at h; cases h
      | some nestedp =>
        rw [hrec] at h
        exact ih variant post _ out t h htag hpost

/-- C2 (amended): for a discriminated content-part union — the parent
carries `_discriminator`/`_allVariants`, the normalized `content`
property is array-typed with items, and `mergeContentPartTypes` keeps a
multi-variant union — the built field is an `array-object` whose first
nested field is the synthesized required single-select named `type` with
one option per variant type-tag (the first `enum` value of each variant
having truthy properties and a truthy tag, in variant order), and whose
`discriminator.variants` record registers, under each tag not reused by a
later variant, exactly the variant's built fields minus every field whose
name's last dot-segment is `type` (for dot-free property names this is
exactly the discriminator field; the correction is that a property whose
literal name ends in `.type` is removed as well). -/
theorem buildContentField_discriminator_spec
    (rec : Json → Json → String → Option (List FormFieldConfig))
    (resolved propSchema : Json) (fieldName label : String) (isRequired : Bool)
    (f : FormFieldConfig)
    (hbuild : buildContentField rec resolved propSchema fieldName label isRequired =
      some (some f))
    (hmulti : ((mergeContentPartTypes (Json.obj [("anyOf", resolved.get "_allVariants"),
      ("discriminator", resolved.get "_discriminator")])).get "anyOf").truthy = true) :
    ∃ tags vmap,
      contentVariantsFold rec
        ((mergeContentPartTypes (Json.obj [("anyOf", resolved.get "_allVariants"),
          ("discriminator", resolved.get "_discriminator")])).get "anyOf").variantList
        ([], []) = some (tags, vmap) ∧
      tags = ((mergeContentPartTypes (Json.obj [("anyOf", resolved.get "_allVariants"),
          ("discriminator", resolved.get "_discriminator")])).get
          "anyOf").variantList.filterMap tagOf ∧
      f.name = fieldName ∧
      f.ftype = "array-object" ∧
      f.nestedFields = some (contentTypeField tags :: vmap.foldl (fun l e => l ++ e.2) []) ∧
      (contentTypeField tags).name = "type" ∧
      (contentTypeField tags).ftype = "select" ∧
      (contentTypeField tags).required = true ∧
      (contentTypeField tags).options = optionPairs tags ∧
      f.discriminator = some ("type", vmap) ∧
      (∀ (pre : List Json) (variant : Json) (post : List Json) (t : Json),
        ((mergeContentPartTypes (Json.obj [("anyOf", resolved.get "_allVariants"),
          ("discriminator", resolved.get "_discriminator")])).get "anyOf").variantList =
          pre ++ variant :: post →
        tagOf variant = some t →
        (∀ w ∈ post, ∀ tw, tagOf w = some tw → tw.jsToString ≠ t.jsToString) →
        ∃ nested, rec variant ((variant.get "required").jsOr (Json.arr [])) "" =
            some nested ∧
          lookupAssoc vmap t.jsToString =
            some (nested.filter (fun g => lastDotSegment g.name ≠ "type"))) := by
  unfold buildContentField at hbuild
  set m := mergeContentPartTypes (Json.obj [("anyOf", resolved.get "_allVariants"),
    ("discriminator", resolved.get "_discriminator")]) with hm
  by_cases h1 : ((propSchema.get "type").isStrEq "array" &&
      (propSchema.get "items").truthy) = true
  · rw [if_pos h1] at hbuild
    by_cases h2 : m.truthy = true
    · rw [if_pos h2] at hbuild
      rw [if_pos hmulti] at hbuild
      cases hfold : contentVariantsFold rec (m.get "anyOf").variantList ([], []) with
      | none => rw [hfold] at hbuild; cases hbuild
      | some acc =>
        obtain ⟨tags0, vmap0⟩ := acc
        rw [hfold] at hbuild
        simp only [List.length_cons, Nat.zero_lt_succ, gt_iff_lt, if_true] at hbuild
        have hf := Option.some.inj (Option.some.inj hbuild)
        refine ⟨tags0, vmap0, rfl,
          by simpa using contentVariantsFold_tags rec _ _ _ hfold, ?_⟩
        rw [← hf]
        refine ⟨rfl, rfl, rfl, rfl, rfl, rfl, rfl, rfl, ?_⟩
        intro pre variant post t hsplit htag hpost
        rw [hsplit] at hfold
        exact contentVariantsFold_registers rec pre variant post ([], []) (tags0, vmap0)
          t hfold htag hpost
    · rw [if_neg h2] at hbuild; cases Option.some.inj hbuild
  · rw [if_neg h1] at hbuild; cases Option.some.inj hbuild

/-- A content-part variant whose second property is literally named
`x.type` — its built field's last dot-segment is `type` even though it is
not the discriminator field. -/
def dotVariantSchema : Json :=
  .obj [("type", .str "object"),
    ("properties", .obj [("type", .obj [("enum", .arr [.str "t"])]),
      ("x.type", .obj [("type", .str "string")])])]

/-- A discriminated parent whose content parts are `dotVariantSchema` and
the image part. -/
def dotParentSchema : Json :=
  .obj [("anyOf", .arr [.obj [("type", .str "object"),
      ("properties", .obj [("content",
        .obj [("anyOf", .arr [.obj [("type", .str "array"),
          ("items", .obj [("anyOf", .arr [dotVariantSchema, imagePartSchema])])]])])])]]),
    ("discriminator", .obj [("propertyName", .str "role")])]

/-- Counterexample to C2 as stated: for the variant with a property
literally named `x.type`, the fields built from the variant's properties
minus the `type` (discriminator) field are `[x.type]`, but the variants
record registers the empty list under the tag `t` — the builder filters
on the last dot-segment of the name, removing `x.type` as well. -/
theorem contentVariants_dotted_name_filtered :
    ((processSchemaProperties 4 dotVariantSchema (.arr []) "").map
      (fun fs => (fs.filter (fun f => f.name ≠ "type")).map (·.name))) =
      some ["x.type"] ∧
    ((processSchemaProperties 5 dotParentSchema (.arr []) "").map
      (fun fs => fs.map (fun f => f.discriminator.map
        (fun d => d.2.map (fun v => (v.1, v.2.map (·.name))))))) =
      some [some [("t", []), ("image", ["url"])]] :=
  ⟨by decide, by decide⟩

/-- The normalized discriminated parent of the concrete scenario. -/
def c2Resolved : Json := normalizeSchema chatParentSchema

/-- The normalized `content` property schema of the concrete scenario. -/
def c2PropSchema : Json := normalizeSchema ((c2Resolved.get "properties").get "content")

/-- Witness for C2 (amended): the concrete text/image content-part union
yields an `array-object` field whose discriminator variants record is the
fold's record. -/
theorem buildContentField_discriminator_spec_witness :
    ((mergeContentPartTypes (Json.obj [("anyOf", c2Resolved.get "_allVariants"),
      ("discriminator", c2Resolved.get "_discriminator")])).get "anyOf").truthy = true ∧
    ∃ f, buildContentField (processSchemaProperties 4) c2Resolved c2PropSchema
        "content" "Content" true = some (some f) ∧
      ∃ tags vmap,
        contentVariantsFold (processSchemaProperties 4)
          ((mergeContentPartTypes (Json.obj [("anyOf", c2Resolved.get "_allVariants"),
            ("discriminator", c2Resolved.get "_discriminator")])).get
            "anyOf").variantList ([], []) = some (tags, vmap) ∧
        f.ftype = "array-object" ∧
        (contentTypeField tags).options = optionPairs tags ∧
        f.discriminator = some ("type", vmap) := by
  refine ⟨by decide, ?_⟩
  have hs : (buildContentField (processSchemaProperties 4) c2Resolved c2PropSchema
      "content" "Content" true).isSome = true := by decide
  have hs2 : ((buildContentField (processSchemaProperties 4) c2Resolved c2PropSchema
      "content" "Content" true).map Option.isSome) = some true := by decide
  cases hb : buildContentField (processSchemaProperties 4) c2Resolved c2PropSchema
      "content" "Content" true with
  | none => rw [hb] at hs; cases hs
  | some of =>
    cases of with
    | none => rw [hb] at hs2; cases Option.some.inj hs2
    | some f =>
      obtain ⟨tags, vmap, hfold, _, _, hty, _, _, _, _, hopts, hdisc, _⟩ :=
        buildContentField_discriminator_spec (processSchemaProperties 4)
          c2Resolved c2PropSchema "content" "Content" true f hb (by decide)
      exact ⟨f, rfl, tags, vmap, hfold, hty, hopts, hdisc⟩

/-!
## Claim C5: nullability detection
-/

theorem buildContentField_out_shape
    (rec : Json → Json → String → Option (List FormFieldConfig))
    (resolved propSchema : Json) (fieldName label : String) (isRequired : Bool)
    (f : FormFieldConfig)
    (h : buildContentField rec resolved propSchema fieldName label isRequired =
      some (some f)) :
    f.name = fieldName ∧ f.ftype = "array-object" ∧ f.nullable = none := by
  unfold buildContentField at h
  dsimp only at h
  repeat' split at h
  all_goals try (exact Option.noConfusion h)
  all_goals injection h with h1
  all_goals try (exact Option.noConfusion h1)
  all_goals injection h1 with h2
  all_goals subst h2
  all_goals exact ⟨rfl, rfl, rfl⟩

theorem processPropertyStep_shape
    (rec : Json → Json → String → Option (List FormFieldConfig))
    (resolved schemaRequired : Json) (parentName : String)
    (fields : List FormFieldConfig) (entry : String × Json)
    (out : List FormFieldConfig)
    (h : processPropertyStep rec resolved schemaRequired parentName fields entry =
      some out) :
    out = fields ∨ ∃ f, out = fields ++ [f] ∧
      f.name = (if parentName ≠ "" then parentName ++ "." ++ entry.1 else entry.1) ∧
      (f.nullable = some (propIsNullable entry.2) ∨
        (f.nullable = none ∧
          f.ftype ∈ (["object", "array-object", "multi-select", "array"] : List String))) := by
  unfold processPropertyStep at h
  dsimp only at h
  set fn := if parentName ≠ "" then parentName ++ "." ++ entry.1 else entry.1 with hfn
  repeat' split at h
  all_goals first
    | (exact Or.inl (Option.some.inj h).symm)
    | (exact Option.noConfusion h)
    | (refine Or.inr ⟨_, (Option.some.inj h).symm, rfl, Or.inl rfl⟩)
    | (refine Or.inr ⟨_, (Option.some.inj h).symm, rfl, Or.inr ⟨rfl, List.Mem.head _⟩⟩)
    | (refine Or.inr ⟨_, (Option.some.inj h).symm, rfl,
        Or.inr ⟨rfl, List.Mem.tail _ (List.Mem.head _)⟩⟩)
    | (refine Or.inr ⟨_, (Option.some.inj h).symm, rfl,
        Or.inr ⟨rfl, List.Mem.tail _ (List.Mem.tail _ (List.Mem.head _))⟩⟩)
    | (refine Or.inr ⟨_, (Option.some.inj h).symm, rfl,
        Or.inr ⟨rfl, List.Mem.tail _ (List.Mem.tail _ (List.Mem.tail _ (List.Mem.head _)))⟩⟩)
    | (rename_i f0 heq
       split at heq
       · obtain ⟨hn, hty, hnul⟩ := buildContentField_out_shape _ _ _ _ _ _ _ heq
         refine Or.inr ⟨f0, (Option.some.inj h).symm, hn, Or.inr ⟨hnul, ?_⟩⟩
         rw [hty]
         exact List.Mem.tail _ (List.Mem.head _)
       · exact Option.noConfusion (Option.some.inj heq))

theorem foldlM_processPropertyStep_origin
    (rec : Json → Json → String → Option (List FormFieldConfig))
    (resolved schemaRequired : Json) (parentName : String) :
    ∀ (entries : List (String × Json)) (acc fields : List FormFieldConfig),
    List.foldlM (processPropertyStep rec resolved schemaRequired parentName) acc entries =
      some fields →
    ∀ f ∈ fields, f ∈ acc ∨ ∃ e ∈ entries,
      f.name = (if parentName ≠ "" then parentName ++ "." ++ e.1 else e.1) ∧
      (f.nullable = some (propIsNullable e.2) ∨
        (f.nullable = none ∧
          f.ftype ∈ (["object", "array-object", "multi-select", "array"] : List String))) := by
  intro entries
  induction entries with
  | nil =>
    intro acc fields h f hf
    simp only [List.foldlM_nil] at h
    cases h
    exact Or.inl hf
  | cons e es ih =>
    intro acc fields h f hf
    rw [List.foldlM_cons] at h
    cases hstep : processPropertyStep rec resolved schemaRequired parentName acc e with
    | none => rw [hstep] at h; cases h
    | some acc2 =>
      rw [hstep] at h
      have h2 : List.foldlM (processPropertyStep rec resolved schemaRequired parentName)
          acc2 es = some fields := h
      rcases ih acc2 fields h2 f hf with hacc2 | ⟨e2, he2, hp2⟩
      · rcases processPropertyStep_shape rec resolved schemaRequired parentName acc e acc2
            hstep with rfl | ⟨g, rfl, hgn, hgp⟩
        · exact Or.inl hacc2
        · rcases List.mem_append.mp hacc2 with h1 | h1
          · exact Or.inl h1
          · have hfg : f = g := by simpa using h1
            subst hfg
            exact Or.inr ⟨e, List.mem_cons_self _ _, hgn, hgp⟩
      · exact Or.inr ⟨e2, List.mem_cons_of_mem _ he2, hp2⟩

/-- C5 (amended): every field the builder emits originates from one
property entry of the normalized schema; when the field's `nullable`
attribute is set (every field of the primitive branch) it equals the
`anyOf`-null detection performed on the *raw* property — the parent of
the flattened union — and it is left unset exactly on the container-kind
fields (`object`, `array-object`, `multi-select`, `array`). A null
variant reaching the builder through `oneOf` rather than `anyOf` is not
detected (the correction to the claim). -/
theorem processSchemaProperties_nullable
    (fuel : Nat) (schema required : Json) (parentName : String)
    (fields : List FormFieldConfig)
    (h : processSchemaProperties (Nat.succ fuel) schema required parentName = some fields) :
    ∀ f ∈ fields, ∃ e, e ∈ jsEntries ((normalizeSchema schema).get "properties") ∧
      f.name = (if parentName ≠ "" then parentName ++ "." ++ e.1 else e.1) ∧
      (f.nullable = some (propIsNullable e.2) ∨
        (f.nullable = none ∧
          f.ftype ∈ (["object", "array-object", "multi-select", "array"] : List String))) := by
  intro f hf
  unfold processSchemaProperties at h
  by_cases hp : ((normalizeSchema schema).get "properties").truthy = true
  · simp only [hp, Bool.not_true, Bool.false_eq_true, if_false] at h
    rcases foldlM_processPropertyStep_origin _ _ _ _ _ _ _ h f hf with h0 | ⟨e, he, hp2⟩
    · cases h0
    · exact ⟨e, he, hp2⟩
  · rw [Bool.not_eq_true] at hp
    simp only [hp, Bool.not_false, if_true] at h
    cases h
    cases hf

/-- A schema whose property `p` expresses nullability through `oneOf`. -/
def oneOfNullSchema : Json :=
  .obj [("properties", .obj [("p", .obj [("oneOf",
    .arr [.obj [("type", .str "null")], .obj [("type", .str "string")]])])])]

/-- Counterexample to C5 as stated: the property's union (`oneOf`) has a
variant with `type: 'null'`, yet the built field's `nullable` attribute
is `false` — the builder only inspects `anyOf`. -/
theorem nullable_oneOf_missed :
    (((oneOfNullSchema.get "properties").get "p").get "oneOf").variantList.any
      (fun v => (v.get "type").isStrEq "null") = true ∧
    ((processSchemaProperties 3 oneOfNullSchema (.arr []) "").map
      (fun fs => fs.map (·.nullable))) = some [some false] :=
  ⟨by decide, by decide⟩

/-- A schema whose property `q` expresses nullability through `anyOf`. -/
def anyOfNullSchema : Json :=
  .obj [("properties", .obj [("q", .obj [("anyOf",
    .arr [.obj [("type", .str "null")], .obj [("type", .str "string")]])])])]

/-- Witness for C5 (amended) at the `anyOf`-nullable schema. -/
theorem processSchemaProperties_nullable_witness :
    ∃ fields, processSchemaProperties 3 anyOfNullSchema (.arr []) "" = some fields ∧
      ∀ f ∈ fields, ∃ e, e ∈ jsEntries ((normalizeSchema anyOfNullSchema).get "properties") ∧
        f.name = (if ("" : String) ≠ "" then "" ++ "." ++ e.1 else e.1) ∧
        (f.nullable = some (propIsNullable e.2) ∨
          (f.nullable = none ∧
            f.ftype ∈ (["object", "array-object", "multi-select", "array"] : List String))) := by
  have hs : (processSchemaProperties 3 anyOfNullSchema (.arr []) "").isSome = true := by
    decide
  cases hp : processSchemaProperties 3 anyOfNullSchema (.arr []) "" with
  | none => rw [hp] at hs; cases hs
  | some fields =>
    exact ⟨fields, rfl, processSchemaProperties_nullable 2 _ _ _ _ hp⟩

example : ((processSchemaProperties 3 anyOfNullSchema (.arr []) "").map
    (fun fs => fs.map (·.nullable))) = some [some true] := by decide

/-!
## Code Sample Generator: renderers (`code-generator.tsx`, lines 249–619)
-/

/-- `Array.prototype.join(sep)` on an array of strings. -/
def joinSep (sep : String) : List String → String
  | [] => ""
  | a :: as => as.foldl (fun acc x => acc ++ sep ++ x) a

/-- Uppercase hex digit. -/
def hexDigitUpper (n : Nat) : Char :=
  if n < 10 then Char.ofNat (48 + n) else Char.ofNat (55 + n)

/-- Lowercase hex digit. -/
def hexDigitLower (n : Nat) : Char :=
  if n < 10 then Char.ofNat (48 + n) else Char.ofNat (87 + n)

/-- UTF-8 bytes of a character. -/
def utf8Bytes (c : Char) : List Nat :=
  let n := c.toNat
  if n < 128 then [n]
  else if n < 2048 then [192 + n / 64, 128 + n % 64]
  else if n < 65536 then [224 + n / 4096, 128 + (n / 64) % 64, 128 + n % 64]
  else [240 + n / 262144, 128 + (n / 4096) % 64, 128 + (n / 64) % 64, 128 + n % 64]

/-- The characters `encodeURIComponent` leaves unencoded
(`A–Z a–z 0–9 - _ . ! ~ * ' ( )`). -/
def isUriUnreserved (c : Char) : Bool :=
  (65 ≤ c.toNat && c.toNat ≤ 90) || (97 ≤ c.toNat && c.toNat ≤ 122) ||
  (48 ≤ c.toNat && c.toNat ≤ 57) ||
  c = '-' || c = '_' || c = '.' || c = '!' || c = '~' || c = '*' ||
  c = chSQuote || c = '(' || c = ')'

/-- `encodeURIComponent(s)`: unreserved characters pass through, every
other character is percent-encoded byte-by-byte in UTF-8 with uppercase
hex digits. -/
def encodeURIComponent (s : String) : String :=
  ⟨s.data.foldr
    (fun c acc =>
      (if isUriUnreserved c then [c]
       else (utf8Bytes c).foldr
         (fun b a => '%' :: hexDigitUpper (b / 16) :: hexDigitUpper (b % 16) :: a) []) ++ acc)
    []⟩

example : encodeURIComponent "a b&c" = "a%20b%26c" := by decide

/-- The `JSON.stringify` escape of one string character: `"` and `\\`
are backslash-escaped, the named control escapes are used, and the
remaining control characters become `\u00XX`. -/
def jsonQuoteChar (c : Char) : List Char :=
  if c = chDQuote then [chBackslash, chDQuote]
  else if c = chBackslash then [chBackslash, chBackslash]
  else if c = '\n' then [chBackslash, 'n']
  else if c = '\r' then [chBackslash, 'r']
  else if c = '\t' then [chBackslash, 't']
  else if c.toNat = 8 then [chBackslash, 'b']
  else if c.toNat = 12 then [chBackslash, 'f']
  else if c.toNat < 32 then
    [chBackslash, 'u', '0', '0', hexDigitLower (c.toNat / 16), hexDigitLower (c.toNat % 16)]
  else [c]

/-- The `JSON.stringify` rendering of a string literal. -/
def jsonQuote (s : String) : String :=
  ⟨chDQuote :: s.data.foldr (fun c acc => jsonQuoteChar c ++ acc) [chDQuote]⟩

mutual

/-- Compact `JSON.stringify(v)`: `none` models the JavaScript `undefined`
result (for an `undefined` input); inside arrays `undefined` renders as
`null`, inside objects `undefined`-valued entries are skipped. -/
def jsonStringify : Json → Option String
  | .undef => none
  | .null => some "null"
  | .bool b => some (if b then "true" else "false")
  | .num n => some (Json.intToString n)
  | .str s => some (jsonQuote s)
  | .arr xs => some ("[" ++ joinSep "," (jsonStringifyItems xs) ++ "]")
  | .obj es => some ("\x7b" ++ joinSep "," (jsonStringifyEntries es) ++ "\x7d")

/-- Array elements of compact `JSON.stringify`. -/
def jsonStringifyItems : List Json → List String
  | [] => []
  | x :: xs => ((jsonStringify x).getD "null") :: jsonStringifyItems xs

/-- Object entries of compact `JSON.stringify`. -/
def jsonStringifyEntries : List (String × Json) → List String
  | [] => []
  | (k, v) :: es =>
    match jsonStringify v with
    | some sv => (jsonQuote k ++ ":" ++ sv) :: jsonStringifyEntries es
    | none => jsonStringifyEntries es

end

example : jsonStringify (.obj [("name", .str "Ada"), ("age", .num 30)]) =
    some "\x7b\"name\":\"Ada\",\"age\":30\x7d" := by decide

/-- `n` spaces. -/
def spaces (n : Nat) : String := ⟨List.replicate n ' '⟩

mutual

/-- `JSON.stringify(v, null, 2)` at the given current indentation. -/
def jsonStringifyInd : Nat → Json → Option String
  | _, .undef => none
  | _, .null => some "null"
  | _, .bool b => some (if b then "true" else "false")
  | _, .num n => some (Json.intToString n)
  | _, .str s => some (jsonQuote s)
  | ind, .arr xs =>
    match jsonStringifyIndItems ind xs with
    | [] => some "[]"
    | items => some ("[\n" ++
        joinSep ",\n" (items.map (fun it => spaces (ind + 2) ++ it)) ++
        "\n" ++ spaces ind ++ "]")
  | ind, .obj es =>
    match jsonStringifyIndEntries ind es with
    | [] => some "\x7b\x7d"
    | entries => some ("\x7b\n" ++
        joinSep ",\n" (entries.map (fun it => spaces (ind + 2) ++ it)) ++
        "\n" ++ spaces ind ++ "\x7d")

/-- Array elements of indented `JSON.stringify`. -/
def jsonStringifyIndItems : Nat → List Json → List String
  | _, [] => []
  | ind, x :: xs =>
    ((jsonStringifyInd (ind + 2) x).getD "null") :: jsonStringifyIndItems ind xs

/-- Object entries of indented `JSON.stringify`. -/
def jsonStringifyIndEntries : Nat → List (String × Json) → List String
  | _, [] => []
  | ind, (k, v) :: es =>
    match jsonStringifyInd (ind + 2) v with
    | some sv => (jsonQuote k ++ ": " ++ sv) :: jsonStringifyIndEntries ind es
    | none => jsonStringifyIndEntries ind es

end

/-- ASCII upper-casing (`method.toUpperCase()` on ASCII method names). -/
def strToUpper (s : String) : String := ⟨s.data.map Char.toUpper⟩

/-- ASCII lower-casing (`language.toLowerCase()` etc.). -/
def strToLower (s : String) : String := ⟨s.data.map Char.toLower⟩

/-- Replace every occurrence of a character (the `/x/g` single-character
regex replaces of the source). -/
def charReplaceAll (s : String) (c : Char) (r : Char) : String :=
  ⟨s.data.map (fun x => if x = c then r else x)⟩

/-- JavaScript whitespace for `String.prototype.trim`. -/
def isJsWs (c : Char) : Bool :=
  c = ' ' || c = '\t' || c = '\n' || c = '\r' || c.toNat = 11 || c.toNat = 12

/-- `s.trim()`. -/
def jsTrim (s : String) : String :=
  ⟨((s.data.dropWhile isJsWs).reverse.dropWhile isJsWs).reverse⟩

/-- `s.slice(0, -2)`: drop the final two characters. -/
def sliceDropTwo (s : String) : String := ⟨s.data.dropLast.dropLast⟩

/-- A single-quote string (the generated samples quote with `'`). -/
def sqS : String := ⟨[chSQuote]⟩

/-- The query parts contributed by one `[k, v]` entry of `queryParams`
(lines 477–486): an array value pushes one `k=encodeURIComponent(String(item))`
part per element in order, any other value pushes a single part. -/
def partsFor (kv : String × Json) : List String :=
  match kv.2 with
  | .arr items => items.map (fun item => kv.1 ++ "=" ++ encodeURIComponent item.jsToString)
  | v => [kv.1 ++ "=" ++ encodeURIComponent v.jsToString]

/-- The `queryParts` array built by the `for (const [k, v] of
Object.entries(queryParams))` loops of `generateCurlCode` (lines 476–486)
and `generateJavaScriptCode` (lines 410–420). -/
def buildQueryParts (queryParams : List (String × Json)) : List String :=
  queryParams.foldl (fun parts kv => parts ++ partsFor kv) []

/-- `getAuthHeaderName(authScheme)` (lines 513–535). -/
def getAuthHeaderName (authScheme : Json) : String :=
  if !authScheme.truthy then "Authorization"
  else if (authScheme.get "type").isStrEq "apiKey" && (authScheme.get "in").isStrEq "header" then
    (Json.jsOr (authScheme.get "name") (Json.str "Authorization")).jsToString
  else if (authScheme.get "type").isStrEq "http" && (authScheme.get "scheme").isStrEq "bearer" then
    "Authorization"
  else if (authScheme.get "type").isStrEq "http" && (authScheme.get "scheme").isStrEq "basic" then
    "Authorization"
  else "Authorization"

/-- `getAuthHeaderValue(authScheme, apiKey)` (lines 540–562). -/
def getAuthHeaderValue (authScheme : Json) (apiKey : String) : String :=
  if !authScheme.truthy then apiKey
  else if (authScheme.get "type").isStrEq "apiKey" then apiKey
  else if (authScheme.get "type").isStrEq "http" && (authScheme.get "scheme").isStrEq "bearer" then
    "Bearer " ++ apiKey
  else if (authScheme.get "type").isStrEq "http" && (authScheme.get "scheme").isStrEq "basic" then
    "Basic " ++ apiKey
  else apiKey

/-- `generateCurlCode` (lines 455–508), translated statement by statement;
the `authType` argument is accepted and unused exactly as in the source. -/
def generateCurlCode (method path baseUrl : String) (queryParams : List (String × Json))
    (requestBody : Json) (hasAuth : Bool) (authType : Option String) (authScheme : Json)
    (apiKeyDisplay contentType : String) : String :=
  let url := baseUrl ++ path
  let hasQuery := decide (queryParams.length > 0)
  let hasBody := requestBody.truthy && decide (jsKeysLength requestBody > 0)
  let qp := buildQueryParts queryParams
  let code :=
    ("curl -X " ++ strToUpper method ++ " \\\n") ++
    ("  " ++ sqS ++ url) ++
    (if hasQuery && decide (qp.length > 0) then "?" ++ joinSep "&" qp else "") ++
    (sqS ++ " \\\n") ++
    (if hasBody then
      ("  -H " ++ sqS ++ "Content-Type: " ++ contentType ++ sqS ++ " \\\n") ++
      ("  -d " ++ sqS ++ (jsonStringify requestBody).getD "undefined" ++ sqS ++ " \\\n")
     else "")
  if hasAuth then
    code ++ ("  -H " ++ sqS ++ getAuthHeaderName authScheme ++ ": " ++
      getAuthHeaderValue authScheme apiKeyDisplay ++ sqS)
  else if !hasBody then sliceDropTwo (jsTrim code)
  else code

/-- `generateJavaScriptCode` (lines 379–453), translated statement by
statement as one concatenation in source emission order. -/
def generateJavaScriptCode (method path baseUrl : String) (queryParams : List (String × Json))
    (requestBody : Json) (hasAuth : Bool) (authType : Option String) (authScheme : Json)
    (apiKeyDisplay contentType : String) : String :=
  let url := baseUrl ++ path
  let hasQuery := decide (queryParams.length > 0)
  let hasBody := requestBody.truthy && decide (jsKeysLength requestBody > 0)
  let qp := buildQueryParts queryParams
  (if hasQuery then
    "const params = " ++ (jsonStringifyInd 0 (Json.obj queryParams)).getD "undefined" ++ ";\n\n"
   else "") ++
  (if hasBody then
    "const payload = " ++ (jsonStringifyInd 0 requestBody).getD "undefined" ++ ";\n\n"
   else "") ++
  ("const url = " ++ sqS ++ url ++ sqS) ++
  (if hasQuery && decide (qp.length > 0) then " + " ++ sqS ++ "?" ++ joinSep "&" qp ++ sqS
   else "") ++
  ";\n\n" ++
  "const options = \x7b\n" ++
  ("  method: " ++ sqS ++ strToUpper method ++ sqS ++ ",\n") ++
  (if hasAuth || hasBody then
    "  headers: \x7b\n" ++
    (if hasBody then
      "    " ++ sqS ++ "Content-Type" ++ sqS ++ ": " ++ sqS ++ contentType ++ sqS ++ ",\n"
     else "") ++
    (if hasAuth then
      "    " ++ sqS ++ getAuthHeaderName authScheme ++ sqS ++ ": " ++ sqS ++
        getAuthHeaderValue authScheme apiKeyDisplay ++ sqS ++ "\n"
     else "") ++
    "  \x7d"
   else "") ++
  (if hasBody then ",\n  body: JSON.stringify(payload)" else "") ++
  "\n\x7d;\n\n" ++
  "fetch(url, options)\n" ++
  "  .then(response => response.json())\n" ++
  "  .then(data => console.log(data));"

/-- `generatePythonCode` (lines 307–377). The `formattedParams` loop of
the source copies `queryParams` entry by entry with identical branches,
so it is the identity on the record and is inlined here. -/
def generatePythonCode (method path baseUrl : String) (queryParams : List (String × Json))
    (requestBody : Json) (hasAuth : Bool) (authType : Option String) (authScheme : Json)
    (apiKeyDisplay contentType : String) : String :=
  let url := baseUrl ++ path
  let hasQuery := decide (queryParams.length > 0)
  let hasBody := requestBody.truthy && decide (jsKeysLength requestBody > 0)
  "import requests\n\n" ++
  (if hasQuery then
    "params = " ++
      charReplaceAll ((jsonStringifyInd 0 (Json.obj queryParams)).getD "undefined")
        chDQuote chSQuote ++ "\n\n"
   else "") ++
  (if hasBody then
    "payload = " ++
      charReplaceAll ((jsonStringifyInd 0 requestBody).getD "undefined")
        chDQuote chSQuote ++ "\n\n"
   else "") ++
  (if hasAuth || hasBody then
    "headers = \x7b\n" ++
    (if hasBody then
      "    " ++ sqS ++ "Content-Type" ++ sqS ++ ": " ++ sqS ++ contentType ++ sqS ++ ",\n"
     else "") ++
    (if hasAuth then
      "    " ++ sqS ++ getAuthHeaderName authScheme ++ sqS ++ ": " ++ sqS ++
        getAuthHeaderValue authScheme apiKeyDisplay ++ sqS ++ "\n"
     else "") ++
    "\x7d\n\n"
   else "") ++
  ("response = requests." ++ method ++ "(") ++
  (sqS ++ url ++ sqS) ++
  (if hasQuery then ",\n    params=params" else "") ++
  (if hasBody then ",\n    json=payload" else "") ++
  (if hasAuth then ",\n    headers=headers" else "") ++
  "\n)\n\n" ++
  "print(response.json())"

/-- The `OpenAPIOperation` fields consumed by `generateCodeSamples`:
`requestBody?.content` is carried as an optional entry record and
`security` as the optional array of security-requirement objects. -/
structure OpenAPIOperation where
  method : String
  path : String
  parameters : Option (List OperationParam) := none
  requestBodyContent : Option (List (String × Json)) := none
  security : Option (List Json) := none

/-- The `OpenAPISpec` fields consumed by `generateCodeSamples`:
`servers` (objects with a `url` key), global `security`, and
`components?.securitySchemes`. -/
structure OpenAPISpec where
  servers : Option (List Json) := none
  security : Option (List Json) := none
  securitySchemes : Option (List (String × Json)) := none

/-- `spec.servers?.[0]?.url || ''` coerced by the template literal
`${baseUrl}${path}`. -/
def specBaseUrl (spec : OpenAPISpec) : String :=
  (Json.jsOr
    (match spec.servers with
     | some (s :: _) => s.get "url"
     | _ => Json.undef)
    (Json.str "")).jsToString

/-- The query-parameter loop of `generateCodeSamples` (lines 79–93):
for each `in === 'query'` parameter, the value is the form value when it
is not `undefined`, otherwise `schema?.example || example || schema?.default`;
values that are `undefined` or `''` are dropped, everything else is
recorded under the parameter name. -/
def resolveQueryParams (params : Option (List OperationParam))
    (formValues : Option (List (String × Json))) : List (String × Json) :=
  match params with
  | none => []
  | some ps =>
    ps.foldl
      (fun acc p =>
        if p.paramIn = "query" then
          let value :=
            if formLookup formValues p.name != Json.undef then formLookup formValues p.name
            else ((p.schema.get "example").jsOr p.paramExample).jsOr (p.schema.get "default")
          if value != Json.undef && value != Json.str "" then Json.setKey acc p.name value
          else acc
        else acc)
      []

/-- `Object.keys(firstSecurity)[0] || null` (lines 262, 267, 271): the
first key of an object, demoted to `null` when absent or falsy (empty). -/
def firstKeyOf (j : Json) : Option String :=
  match j with
  | .obj ((k, _) :: _) => if k ≠ "" then some k else none
  | _ => none

/-- First key of the `securitySchemes` record, `|| null`. -/
def firstSchemeKey (schemes : List (String × Json)) : Option String :=
  match schemes with
  | (k, _) :: _ => if k ≠ "" then some k else none
  | [] => none

/-- The `hasAuth` test of `generateCodeSamples` (lines 251–253). -/
def hasAuthOf (operation : OpenAPIOperation) (spec : OpenAPISpec) : Bool :=
  (match operation.security with | some l => decide (l.length > 0) | none => false) ||
  (match spec.security with | some l => decide (l.length > 0) | none => false) ||
  (match spec.securitySchemes with | some l => decide (l.length > 0) | none => false)

/-- The `authType` resolution of `generateCodeSamples` (lines 256–272):
operation security first, then global security, then the first declared
security scheme. -/
def resolveAuthType (operation : OpenAPIOperation) (spec : OpenAPISpec) : Option String :=
  if hasAuthOf operation spec then
    let fromOp :=
      match operation.security with
      | some (s :: _) => firstKeyOf s
      | _ => none
    let fromGlobal :=
      match fromOp with
      | some t => some t
      | none =>
        match spec.security with
        | some (s :: _) => firstKeyOf s
        | _ => none
    match fromGlobal with
    | some t => some t
    | none =>
      match spec.securitySchemes with
      | some schemes => firstSchemeKey schemes
      | none => none
  else none

/-- The `authScheme` lookup of `generateCodeSamples` (lines 275–277). -/
def resolveAuthScheme (operation : OpenAPIOperation) (spec : OpenAPISpec) : Json :=
  match resolveAuthType operation spec with
  | some t =>
    match spec.securitySchemes with
    | some schemes => if (lookupJ schemes t).truthy then lookupJ schemes t else Json.null
    | none => Json.null
  | none => Json.null

/-- `generateCodeSamples` (lines 49–305): resolves base URL, method,
path and query parameters, request body, content type and auth, then
returns the `(language, code)` samples in push order (the React icon
nodes of the source are presentation-only and not part of the model).
The `endpointTitle` argument is accepted and unused exactly as in the
source. -/
def generateCodeSamples (operation : OpenAPIOperation) (spec : OpenAPISpec)
    (endpointTitle : Option String) (formValues : Option (List (String × Json))) :
    List (String × String) :=
  let baseUrl := specBaseUrl spec
  let method := strToLower operation.method
  let fullPath := (resolvePathLoop
    (match operation.parameters with | some ps => ps | none => [])
    formValues operation.path).1
  let queryParams := resolveQueryParams operation.parameters formValues
  let contentType :=
    match operation.requestBodyContent with
    | some content =>
      (match content.head? with
       | some e => if e.1 ≠ "" then e.1 else "application/json"
       | none => "application/json")
    | none => "application/json"
  let requestBody := buildRequestBody operation.requestBodyContent formValues
  let hasAuth := hasAuthOf operation spec
  let authType := resolveAuthType operation spec
  let authScheme := resolveAuthScheme operation spec
  let apiKeyDisplay := "YOUR_API_KEY"
  [("python", generatePythonCode method fullPath baseUrl queryParams requestBody hasAuth
      authType authScheme apiKeyDisplay contentType),
   ("javascript", generateJavaScriptCode method fullPath baseUrl queryParams requestBody hasAuth
      authType authScheme apiKeyDisplay contentType),
   ("curl", generateCurlCode method fullPath baseUrl queryParams requestBody hasAuth
      authType authScheme apiKeyDisplay contentType)]

/-!
## Claim C8: array-valued query parameters in the renderings
-/

theorem strData_append (s t : String) : (s ++ t).data = s.data ++ t.data := rfl

/-- Join tail: the `sep ++ x` blocks appended after the first element. -/
def joinTail (sep : String) : List String → String
  | [] => ""
  | x :: xs => sep ++ x ++ joinTail sep xs

theorem foldl_joinTail (sep : String) (l : List String) (acc : String) :
    l.foldl (fun a x => a ++ sep ++ x) acc = acc ++ joinTail sep l := by
  induction l generalizing acc with
  | nil => simp [joinTail]
  | cons x xs ih =>
    rw [List.foldl_cons, ih]
    simp [joinTail, String.append_assoc]

theorem joinSep_cons (sep a : String) (as : List String) :
    joinSep sep (a :: as) = a ++ joinTail sep as := by
  simp [joinSep, foldl_joinTail]

theorem joinTail_append (sep : String) (l1 l2 : List String) :
    joinTail sep (l1 ++ l2) = joinTail sep l1 ++ joinTail sep l2 := by
  induction l1 with
  | nil => simp [joinTail]
  | cons x xs ih => simp [joinTail, ih, String.append_assoc]

theorem joinSep_infix (sep : String) (pre mid post : List String) :
    (joinSep sep mid).data <:+: (joinSep sep (pre ++ mid ++ post)).data := by
  cases mid with
  | nil => exact ⟨[], (joinSep sep (pre ++ [] ++ post)).data, by simp [joinSep]⟩
  | cons m ms =>
    cases pre with
    | nil =>
      rw [List.nil_append, List.cons_append, joinSep_cons, joinSep_cons, joinTail_append]
      exact ⟨[], (joinTail sep post).data, by simp [strData_append, List.append_assoc]⟩
    | cons p ps =>
      have hre : (p :: ps) ++ (m :: ms) ++ post = p :: (ps ++ ((m :: ms) ++ post)) := by simp
      rw [hre, joinSep_cons, joinSep_cons, joinTail_append, joinTail_append]
      refine ⟨(p ++ joinTail sep ps ++ sep).data, (joinTail sep post).data, ?_⟩
      simp [joinTail, strData_append, List.append_assoc]

theorem foldl_buildParts (l : List (String × Json)) (acc : List String) :
    l.foldl (fun parts kv => parts ++ partsFor kv) acc = acc ++ buildQueryParts l := by
  induction l generalizing acc with
  | nil => simp [buildQueryParts]
  | cons kv l ih =>
    rw [List.foldl_cons, ih]
    conv_rhs => rw [buildQueryParts, List.foldl_cons, List.nil_append, ih]
    simp [List.append_assoc]

/-- Splitting the query-parts array at one entry of `queryParams`. -/
theorem buildQueryParts_split (pre post : List (String × Json)) (kv : String × Json) :
    buildQueryParts (pre ++ kv :: post) =
      buildQueryParts pre ++ partsFor kv ++ buildQueryParts post := by
  rw [buildQueryParts, List.foldl_append, List.foldl_cons]
  rw [show List.foldl (fun parts kv => parts ++ partsFor kv) [] pre = buildQueryParts pre from rfl]
  rw [foldl_buildParts]

/-- The effect of the cURL renderer's no-auth/no-body tail
(`code.trim().slice(0, -2)`) on a code string that starts with a
non-whitespace character and ends with the quote–space–backslash–newline
tail: the newline is trimmed and the space and backslash are sliced off. -/
theorem trimSlice_data (s : String) (x j : List Char)
    (hs : s.data = 'c' :: (x ++ j ++ [chSQuote, ' ', chBackslash, '\n'])) :
    (sliceDropTwo (jsTrim s)).data = 'c' :: (x ++ j ++ [chSQuote]) := by
  have hws : isJsWs 'c' = false := by decide
  simp only [sliceDropTwo, jsTrim, hs]
  rw [List.dropWhile_cons]
  simp only [hws, Bool.false_eq_true, if_false]
  rw [show ('c' :: (x ++ j ++ [chSQuote, ' ', chBackslash, '\n'])).reverse
      = '\n' :: chBackslash :: (([' '] ++ [chSQuote] ++ j.reverse ++ x.reverse ++ ['c']))
    from by simp]
  rw [List.dropWhile_cons]
  simp only [show isJsWs '\n' = true from by decide, if_true]
  rw [List.dropWhile_cons]
  simp only [show isJsWs chBackslash = false from by decide, Bool.false_eq_true, if_false]
  simp only [List.reverse_cons, List.reverse_append, List.reverse_reverse, List.append_assoc,
    List.reverse_nil, List.nil_append, List.cons_append, List.singleton_append]
  rw [show 'c' :: (x ++ (j ++ [chSQuote, ' ', chBackslash]))
      = (('c' :: (x ++ (j ++ [chSQuote]))) ++ [' ']) ++ [chBackslash] from by simp]
  rw [List.dropLast_concat, List.dropLast_concat]

theorem strAppend_assoc (a b c : String) : a ++ b ++ c = a ++ (b ++ c) := by
  obtain ⟨a⟩ := a
  obtain ⟨b⟩ := b
  obtain ⟨c⟩ := c
  show String.mk ((a ++ b) ++ c) = String.mk (a ++ (b ++ c))
  rw [List.append_assoc]

theorem strAppend_empty (s : String) : s ++ "" = s := by
  obtain ⟨d⟩ := s
  show String.mk (d ++ []) = String.mk d
  rw [List.append_nil]

theorem infix_cons_left (s : String) {j t : String} (h : j.data <:+: t.data) :
    j.data <:+: (s ++ t).data := by
  obtain ⟨u, v, huv⟩ := h
  exact ⟨s.data ++ u, v, by rw [strData_append, List.append_assoc, List.append_assoc,
    ← List.append_assoc u, huv]⟩

theorem infix_head_prefix (j rest : String) : j.data <:+: (j ++ rest).data :=
  ⟨[], rest.data, by rw [strData_append, List.nil_append]⟩

/-- The no-auth/no-body tail of the cURL renderer keeps the query block:
trimming and slicing only touch the leading `curl` keyword (non-whitespace)
and the final quote–backslash tail. -/
theorem curl_trim_branch (F J : String) (hF : ∃ t, F.data = 'c' :: t) :
    J.data <:+: (sliceDropTwo (jsTrim (F ++ ("?" ++ J) ++ (sqS ++ " \\\n")))).data := by
  obtain ⟨t, ht⟩ := hF
  have hs : (F ++ ("?" ++ J) ++ (sqS ++ " \\\n")).data
      = 'c' :: ((t ++ ("?" : String).data) ++ J.data ++ [chSQuote, ' ', chBackslash, '\n']) := by
    simp only [strData_append, ht, List.cons_append, List.append_assoc]
    rw [show (sqS.data ++ (" \\\n" : String).data) = [chSQuote, ' ', chBackslash, '\n']
      from by decide]
  rw [trimSlice_data _ _ _ hs]
  exact ⟨'c' :: (t ++ ("?" : String).data), [chSQuote], by simp [List.append_assoc]⟩

set_option maxHeartbeats 1600000 in
/-- C8: for every query parameter whose resolved value is an array, the
query-parts array contains one `key=encodeURIComponent(String(item))`
pair per array element, in the array's list order, and the joined block
(`key=v1&key=v2&…`) occurs verbatim inside both the generated cURL code
and the generated JavaScript code. -/
theorem queryArray_repeated_pairs
    (method path baseUrl : String) (queryParams : List (String × Json))
    (requestBody : Json) (hasAuth : Bool) (authType : Option String) (authScheme : Json)
    (apiKeyDisplay contentType : String)
    (pre post : List (String × Json)) (k : String) (items : List Json)
    (hsplit : queryParams = pre ++ (k, Json.arr items) :: post) :
    buildQueryParts queryParams =
      buildQueryParts pre ++
        items.map (fun item => k ++ "=" ++ encodeURIComponent item.jsToString) ++
        buildQueryParts post ∧
    (joinSep "&" (items.map (fun item => k ++ "=" ++ encodeURIComponent item.jsToString))).data
      <:+: (generateCurlCode method path baseUrl queryParams requestBody hasAuth authType
              authScheme apiKeyDisplay contentType).data ∧
    (joinSep "&" (items.map (fun item => k ++ "=" ++ encodeURIComponent item.jsToString))).data
      <:+: (generateJavaScriptCode method path baseUrl queryParams requestBody hasAuth authType
              authScheme apiKeyDisplay contentType).data := by
  subst hsplit
  have hqp : buildQueryParts (pre ++ (k, Json.arr items) :: post) =
      buildQueryParts pre ++
        items.map (fun item => k ++ "=" ++ encodeURIComponent item.jsToString) ++
        buildQueryParts post := by
    rw [buildQueryParts_split]
    rfl
  refine ⟨hqp, ?_, ?_⟩
  case _ =>
    by_cases hlen : (buildQueryParts (pre ++ (k, Json.arr items) :: post)).length > 0
    case neg =>
      have hnil : buildQueryParts (pre ++ (k, Json.arr items) :: post) = [] :=
        List.length_eq_zero.mp (Nat.eq_zero_of_not_pos hlen)
      have hmap : items.map (fun item => k ++ "=" ++ encodeURIComponent item.jsToString) = [] := by
        rcases List.append_eq_nil.mp (hqp ▸ hnil) with ⟨h1, h2⟩
        exact (List.append_eq_nil.mp h1).2
      rw [hmap]
      exact ⟨[], _, rfl⟩
    case pos =>
      have hblock := joinSep_infix "&" (buildQueryParts pre)
        (items.map (fun item => k ++ "=" ++ encodeURIComponent item.jsToString))
        (buildQueryParts post)
      rw [← hqp] at hblock
      refine List.IsInfix.trans hblock ?_
      have hquery : decide ((pre ++ (k, Json.arr items) :: post).length > 0) = true := by simp
      have hlen' : decide ((buildQueryParts (pre ++ (k, Json.arr items) :: post)).length > 0)
          = true := decide_eq_true hlen
      dsimp only [generateCurlCode]
      rw [hquery, hlen']
      simp only [Bool.and_self, if_true]
      cases hasAuth with
      | true =>
        simp only [if_true]
        simp only [strAppend_assoc]
        repeat first
          | exact infix_head_prefix _ _
          | apply infix_cons_left
      | false =>
        simp only [Bool.false_eq_true, if_false]
        cases hB : requestBody.truthy && decide (jsKeysLength requestBody > 0) with
        | true =>
          simp only [if_true, Bool.not_true, Bool.false_eq_true, if_false]
          simp only [strAppend_assoc]
          repeat first
            | exact infix_head_prefix _ _
            | apply infix_cons_left
        | false =>
          simp only [Bool.not_false, if_true, Bool.false_eq_true, if_false]
          rw [strAppend_empty]
          exact curl_trim_branch _ _ ⟨_, by
            simp only [strData_append, List.append_assoc, List.cons_append, List.nil_append]
            rfl⟩
  case _ =>
    by_cases hlen : (buildQueryParts (pre ++ (k, Json.arr items) :: post)).length > 0
    case neg =>
      have hnil : buildQueryParts (pre ++ (k, Json.arr items) :: post) = [] :=
        List.length_eq_zero.mp (Nat.eq_zero_of_not_pos hlen)
      have hmap : items.map (fun item => k ++ "=" ++ encodeURIComponent item.jsToString) = [] := by
        rcases List.append_eq_nil.mp (hqp ▸ hnil) with ⟨h1, h2⟩
        exact (List.append_eq_nil.mp h1).2
      rw [hmap]
      exact ⟨[], _, rfl⟩
    case pos =>
      have hblock := joinSep_infix "&" (buildQueryParts pre)
        (items.map (fun item => k ++ "=" ++ encodeURIComponent item.jsToString))
        (buildQueryParts post)
      rw [← hqp] at hblock
      refine List.IsInfix.trans hblock ?_
      have hquery : decide ((pre ++ (k, Json.arr items) :: post).length > 0) = true := by simp
      have hlen' : decide ((buildQueryParts (pre ++ (k, Json.arr items) :: post)).length > 0)
          = true := decide_eq_true hlen
      dsimp only [generateJavaScriptCode]
      rw [hquery, hlen']
      simp only [Bool.and_self, if_true]
      cases hasAuth with
      | true =>
        cases hB : requestBody.truthy && decide (jsKeysLength requestBody > 0) with
        | true =>
          simp only [hB, if_true, Bool.true_or, Bool.or_true]
          simp only [strAppend_assoc]
          repeat first
            | exact infix_head_prefix _ _
            | apply infix_cons_left
        | false =>
          simp only [hB, Bool.false_eq_true, if_false, Bool.true_or]
          simp only [if_true]
          simp only [strAppend_assoc]
          repeat first
            | exact infix_head_prefix _ _
            | apply infix_cons_left
      | false =>
        cases hB : requestBody.truthy && decide (jsKeysLength requestBody > 0) with
        | true =>
          simp only [hB, if_true, Bool.false_or, Bool.or_false]
          simp only [strAppend_assoc]
          repeat first
            | exact infix_head_prefix _ _
            | apply infix_cons_left
        | false =>
          simp only [hB, Bool.false_eq_true, if_false, Bool.false_or]
          simp only [strAppend_assoc]
          repeat first
            | exact infix_head_prefix _ _
            | apply infix_cons_left

example : joinSep "&" ([Json.str "a", Json.str "b"].map
    (fun item => "tags" ++ "=" ++ encodeURIComponent item.jsToString)) = "tags=a&tags=b" := by
  decide

example : ("tags=a&tags=b" : String).data <:+:
    (generateCurlCode "get" "/items" "https://api.example.com"
      [("tags", Json.arr [Json.str "a", Json.str "b"])]
      Json.null false none Json.null "YOUR_API_KEY" "application/json").data := by
  decide

/-- Witness for C8: the spec's concrete scenario — query parameter `tags`
with values `["a", "b"]` — instantiated for both renderers. -/
theorem queryArray_repeated_pairs_witness :
    joinSep "&" ([Json.str "a", Json.str "b"].map
      (fun item => "tags" ++ "=" ++ encodeURIComponent item.jsToString)) = "tags=a&tags=b" ∧
    (buildQueryParts [("tags", Json.arr [Json.str "a", Json.str "b"])] =
      buildQueryParts [] ++
        [Json.str "a", Json.str "b"].map
          (fun item => "tags" ++ "=" ++ encodeURIComponent item.jsToString) ++
        buildQueryParts [] ∧
    (joinSep "&" ([Json.str "a", Json.str "b"].map
        (fun item => "tags" ++ "=" ++ encodeURIComponent item.jsToString))).data
      <:+: (generateCurlCode "get" "/items" "https://api.example.com"
              [("tags", Json.arr [Json.str "a", Json.str "b"])]
              Json.null false none Json.null "YOUR_API_KEY" "application/json").data ∧
    (joinSep "&" ([Json.str "a", Json.str "b"].map
        (fun item => "tags" ++ "=" ++ encodeURIComponent item.jsToString))).data
      <:+: (generateJavaScriptCode "get" "/items" "https://api.example.com"
              [("tags", Json.arr [Json.str "a", Json.str "b"])]
              Json.null false none Json.null "YOUR_API_KEY" "application/json").data) :=
  ⟨by decide,
   queryArray_repeated_pairs "get" "/items" "https://api.example.com"
     [("tags", Json.arr [Json.str "a", Json.str "b"])]
     Json.null false none Json.null "YOUR_API_KEY" "application/json"
     [] [] "tags" [Json.str "a", Json.str "b"] rfl⟩

/-!
## Example parser (`example-parser.ts`)

The scanners below translate the regular-expression extraction of
`example-parser.ts` into explicit left-to-right scans with JavaScript
matching semantics (leftmost match, greedy/lazy quantifiers with
backtracking as analysed per pattern).
-/

/-- The JavaScript regex class `\s` (whitespace), on the characters that
can occur here: ASCII whitespace plus the common Unicode space points. -/
def isWsRe (c : Char) : Bool :=
  c = ' ' || c = '\t' || c = '\n' || c = '\r' || c.toNat = 11 || c.toNat = 12 ||
  c.toNat = 160 || c.toNat = 5760 || (8192 ≤ c.toNat && c.toNat ≤ 8202) ||
  c.toNat = 8232 || c.toNat = 8233 || c.toNat = 8239 || c.toNat = 8287 ||
  c.toNat = 12288 || c.toNat = 65279

/-- Whether the three-character window at the head of the list starts a
`-d\s` match. -/
def headDFlagB : List Char → Bool
  | c :: d :: w :: _ => c = '-' && d = 'd' && isWsRe w
  | _ => false

/-- Whether `-d\s` matches anywhere in the list. -/
def containsDFlag : List Char → Bool
  | [] => false
  | c :: rest => headDFlagB (c :: rest) || containsDFlag rest

/-- The match of pattern `-d\s+([\s\S]+)` in `parseCurlExample` (line 17): the
leftmost `-d` followed by whitespace; the capture is everything after the
greedy whitespace run, except that when only whitespace remains the
greedy `\s+` backtracks to leave the final whitespace character as the
capture (and fails — moving the scan on — when only a single whitespace
character follows). -/
def findDFlag : List Char → Option (List Char)
  | [] => none
  | c :: rest =>
    match rest with
    | d :: w :: tail =>
      if c = '-' && d = 'd' && isWsRe w then
        let r := (w :: tail).dropWhile isWsRe
        if r.isEmpty then
          match tail with
          | [] => findDFlag rest
          | _ :: _ => some ((w :: tail).drop tail.length)
        else some r
      else findDFlag rest
    | _ => findDFlag rest

/-- The suffix of `run` starting at its last newline, if any. -/
def lastNlSuffix : List Char → Option (List Char)
  | [] => none
  | c :: rest =>
    match lastNlSuffix rest with
    | some s => some s
    | none => if c = '\n' then some (c :: rest) else none

/-- One attempted match of `/\\\s*$/m` at a backslash (the backslash
itself already consumed): the greedy `\s*` runs to the end of the
whitespace run and backtracks until a line end (end of input, or a
position holding `\n`) is found; returns the unconsumed remainder, or
`none` when no line end is reachable. -/
def contMatch (rest : List Char) : Option (List Char) :=
  let run := rest.takeWhile isWsRe
  let rem := rest.dropWhile isWsRe
  if rem.isEmpty then some []
  else
    match lastNlSuffix run with
    | some s => some (s ++ rem)
    | none => none

/-- `jsonContent.replace(/\\\s*$/gm, '')` (line 22): global removal of a
backslash that is followed (within whitespace) by a line end.  The fuel
bounds the scan; each step consumes at least one character, so
`length + 1` always suffices. -/
def stripLineCont : Nat → List Char → List Char
  | 0, l => l
  | _ + 1, [] => []
  | fuel + 1, c :: rest =>
    if c = chBackslash then
      match contMatch rest with
      | some rest2 => stripLineCont fuel rest2
      | none => c :: stripLineCont fuel rest
    else c :: stripLineCont fuel rest

/-- A character of the regex class `['"\x60]` (single, double or
backtick quote). -/
def isQuoteCh (c : Char) : Bool :=
  c = chSQuote || c = chDQuote || c = chBacktick

/-- The lazy middle of `/^['\x22\x60]([\s\S]*?)['\x22\x60]\s*$/`: the
shortest prefix of `l` that is followed by a quote character and then
only whitespace to the end. -/
def earliestClose : List Char → Option (List Char)
  | [] => none
  | c :: rest =>
    if isQuoteCh c && rest.all isWsRe then some []
    else
      match earliestClose rest with
      | some m => some (c :: m)
      | none => none

/-- The quote-stripping match of `parseCurlExample` (line 25): anchored
at the start on any quote character, lazily up to a closing quote that is
followed only by trailing whitespace. -/
def quoteStrip (l : List Char) : Option (List Char) :=
  match l with
  | c :: rest => if isQuoteCh c then earliestClose rest else none
  | [] => none

/-- A global replace of the two-character sequence `a b` by `r`
(the `/\\x/g` escape cleanups of lines 31–36). -/
def replacePair (a b r : Char) : List Char → List Char
  | x :: y :: rest =>
    if x = a && y = b then r :: replacePair a b r rest
    else x :: replacePair a b r (y :: rest)
  | l => l

/-- The escape-cleanup chain of lines 31–36, in source order:
`\\'` → `'`, `\\"` → `"`, `\\n`, `\\t`, `\\r` → the control characters. -/
def unescapeChain (l : List Char) : List Char :=
  replacePair chBackslash 'r' '\r'
    (replacePair chBackslash 't' '\t'
      (replacePair chBackslash 'n' '\n'
        (replacePair chBackslash chDQuote chDQuote
          (replacePair chBackslash chSQuote chSQuote l))))

/-- `/\{[\s\S]*\}/` (lines 45 and 297): from the first `\x7b` to the
last `\x7d` after it, inclusive; `none` when absent. -/
def extractBraces (l : List Char) : Option (List Char) :=
  match l.dropWhile (fun c => c ≠ chLBrace) with
  | [] => none
  | c :: rest =>
    match keepToLastRBrace rest with
    | some k => some (c :: k)
    | none => none
where
  /-- The prefix of the list up to and including its last `\x7d`. -/
  keepToLastRBrace : List Char → Option (List Char)
    | [] => none
    | c :: rest =>
      match keepToLastRBrace rest with
      | some k => some (c :: k)
      | none => if c = chRBrace then some [c] else none

/-- One of the trailing-comma fixes of lines 53–54
(`/,\s*\x7d/g` → `\x7d`, `/,\s*\x5d/g` → `\x5d`): a comma followed by
whitespace and the closing character collapses to the closing character.
Fuel as in `stripLineCont`. -/
def stripTrailingComma (close : Char) : Nat → List Char → List Char
  | 0, l => l
  | _ + 1, [] => []
  | fuel + 1, c :: rest =>
    if c = ',' then
      match rest.dropWhile isWsRe with
      | c2 :: rest2 =>
        if c2 = close then close :: stripTrailingComma close fuel rest2
        else c :: stripTrailingComma close fuel rest
      | [] => c :: stripTrailingComma close fuel rest
    else c :: stripTrailingComma close fuel rest

/-- Hexadecimal digit value. -/
def hexVal (c : Char) : Option Nat :=
  if 48 ≤ c.toNat && c.toNat ≤ 57 then some (c.toNat - 48)
  else if 97 ≤ c.toNat && c.toNat ≤ 102 then some (c.toNat - 87)
  else if 65 ≤ c.toNat && c.toNat ≤ 70 then some (c.toNat - 55)
  else none

/-- JSON whitespace. -/
def isJsonWs (c : Char) : Bool := c = ' ' || c = '\t' || c = '\n' || c = '\r'

/-- The string scanner of `JSON.parse`, after the opening double quote:
plain characters up to the closing quote, with the JSON escapes
(`\" \\ \/ \b \f \n \r \t \uXXXX`); control characters and bad escapes
reject. -/
def jsonEscChar (e : Char) : Option Char :=
  if e = chDQuote then some chDQuote
  else if e = chBackslash then some chBackslash
  else if e = '/' then some '/'
  else if e = 'n' then some '\n'
  else if e = 't' then some '\t'
  else if e = 'r' then some '\r'
  else if e = 'b' then some (Char.ofNat 8)
  else if e = 'f' then some (Char.ofNat 12)
  else none

def jsonParseStr : List Char → Option (String × List Char)
  | [] => none
  | c :: rest =>
    if c = chDQuote then some ("", rest)
    else if c = chBackslash then
      match rest with
      | e :: rest2 =>
        if e = 'u' then
          match rest2 with
          | h1 :: h2 :: h3 :: h4 :: rest3 =>
            match hexVal h1, hexVal h2, hexVal h3, hexVal h4 with
            | some a, some b, some c3, some d =>
              match jsonParseStr rest3 with
              | some (s, r) =>
                some (⟨Char.ofNat (((a * 16 + b) * 16 + c3) * 16 + d) :: s.data⟩, r)
              | none => none
            | _, _, _, _ => none
          | _ => none
        else
          match jsonEscChar e with
          | some ch =>
            match jsonParseStr rest2 with
            | some (s, r) => some (⟨ch :: s.data⟩, r)
            | none => none
          | none => none
      | [] => none
    else if c.toNat < 32 then none
    else
      match jsonParseStr rest with
      | some (s, r) => some (⟨c :: s.data⟩, r)
      | none => none

/-- The digit part of the `JSON.parse` number scanner: a non-empty
digit run with no redundant leading zero, not followed by a fraction or
exponent marker (the `Json` model carries `Int`; fractions and exponents
reject here where JavaScript would produce a float). -/
def jsonParseNumCore (neg : Bool) (l2 : List Char) : Except String (Json × List Char) :=
  let digits := l2.takeWhile Char.isDigit
  let rest := l2.dropWhile Char.isDigit
  if digits.isEmpty then .error "bad number"
  else if digits.length > 1 ∧ digits.head? = some '0' then .error "leading zero"
  else if rest.head? = some '.' then .error "fraction"
  else if rest.head? = some 'e' ∨ rest.head? = some 'E' then .error "exponent"
  else
    let v : Nat := digits.foldl (fun acc c => acc * 10 + (c.toNat - 48)) 0
    .ok (Json.num (if neg then -(v : Int) else (v : Int)), rest)

/-- The number scanner of `JSON.parse`: an optional minus sign, then the
digit part. -/
def jsonParseNum (l : List Char) : Except String (Json × List Char) :=
  if l.head? = some '-' then jsonParseNumCore true l.tail else jsonParseNumCore false l

mutual

/-- `JSON.parse` value scanner (fuel-bounded; one unit per nested value,
so `length + 1` always suffices). -/
def jsonParseVal : Nat → List Char → Except String (Json × List Char)
  | 0, _ => .error "depth"
  | fuel + 1, l =>
    match l.dropWhile isJsonWs with
    | [] => .error "unexpected end"
    | c :: rest =>
      if c = chLBrace then
        match rest.dropWhile isJsonWs with
        | c2 :: rest2 =>
          if c2 = chRBrace then .ok (Json.obj [], rest2)
          else jsonParseMembers fuel (c2 :: rest2) []
        | [] => .error "unexpected end"
      else if c = '[' then
        match rest.dropWhile isJsonWs with
        | c2 :: rest2 =>
          if c2 = ']' then .ok (Json.arr [], rest2)
          else jsonParseItems fuel (c2 :: rest2) []
        | [] => .error "unexpected end"
      else if c = chDQuote then
        match jsonParseStr rest with
        | some (s, rest2) => .ok (Json.str s, rest2)
        | none => .error "bad string"
      else if c = 't' then
        match rest with
        | 'r' :: 'u' :: 'e' :: r => .ok (Json.bool true, r)
        | _ => .error "bad literal"
      else if c = 'f' then
        match rest with
        | 'a' :: 'l' :: 's' :: 'e' :: r => .ok (Json.bool false, r)
        | _ => .error "bad literal"
      else if c = 'n' then
        match rest with
        | 'u' :: 'l' :: 'l' :: r => .ok (Json.null, r)
        | _ => .error "bad literal"
      else if c = '-' || c.isDigit then jsonParseNum (c :: rest)
      else .error "unexpected character"

/-- Non-empty object member list of `JSON.parse` (the head is already
known not to be `\x7d`). -/
def jsonParseMembers : Nat → List Char → List (String × Json) →
    Except String (Json × List Char)
  | 0, _, _ => .error "depth"
  | fuel + 1, l, acc =>
    match l with
    | c :: rest =>
      if c = chDQuote then
        match jsonParseStr rest with
        | some (k, rest2) =>
          match rest2.dropWhile isJsonWs with
          | ':' :: rest3 =>
            match jsonParseVal fuel rest3 with
            | .ok (v, rest4) =>
              match rest4.dropWhile isJsonWs with
              | ',' :: rest5 =>
                jsonParseMembers fuel (rest5.dropWhile isJsonWs) (acc ++ [(k, v)])
              | c2 :: rest5 =>
                if c2 = chRBrace then .ok (Json.obj (acc ++ [(k, v)]), rest5)
                else .error "expected comma or close"
              | [] => .error "unexpected end"
            | .error e => .error e
          | _ => .error "expected colon"
        | none => .error "bad string"
      else .error "expected key"
    | [] => .error "unexpected end"

/-- Non-empty array item list of `JSON.parse`. -/
def jsonParseItems : Nat → List Char → List Json → Except String (Json × List Char)
  | 0, _, _ => .error "depth"
  | fuel + 1, l, acc =>
    match jsonParseVal fuel l with
    | .ok (v, rest) =>
      match rest.dropWhile isJsonWs with
      | ',' :: rest2 => jsonParseItems fuel rest2 (acc ++ [v])
      | c :: rest2 =>
        if c = ']' then .ok (Json.arr (acc ++ [v]), rest2)
        else .error "expected comma or close"
      | [] => .error "unexpected end"
    | .error e => .error e

end

/-- `JSON.parse(s)`: parse one value and require only whitespace after
it; `.error` models the thrown `SyntaxError`. -/
def jsonParse (s : String) : Except String Json :=
  match jsonParseVal (s.data.length + 1) s.data with
  | .ok (v, rest) => if (rest.dropWhile isJsonWs).isEmpty then .ok v else .error "trailing"
  | .error e => .error e

instance : DecidableEq (Except String Json) := fun x y =>
  match x, y with
  | .ok a, .ok b =>
    if h : a = b then isTrue (by rw [h])
    else isFalse (by intro hc; injection hc; contradiction)
  | .error a, .error b =>
    if h : a = b then isTrue (by rw [h])
    else isFalse (by intro hc; injection hc; contradiction)
  | .ok _, .error _ => isFalse (by intro hc; injection hc)
  | .error _, .ok _ => isFalse (by intro hc; injection hc)

example : jsonParse "\x7b\"name\":\"Ada\",\"age\":30\x7d" =
    .ok (Json.obj [("name", Json.str "Ada"), ("age", Json.num 30)]) := by decide
example : jsonParse "\x7b\"a\":[1,true,null]\x7d" =
    .ok (Json.obj [("a", Json.arr [Json.num 1, Json.bool true, Json.null])]) := by decide
example : (jsonParse "\x7b\"a\":\x7d").isOk = false := by decide

/-- The query match of pattern `\?([^\s'\x22]+)` (line 79): the first `?`
followed by at least one character that is not whitespace or a quote;
the capture is the greedy run of such characters. -/
def findQueryStr : List Char → Option (List Char)
  | [] => none
  | c :: rest =>
    if c = '?' then
      let run := rest.takeWhile (fun x => !(isWsRe x || x = chSQuote || x = chDQuote))
      if run.isEmpty then findQueryStr rest else some run
    else findQueryStr rest

/-- Bytes of the form-urlencoded decoding of a query component: `+`
becomes a space, `%XX` a raw byte, everything else its UTF-8 bytes;
a malformed percent escape stays literal. -/
def pctDecodeBytes : List Char → List Nat
  | [] => []
  | '%' :: h1 :: h2 :: rest =>
    match hexVal h1, hexVal h2 with
    | some a, some b => (16 * a + b) :: pctDecodeBytes rest
    | _, _ => utf8Bytes '%' ++ pctDecodeBytes (h1 :: h2 :: rest)
  | '+' :: rest => 32 :: pctDecodeBytes rest
  | c :: rest => utf8Bytes c ++ pctDecodeBytes rest

/-- UTF-8 decoding of a byte list, with `U+FFFD` for malformed
sequences (the WHATWG decoder used by `URLSearchParams`, with its error
recovery approximated to one replacement character per bad lead byte).
Each step consumes at least one byte, so fuel `length + 1` suffices. -/
def utf8Decode : Nat → List Nat → List Char
  | 0, _ => []
  | _ + 1, [] => []
  | fuel + 1, b :: rest =>
    if b < 128 then Char.ofNat b :: utf8Decode fuel rest
    else if 194 ≤ b && b ≤ 223 then
      match rest with
      | b2 :: rest2 =>
        if 128 ≤ b2 && b2 ≤ 191 then
          Char.ofNat ((b - 192) * 64 + (b2 - 128)) :: utf8Decode fuel rest2
        else Char.ofNat 65533 :: utf8Decode fuel (b2 :: rest2)
      | [] => [Char.ofNat 65533]
    else if 224 ≤ b && b ≤ 239 then
      match rest with
      | b2 :: b3 :: rest3 =>
        if (128 ≤ b2 && b2 ≤ 191) && (128 ≤ b3 && b3 ≤ 191) then
          Char.ofNat ((b - 224) * 4096 + (b2 - 128) * 64 + (b3 - 128)) :: utf8Decode fuel rest3
        else Char.ofNat 65533 :: utf8Decode fuel rest
      | _ => [Char.ofNat 65533]
    else if 240 ≤ b && b ≤ 244 then
      match rest with
      | b2 :: b3 :: b4 :: rest4 =>
        if (128 ≤ b2 && b2 ≤ 191) && (128 ≤ b3 && b3 ≤ 191) && (128 ≤ b4 && b4 ≤ 191) then
          Char.ofNat ((b - 240) * 262144 + (b2 - 128) * 4096 + (b3 - 128) * 64 + (b4 - 128)) ::
            utf8Decode fuel rest4
        else Char.ofNat 65533 :: utf8Decode fuel rest
      | _ => [Char.ofNat 65533]
    else Char.ofNat 65533 :: utf8Decode fuel rest

/-- `application/x-www-form-urlencoded` decoding of one component. -/
def formDecode (l : List Char) : String :=
  let bs := pctDecodeBytes l
  ⟨utf8Decode (bs.length + 1) bs⟩

/-- `new URLSearchParams(queryString).entries()`: an optional single
leading `?` is stripped, the string splits on `&`, empty segments are
skipped, and each segment splits at its first `=` (absent `=` means an
empty value); keys and values are form-decoded. Entry order (with
duplicate keys preserved) is the segment order. -/
def parseQueryPairs (l : List Char) : List (String × String) :=
  let l := match l with
    | '?' :: rest => rest
    | _ => l
  (splitOnChar l '&').filterMap (fun seg =>
    if seg.isEmpty then none
    else
      let k := seg.takeWhile (fun c => c ≠ '=')
      let rest := seg.dropWhile (fun c => c ≠ '=')
      let v := match rest with
        | _ :: tail => tail
        | [] => []
      some (formDecode k, formDecode v))

example : parseQueryPairs "a=1&tags=x&tags=y%20z&b".data =
    [("a", "1"), ("tags", "x"), ("tags", "y z"), ("b", "")] := by decide

/-- `Object.assign(values, jsonBody)` (lines 41/49/57): own enumerable
properties of the source are copied onto the record — an object
contributes its entries, an array its index properties, a string its
character index properties; primitives contribute nothing. -/
def jsAssign (values : List (String × Json)) (j : Json) : List (String × Json) :=
  match j with
  | .obj es => es.foldl (fun acc e => Json.setKey acc e.1 e.2) values
  | .arr xs =>
    (xs.enum.map (fun e => (Nat.repr e.1, e.2))).foldl
      (fun acc e => Json.setKey acc e.1 e.2) values
  | .str s =>
    (s.data.enum.map (fun e => (Nat.repr e.1, Json.str ⟨[e.2]⟩))).foldl
      (fun acc e => Json.setKey acc e.1 e.2) values
  | _ => values

/-- `parseCurlExample` (lines 12–89): the `-d` body extraction pipeline
(trim, line-continuation strip, quote strip, escape cleanup, then
`JSON.parse` with the brace-extraction and trailing-comma fallbacks),
followed by the query-parameter extraction; the path-segment match of
lines 67–76 computes values it never uses and is omitted. -/
def parseCurlExample (curlCode : String) : List (String × Json) :=
  let values : List (String × Json) := []
  let values :=
    match findDFlag curlCode.data with
    | none => values
    | some capture =>
      let content1 := (jsTrim ⟨capture⟩).data
      let content2 := (jsTrim ⟨stripLineCont (content1.length + 1) content1⟩).data
      let content3 :=
        match quoteStrip content2 with
        | some mid => mid
        | none => content2
      let jsonContent := unescapeChain content3
      match jsonParse ⟨jsonContent⟩ with
      | .ok j => jsAssign values j
      | .error _ =>
        match extractBraces jsonContent with
        | none => values
        | some objStr =>
          match jsonParse ⟨objStr⟩ with
          | .ok j => jsAssign values j
          | .error _ =>
            let fixed := stripTrailingComma ']' (objStr.length + 1)
              (stripTrailingComma chRBrace (objStr.length + 1) objStr)
            match jsonParse ⟨fixed⟩ with
            | .ok j => jsAssign values j
            | .error _ => values
  match findQueryStr curlCode.data with
  | none => values
  | some qs => (parseQueryPairs qs).foldl
      (fun acc kv => Json.setKey acc kv.1 (Json.str kv.2)) values

example : parseCurlExample "curl -X POST \\\n  'https://api.example.com/items' \\\n  -H 'Content-Type: application/json' \\\n  -d '\x7b\"name\":\"Ada\",\"age\":30\x7d' \\\n" =
    [("name", Json.str "Ada"), ("age", Json.num 30)] := by decide

example : parseCurlExample "curl -X GET \\\n  'https://api.example.com/items?tags=a&tags=b&n=5'" =
    [("tags", Json.str "b"), ("n", Json.str "5")] := by decide

/-- The regex class `\w`. -/
def isWordCh (c : Char) : Bool :=
  (97 ≤ c.toNat && c.toNat ≤ 122) || (65 ≤ c.toNat && c.toNat ≤ 90) ||
  (48 ≤ c.toNat && c.toNat ≤ 57) || c = '_'

/-- A character of the class `["']`. -/
def isQuote2 (c : Char) : Bool := c = chSQuote || c = chDQuote

def notQuote2 (c : Char) : Bool := !(isQuote2 c)

/-- A global regex scan: at each position try the single-match function;
on a match, emit it and resume after the consumed text, otherwise advance
one character. Every pattern here consumes at least one character, so
fuel `length + 1` suffices. -/
def scanAll {α : Type} (matchAt : List Char → Option (α × List Char)) :
    Nat → List Char → List α
  | 0, _ => []
  | _ + 1, [] => []
  | fuel + 1, c :: rest =>
    match matchAt (c :: rest) with
    | some (a, rem) => a :: scanAll matchAt fuel rem
    | none => scanAll matchAt fuel rest

def stripAnyPrefix (ps : List (List Char)) (l : List Char) : Option (List Char) :=
  match ps with
  | [] => none
  | p :: rest => if p.isPrefixOf l then some (l.drop p.length) else stripAnyPrefix rest l

/-- The call match of pattern `\.(?:create|update|new)\(([\s\S]*?)\)`
(lines 101 and 188): the leftmost `.create(`/`.update(`/`.new(`, with the
lazy capture running to the first `)` after it (no match when no `)`
follows). -/
def findCallArgs : List Char → Option (List Char)
  | [] => none
  | c :: rest =>
    if c = '.' then
      match stripAnyPrefix ["create(".data, "update(".data, "new(".data] rest with
      | some after =>
        let body := after.takeWhile (fun x => x ≠ ')')
        let rem := after.dropWhile (fun x => x ≠ ')')
        if rem.isEmpty then findCallArgs rest else some body
      | none => findCallArgs rest
    else findCallArgs rest

/-- One match of the keyword-argument pattern
`(\w+)\s*=\s*["']([^"']+)["']` (line 106). -/
def kwargAt (l : List Char) : Option ((String × String) × List Char) :=
  let key := l.takeWhile isWordCh
  if key.isEmpty then none
  else
    let r2 := (l.dropWhile isWordCh).dropWhile isWsRe
    match r2 with
    | '=' :: r3 =>
      match r3.dropWhile isWsRe with
      | q :: r5 =>
        if isQuote2 q then
          let val := r5.takeWhile notQuote2
          if val.isEmpty then none
          else
            match r5.dropWhile notQuote2 with
            | q2 :: r6 => if isQuote2 q2 then some ((⟨key⟩, ⟨val⟩), r6) else none
            | [] => none
        else none
      | [] => none
    | _ => none

/-- One match of the dictionary-argument pattern of line 114.  The
nested-brace alternation of the source pattern is unreachable (the greedy
`[^}]+` run ends at the first `\x7d`, which the closing `\x7d` of the
pattern consumes immediately), so the captured content runs from `\x7b`
to the first `\x7d`. -/
def pyDictAt (l : List Char) : Option ((String × List Char) × List Char) :=
  let key := l.takeWhile isWordCh
  if key.isEmpty then none
  else
    let r2 := (l.dropWhile isWordCh).dropWhile isWsRe
    match r2 with
    | '=' :: r3 =>
      match r3.dropWhile isWsRe with
      | b :: r5 =>
        if b = chLBrace then
          let content := r5.takeWhile (fun x => x ≠ chRBrace)
          if content.isEmpty then none
          else
            match r5.dropWhile (fun x => x ≠ chRBrace) with
            | _ :: r6 => some ((⟨key⟩, content), r6)
            | [] => none
        else none
      | [] => none
    | _ => none

/-- One match of the array-argument pattern `(\w+)\s*=\s*\[([^\]]+)\]`
(line 130). -/
def pyArrayAt (l : List Char) : Option ((String × List Char) × List Char) :=
  let key := l.takeWhile isWordCh
  if key.isEmpty then none
  else
    let r2 := (l.dropWhile isWordCh).dropWhile isWsRe
    match r2 with
    | '=' :: r3 =>
      match r3.dropWhile isWsRe with
      | b :: r5 =>
        if b = '[' then
          let content := r5.takeWhile (fun x => x ≠ ']')
          if content.isEmpty then none
          else
            match r5.dropWhile (fun x => x ≠ ']') with
            | _ :: r6 => some ((⟨key⟩, content), r6)
            | [] => none
        else none
      | [] => none
    | _ => none

/-- One match of the quoted-key pair pattern
`["'](\w+)["']\s*:\s*["']([^"']+)["']` (lines 117, 150). -/
def innerKvAt (l : List Char) : Option ((String × String) × List Char) :=
  match l with
  | q :: r1 =>
    if isQuote2 q then
      let key := r1.takeWhile isWordCh
      if key.isEmpty then none
      else
        match r1.dropWhile isWordCh with
        | q2 :: r3 =>
          if isQuote2 q2 then
            match r3.dropWhile isWsRe with
            | ':' :: r4 =>
              match r4.dropWhile isWsRe with
              | q3 :: r5 =>
                if isQuote2 q3 then
                  let val := r5.takeWhile notQuote2
                  if val.isEmpty then none
                  else
                    match r5.dropWhile notQuote2 with
                    | q4 :: r6 => if isQuote2 q4 then some ((⟨key⟩, ⟨val⟩), r6) else none
                    | [] => none
                else none
              | [] => none
            | _ => none
          else none
        | [] => none
    else none
  | [] => none

/-- One match of the quoted-item pattern `["']([^"']+)["']`
(lines 134, 211). -/
def quotedItemAt (l : List Char) : Option (String × List Char) :=
  match l with
  | q :: r1 =>
    if isQuote2 q then
      let val := r1.takeWhile notQuote2
      if val.isEmpty then none
      else
        match r1.dropWhile notQuote2 with
        | q2 :: r2 => if isQuote2 q2 then some (⟨val⟩, r2) else none
        | [] => none
    else none
  | [] => none

/-- Split a list at its first `\x7d]` pair (the lazy
`(\{[\s\S]*?\})\]` tail): returns the part up to and including the
`\x7d` and the remainder after the `]`. -/
def splitAtBraceBracket : List Char → Option (List Char × List Char)
  | [] => none
  | [_] => none
  | c :: d :: rest =>
    if c = chRBrace && d = ']' then some ([c], rest)
    else
      match splitAtBraceBracket (d :: rest) with
      | some (mid, rem) => some (c :: mid, rem)
      | none => none

/-- The suffix test `(\w+)\s*=\s*\[$` of line 160, applied to the
reversed prefix before the matched `[`. -/
def revParamMatch (seen : List Char) : Option String :=
  match seen with
  | '[' :: r1 =>
    match r1.dropWhile isWsRe with
    | '=' :: r3 =>
      let keyRev := (r3.dropWhile isWsRe).takeWhile isWordCh
      if keyRev.isEmpty then none else some ⟨keyRev.reverse⟩
    | _ => none
  | _ => none

/-- The dictionary-literal loop of lines 145–168: each `[\x7b` whose
brace closes right before a `]` is matched lazily; the quoted-key pairs
inside form a record, and when the record is non-empty and the text
before the `[` ends in `param = [`, the record (as a one-element array)
is recorded under `param`. `seen` carries the already-scanned text,
reversed. -/
def scanDictLits : Nat → List Char → List Char → List (String × Json)
  | 0, _, _ => []
  | _ + 1, _, [] => []
  | fuel + 1, seen, c :: rest =>
    if c = '[' then
      match rest with
      | c2 :: rest2 =>
        if c2 = chLBrace then
          match splitAtBraceBracket (c2 :: rest2) with
          | some (dictStr, rem) =>
            let kvs := scanAll innerKvAt (dictStr.length + 1) dictStr
            let dictVals := kvs.foldl
              (fun a p => Json.setKey a p.1 (Json.str p.2)) []
            let assigned :=
              if dictVals.length > 0 then
                match revParamMatch seen with
                | some key => [(key, Json.arr [Json.obj dictVals])]
                | none => []
              else []
            assigned ++
              scanDictLits fuel ((']' :: dictStr.reverse) ++ c :: seen) rem
          | none => scanDictLits fuel (c :: seen) rest
        else scanDictLits fuel (c :: seen) rest
      | [] => []
    else scanDictLits fuel (c :: seen) rest

/-- `parsePythonExample` (lines 94–172): keyword arguments, dictionary
arguments, array arguments and dictionary literals extracted from the
first `.create(`/`.update(`/`.new(` call's arguments. -/
def parsePythonExample (pythonCode : String) : List (String × Json) :=
  match findCallArgs pythonCode.data with
  | none => []
  | some args =>
    let values : List (String × Json) := []
    let values := (scanAll kwargAt (args.length + 1) args).foldl
      (fun acc kv => Json.setKey acc kv.1 (Json.str kv.2)) values
    let values := (scanAll pyDictAt (args.length + 1) args).foldl
      (fun acc kv =>
        let dictVals := (scanAll innerKvAt (kv.2.length + 1) kv.2).foldl
          (fun a p => Json.setKey a p.1 (Json.str p.2)) []
        if dictVals.length > 0 then Json.setKey acc kv.1 (Json.obj dictVals) else acc)
      values
    let values := (scanAll pyArrayAt (args.length + 1) args).foldl
      (fun acc kv =>
        let items := scanAll quotedItemAt (kv.2.length + 1) kv.2
        if items.length > 0 then
          Json.setKey acc kv.1 (Json.arr (items.map Json.str))
        else acc)
      values
    (scanDictLits (args.length + 1) [] args).foldl
      (fun acc kv => Json.setKey acc kv.1 kv.2) values

/-- One match of the optionally-quoted pair pattern
`["']?(\w+)["']?\s*:\s*["']([^"']+)["']` (lines 199, 225). -/
def nodeKvAt (l : List Char) : Option ((String × String) × List Char) :=
  let l1 := match l with
    | q :: r => if isQuote2 q then r else l
    | [] => l
  let key := l1.takeWhile isWordCh
  if key.isEmpty then none
  else
    let r1 := l1.dropWhile isWordCh
    let r2 := match r1 with
      | q :: r => if isQuote2 q then r else r1
      | [] => r1
    match r2.dropWhile isWsRe with
    | ':' :: r4 =>
      match r4.dropWhile isWsRe with
      | q3 :: r5 =>
        if isQuote2 q3 then
          let val := r5.takeWhile notQuote2
          if val.isEmpty then none
          else
            match r5.dropWhile notQuote2 with
            | q4 :: r6 => if isQuote2 q4 then some ((⟨key⟩, ⟨val⟩), r6) else none
            | [] => none
        else none
      | [] => none
    | _ => none

/-- One match of the optionally-quoted array pattern
`["']?(\w+)["']?\s*:\s*\[([^\]]+)\]` (line 207). -/
def nodeArrayAt (l : List Char) : Option ((String × List Char) × List Char) :=
  let l1 := match l with
    | q :: r => if isQuote2 q then r else l
    | [] => l
  let key := l1.takeWhile isWordCh
  if key.isEmpty then none
  else
    let r1 := l1.dropWhile isWordCh
    let r2 := match r1 with
      | q :: r => if isQuote2 q then r else r1
      | [] => r1
    match r2.dropWhile isWsRe with
    | ':' :: r4 =>
      match r4.dropWhile isWsRe with
      | b :: r5 =>
        if b = '[' then
          let content := r5.takeWhile (fun x => x ≠ ']')
          if content.isEmpty then none
          else
            match r5.dropWhile (fun x => x ≠ ']') with
            | _ :: r6 => some ((⟨key⟩, content), r6)
            | [] => none
        else none
      | [] => none
    | _ => none

/-- One match of the nested-object-array pattern
`["']?(\w+)["']?\s*:\s*\[(\{[\s\S]*?\})\]` (line 222). -/
def nodeNestedAt (l : List Char) : Option ((String × List Char) × List Char) :=
  let l1 := match l with
    | q :: r => if isQuote2 q then r else l
    | [] => l
  let key := l1.takeWhile isWordCh
  if key.isEmpty then none
  else
    let r1 := l1.dropWhile isWordCh
    let r2 := match r1 with
      | q :: r => if isQuote2 q then r else r1
      | [] => r1
    match r2.dropWhile isWsRe with
    | ':' :: r4 =>
      match r4.dropWhile isWsRe with
      | b :: r5 =>
        if b = '[' then
          match r5 with
          | b2 :: r6 =>
            if b2 = chLBrace then
              match splitAtBraceBracket (b2 :: r6) with
              | some (mid, rem) => some ((⟨key⟩, mid), rem)
              | none => none
            else none
          | [] => none
        else none
      | [] => none
    | _ => none

/-- The single `objectPattern.exec(args)` of lines 193–194: the content
from the first `\x7b` to the first `\x7d` after it (the nested-brace
alternation of the pattern is unreachable, as in `pyDictAt`). -/
def findFirstObject (l : List Char) : Option (List Char) :=
  match l.dropWhile (fun c => c ≠ chLBrace) with
  | [] => none
  | _ :: rest =>
    if (rest.dropWhile (fun c => c ≠ chRBrace)).isEmpty then none
    else some (rest.takeWhile (fun c => c ≠ chRBrace))

/-- `parseNodeJsExample` (lines 177–240): key-value pairs, arrays and
nested object arrays extracted from the first object literal inside the
first `.create(`/`.update(`/`.new(` call's arguments. The simple-call
match of line 181 computes a value it never uses and is omitted. -/
def parseNodeJsExample (nodeJsCode : String) : List (String × Json) :=
  match findCallArgs nodeJsCode.data with
  | none => []
  | some args =>
    match findFirstObject args with
    | none => []
    | some objectContent =>
      let values : List (String × Json) := []
      let values := (scanAll nodeKvAt (objectContent.length + 1) objectContent).foldl
        (fun acc kv => Json.setKey acc kv.1 (Json.str kv.2)) values
      let values := (scanAll nodeArrayAt (objectContent.length + 1) objectContent).foldl
        (fun acc kv =>
          let items := scanAll quotedItemAt (kv.2.length + 1) kv.2
          if items.length > 0 then
            Json.setKey acc kv.1 (Json.arr (items.map Json.str))
          else acc)
        values
      (scanAll nodeNestedAt (objectContent.length + 1) objectContent).foldl
        (fun acc kv =>
          let nested := (scanAll nodeKvAt (kv.2.length + 1) kv.2).foldl
            (fun a p => Json.setKey a p.1 (Json.str p.2)) []
          if nested.length > 0 then
            Json.setKey acc kv.1 (Json.arr [Json.obj nested])
          else acc)
        values

/-- The single `structPattern.exec(goCode)` of lines 250–251
(`\w+\{([^}]+)\}`): the first word run immediately followed by a brace
pair with non-empty content. -/
def findGoStruct : List Char → Option (List Char)
  | [] => none
  | c :: rest =>
    (if isWordCh c then
      match (c :: rest).dropWhile isWordCh with
      | b :: r1 =>
        if b = chLBrace then
          let content := r1.takeWhile (fun x => x ≠ chRBrace)
          if content.isEmpty then findGoStruct rest
          else if (r1.dropWhile (fun x => x ≠ chRBrace)).isEmpty then findGoStruct rest
          else some content
        else findGoStruct rest
      | [] => findGoStruct rest
    else findGoStruct rest)

/-- One match of the Go field pattern `(\w+)\s*:\s*["']([^"']+)["']`
(line 256). -/
def goFieldAt (l : List Char) : Option ((String × String) × List Char) :=
  let key := l.takeWhile isWordCh
  if key.isEmpty then none
  else
    match (l.dropWhile isWordCh).dropWhile isWsRe with
    | ':' :: r3 =>
      match r3.dropWhile isWsRe with
      | q :: r5 =>
        if isQuote2 q then
          let val := r5.takeWhile notQuote2
          if val.isEmpty then none
          else
            match r5.dropWhile notQuote2 with
            | q2 :: r6 => if isQuote2 q2 then some ((⟨key⟩, ⟨val⟩), r6) else none
            | [] => none
        else none
      | [] => none
    | _ => none

/-- `parseGoExample` (lines 245–265). -/
def parseGoExample (goCode : String) : List (String × Json) :=
  match findGoStruct goCode.data with
  | none => []
  | some content =>
    (scanAll goFieldAt (content.length + 1) content).foldl
      (fun acc kv => Json.setKey acc kv.1 (Json.str kv.2)) []

/-- The suffix of the list starting at its last `/` that is directly
followed by a non-quote character, if any. -/
def lastViableSlash : List Char → Option (List Char)
  | [] => none
  | c :: rest =>
    match lastViableSlash rest with
    | some s => some s
    | none =>
      match rest with
      | n :: _ => if c = '/' && !(isQuote2 n) then some (c :: rest) else none
      | [] => none

/-- The path match of pattern `https?:\/\/[^\s]+(\/[^\s'\x22]+)`
(line 312): after the leftmost `http://`/`https://`, the greedy non-ws
run backtracks so that the capture starts at the last `/` (at offset at
least one into the run) followed by a non-quote character; the capture
then runs greedily over non-whitespace non-quote characters. -/
def findHttpPath : List Char → Option (List Char)
  | [] => none
  | c :: rest =>
    let attempt : Option (List Char) :=
      match stripAnyPrefix ["https://".data, "http://".data] (c :: rest) with
      | some after =>
        let run := after.takeWhile (fun x => !isWsRe x)
        match run with
        | _ :: rtail =>
          match lastViableSlash rtail with
          | some (s :: srest) => some (s :: srest.takeWhile notQuote2)
          | some [] => none
          | none => none
        | [] => none
      | none => none
    match attempt with
    | some p => some p
    | none => findHttpPath rest

/-- Lines 313–323: the last non-empty segment of the matched path, with
anything from `?` on removed. -/
def curlPathLastSegment (l : List Char) : Option (List Char) :=
  match findHttpPath l with
  | some path =>
    match ((splitOnChar path '/').filter (fun s => !s.isEmpty)).getLast? with
    | some seg => some (seg.takeWhile (fun c => c ≠ '?'))
    | none => none
  | none => none

/-- The argument match of pattern
`\.(?:delete|get|retrieve)\(["']([^"']+)["']\)` (line 329). -/
def findSimpleCallArg : List Char → Option String
  | [] => none
  | c :: rest =>
    let attempt : Option String :=
      if c = '.' then
        match stripAnyPrefix ["delete(".data, "get(".data, "retrieve(".data] rest with
        | some after =>
          match after with
          | q :: r1 =>
            if isQuote2 q then
              let val := r1.takeWhile notQuote2
              if val.isEmpty then none
              else
                match r1.dropWhile notQuote2 with
                | q2 :: ')' :: _ => if isQuote2 q2 then some ⟨val⟩ else none
                | _ => none
            else none
          | [] => none
        | none => none
      else none
    match attempt with
    | some v => some v
    | none => findSimpleCallArg rest

/-- `field.name.split('.')[0]`. -/
def firstDotSegment (name : String) : String :=
  match splitOnChar name.data '.' with
  | s :: _ => ⟨s⟩
  | [] => name

/-- The filtering phase of `parseExampleCode` (lines 336–368): parsed
keys survive when they equal a dot-free field name or the first
dot-segment of some field name; afterwards, any exact field name present
in the parsed map but with a falsy value in the filtered map is copied
over. -/
def filterPhase (formFields : List (String × String)) (parsed : List (String × Json)) :
    List (String × Json) :=
  let topLevel := (formFields.filter (fun f => !f.1.data.contains '.')).map (fun f => f.1)
  let filtered := parsed.foldl
    (fun acc kv =>
      if topLevel.contains kv.1 then Json.setKey acc kv.1 kv.2
      else
        match formFields.find? (fun f => firstDotSegment f.1 = kv.1) with
        | some _ => Json.setKey acc kv.1 kv.2
        | none => acc)
    []
  formFields.foldl
    (fun acc f =>
      if lookupJ parsed f.1 != Json.undef && !(lookupJ acc f.1).truthy then
        Json.setKey acc f.1 (lookupJ parsed f.1)
      else acc)
    filtered

/-- `parseExampleCode` (lines 270–371): language dispatch, the optional
URL-field extraction, and the field filter. A form field is a
`(name, type)` pair; the `type` is never read, as in the source. -/
def parseExampleCode (language : String) (code : String)
    (formFields : List (String × String)) (urlFieldName : Option String) :
    List (String × Json) :=
  let lang := strToLower language
  let parsed : List (String × Json) :=
    if lang = "curl" then parseCurlExample code
    else if lang = "python" then parsePythonExample code
    else if lang = "node.js" || lang = "node" || lang = "javascript" || lang = "js" then
      parseNodeJsExample code
    else if lang = "go" then parseGoExample code
    else
      match extractBraces code.data with
      | some objStr =>
        match jsonParse ⟨objStr⟩ with
        | .ok (Json.obj es) => es
        | .ok _ => []
        | .error _ => []
      | none => []
  let parsed :=
    match urlFieldName with
    | some ufn =>
      if ufn ≠ "" then
        let parsed :=
          if lang = "curl" then
            match curlPathLastSegment code.data with
            | some seg =>
              if !seg.isEmpty && !seg.contains chLBrace && !seg.contains chRBrace then
                Json.setKey parsed ufn (Json.str ⟨seg⟩)
              else parsed
            | none => parsed
          else parsed
        if lang = "python" || lang = "node.js" || lang = "node" then
          match findSimpleCallArg code.data with
          | some arg => Json.setKey parsed ufn (Json.str arg)
          | none => parsed
        else parsed
      else parsed
    | none => parsed
  filterPhase formFields parsed

example : parseExampleCode "curl"
    "curl -X POST \\\n  'https://api.example.com/items' \\\n  -H 'Content-Type: application/json' \\\n  -d '\x7b\"name\":\"Ada\",\"age\":30\x7d' \\\n"
    [("name", "text"), ("age", "number")] none =
    [("name", Json.str "Ada"), ("age", Json.num 30)] := by decide

example : parseExampleCode "python"
    "import requests\n\nclient.items.create(name=\"Ada\", age=\"30\")"
    [("name", "text"), ("age", "number")] none =
    [("name", Json.str "Ada"), ("age", Json.str "30")] := by decide

example : parseExampleCode "curl"
    "curl -X DELETE 'https://api.example.com/items/abc123'"
    [("id", "text")] (some "id") = [("id", Json.str "abc123")] := by decide

/-!
## Claim C10: query-string extraction produces strings
-/

/-- The query entries `parseCurlExample` iterates over (lines 79–84):
the form-decoded pairs of the first query match, or nothing. -/
def curlQueryPairs (curlCode : String) : List (String × String) :=
  match findQueryStr curlCode.data with
  | some qs => parseQueryPairs qs
  | none => []

theorem lookupJ_setKey_self (es : List (String × Json)) (k : String) (v : Json) :
    lookupJ (Json.setKey es k v) k = v := by
  induction es with
  | nil => simp [Json.setKey, lookupJ]
  | cons e es ih =>
    by_cases h : e.1 = k
    · simp [Json.setKey, h, lookupJ]
    · simp only [Json.setKey, h, if_false]
      simp only [lookupJ, List.find?] at ih ⊢
      simp [h]
      exact ih

theorem lookupJ_setKey_ne (es : List (String × Json)) (k' : String) (v : Json) (k : String)
    (h : k' ≠ k) : lookupJ (Json.setKey es k' v) k = lookupJ es k := by
  induction es with
  | nil => simp [Json.setKey, lookupJ, List.find?, h]
  | cons e es ih =>
    by_cases he : e.1 = k'
    · simp only [Json.setKey, he, if_true]
      simp only [lookupJ, List.find?]
      rw [show (decide (k' = k)) = false from by simp [h]]
      rw [show (decide (e.1 = k)) = false from by simp [he, h]]
    · simp only [Json.setKey, he, if_false]
      simp only [lookupJ, List.find?] at ih ⊢
      cases hd : decide (e.1 = k) with
      | true => rfl
      | false => exact ih

theorem foldl_setKey_str_mem (pairs : List (String × String)) (init : List (String × Json))
    (k : String)
    (h : k ∈ pairs.map Prod.fst ∨ ∃ s, lookupJ init k = Json.str s) :
    ∃ s, lookupJ
      (pairs.foldl (fun acc kv => Json.setKey acc kv.1 (Json.str kv.2)) init) k =
      Json.str s := by
  induction pairs generalizing init with
  | nil =>
    rcases h with h | h
    · simp at h
    · exact h
  | cons p ps ih =>
    rw [List.foldl_cons]
    apply ih
    by_cases hk : p.1 = k
    · right
      exact ⟨p.2, by rw [hk, lookupJ_setKey_self]⟩
    · rcases h with h | h
      · rcases List.mem_map.mp h with ⟨q, hq, hqk⟩
        rcases List.mem_cons.mp hq with hq1 | hq2
        · exact absurd (hq1 ▸ hqk) hk
        · exact Or.inl (List.mem_map.mpr ⟨q, hq2, hqk⟩)
      · right
        rcases h with ⟨s, hs⟩
        exact ⟨s, by rw [lookupJ_setKey_ne _ _ _ _ hk]; exact hs⟩

/-- C10: every value `parseCurlExample` extracts from the URL's query
string is a `Json.str` — any query parameter key found in the query
match maps to a string in the result, never to a number, boolean or
array. -/
theorem curlQuery_values_are_strings (curlCode : String) (k : String)
    (hk : k ∈ (curlQueryPairs curlCode).map Prod.fst) :
    ∃ s, lookupJ (parseCurlExample curlCode) k = Json.str s := by
  unfold parseCurlExample
  unfold curlQueryPairs at hk
  cases hq : findQueryStr curlCode.data with
  | none =>
    rw [hq] at hk
    simp at hk
  | some qs =>
    rw [hq] at hk
    exact foldl_setKey_str_mem _ _ _ (Or.inl hk)

/-- Witness for C10: in a generated-style sample with `?n=5&b=true`,
the numeric parameter `n` and the boolean parameter `b` both come back
as strings (`"5"` and `"true"`). -/
theorem curlQuery_values_are_strings_witness :
    "n" ∈ (curlQueryPairs "curl -X GET https://api.example.com/items?n=5&b=true").map
      Prod.fst ∧
    (∃ s, lookupJ
      (parseCurlExample "curl -X GET https://api.example.com/items?n=5&b=true") "n" =
      Json.str s) ∧
    lookupJ (parseCurlExample "curl -X GET https://api.example.com/items?n=5&b=true") "n" =
      Json.str "5" ∧
    lookupJ (parseCurlExample "curl -X GET https://api.example.com/items?n=5&b=true") "b" =
      Json.str "true" :=
  ⟨by decide,
   curlQuery_values_are_strings "curl -X GET https://api.example.com/items?n=5&b=true" "n"
     (by decide),
   by decide, by decide⟩

/-!
## Claim C7: keys of the filtered parse result
-/

theorem mem_keys_setKey (es : List (String × Json)) (k' : String) (v : Json) (k : String)
    (h : k ∈ (Json.setKey es k' v).map Prod.fst) : k = k' ∨ k ∈ es.map Prod.fst := by
  induction es with
  | nil =>
    simp [Json.setKey] at h
    exact Or.inl h
  | cons e es ih =>
    by_cases he : e.1 = k'
    · simp only [Json.setKey, he, if_true, List.map_cons, List.mem_cons] at h
      rcases h with h | h
      · exact Or.inl h
      · exact Or.inr (List.mem_cons.mpr (Or.inr h))
    · simp only [Json.setKey, he, if_false, List.map_cons, List.mem_cons] at h
      rcases h with h | h
      · exact Or.inr (List.mem_cons.mpr (Or.inl h))
      · rcases ih h with h2 | h2
        · exact Or.inl h2
        · exact Or.inr (List.mem_cons.mpr (Or.inr h2))

theorem fold1_keys (formFields : List (String × String)) (topLevel : List String)
    (parsed : List (String × Json)) (acc : List (String × Json)) (k : String)
    (hk : k ∈ (parsed.foldl (fun acc kv =>
        if topLevel.contains kv.1 then Json.setKey acc kv.1 kv.2
        else
          match formFields.find? (fun f => firstDotSegment f.1 = kv.1) with
          | some _ => Json.setKey acc kv.1 kv.2
          | none => acc) acc).map Prod.fst) :
    k ∈ acc.map Prod.fst ∨ k ∈ topLevel ∨
      ∃ f ∈ formFields, firstDotSegment f.1 = k := by
  induction parsed generalizing acc with
  | nil => exact Or.inl hk
  | cons p ps ih =>
    rw [List.foldl_cons] at hk
    rcases ih _ hk with h | h | h
    · by_cases ht : topLevel.contains p.1 = true
      · rw [if_pos ht] at h
        rcases mem_keys_setKey _ _ _ _ h with h2 | h2
        · exact Or.inr (Or.inl (h2 ▸ List.elem_iff.mp ht))
        · exact Or.inl h2
      · rw [if_neg ht] at h
        cases hf : formFields.find? (fun f => firstDotSegment f.1 = p.1) with
        | some f =>
          rw [hf] at h
          rcases mem_keys_setKey _ _ _ _ h with h2 | h2
          · refine Or.inr (Or.inr ⟨f, List.mem_of_find?_eq_some hf, ?_⟩)
            have := List.find?_some hf
            simp only [decide_eq_true_eq] at this
            rw [this, h2]
          · exact Or.inl h2
        | none =>
          rw [hf] at h
          exact Or.inl h
    · exact Or.inr (Or.inl h)
    · exact Or.inr (Or.inr h)

theorem fold2_keys (formFields : List (String × String)) (parsed : List (String × Json))
    (filtered : List (String × Json)) (k : String)
    (hk : k ∈ (formFields.foldl (fun acc f =>
        if lookupJ parsed f.1 != Json.undef && !(lookupJ acc f.1).truthy then
          Json.setKey acc f.1 (lookupJ parsed f.1)
        else acc) filtered).map Prod.fst) :
    k ∈ filtered.map Prod.fst ∨ ∃ f ∈ formFields, f.1 = k := by
  induction formFields generalizing filtered with
  | nil => exact Or.inl hk
  | cons f fs ih =>
    rw [List.foldl_cons] at hk
    rcases ih _ hk with h | h
    · by_cases hc : (lookupJ parsed f.1 != Json.undef && !(lookupJ filtered f.1).truthy) = true
      · rw [if_pos hc] at h
        rcases mem_keys_setKey _ _ _ _ h with h2 | h2
        · exact Or.inr ⟨f, List.mem_cons_self _ _, h2.symm⟩
        · exact Or.inl h2
      · rw [if_neg hc] at h
        exact Or.inl h
    · rcases h with ⟨g, hg, hgk⟩
      exact Or.inr ⟨g, List.mem_cons.mpr (Or.inr hg), hgk⟩

/-- C7: every key of the Parsed Value Map returned by
`parseExampleCode` is a dot-free form field name, or the first
dot-segment of some form field's name, or an exact form field name;
all other extracted keys are discarded by the filter. -/
theorem parseExampleCode_keys (language code : String)
    (formFields : List (String × String)) (urlFieldName : Option String) (k : String)
    (hk : k ∈ (parseExampleCode language code formFields urlFieldName).map Prod.fst) :
    (∃ f ∈ formFields, f.1 = k ∧ f.1.data.contains '.' = false) ∨
    (∃ f ∈ formFields, firstDotSegment f.1 = k) ∨
    (∃ f ∈ formFields, f.1 = k) := by
  have hfilter : ∀ (parsed : List (String × Json)),
      k ∈ (filterPhase formFields parsed).map Prod.fst →
      (∃ f ∈ formFields, f.1 = k ∧ f.1.data.contains '.' = false) ∨
      (∃ f ∈ formFields, firstDotSegment f.1 = k) ∨
      (∃ f ∈ formFields, f.1 = k) := by
    intro parsed hmem
    unfold filterPhase at hmem
    rcases fold2_keys _ _ _ _ hmem with h | h
    · rcases fold1_keys _ _ _ _ _ h with h2 | h2 | h2
      · simp at h2
      · rcases List.mem_map.mp h2 with ⟨f, hf, hfk⟩
        rcases List.mem_filter.mp hf with ⟨hf1, hf2⟩
        refine Or.inl ⟨f, hf1, hfk, ?_⟩
        simpa using hf2
      · exact Or.inr (Or.inl h2)
    · exact Or.inr (Or.inr h)
  exact hfilter _ hk

/-- Witness for C7: parsing the generated sample for a form that only
declares `name` keeps `name` and discards the extracted `age`. -/
theorem parseExampleCode_keys_witness :
    "name" ∈ (parseExampleCode "curl"
      "curl -d '\x7b\"name\":\"Ada\",\"age\":30\x7d'" [("name", "text")] none).map
        Prod.fst ∧
    ((∃ f ∈ [(("name" : String), ("text" : String))], f.1 = "name" ∧
        f.1.data.contains '.' = false) ∨
      (∃ f ∈ [(("name" : String), ("text" : String))], firstDotSegment f.1 = "name") ∨
      (∃ f ∈ [(("name" : String), ("text" : String))], f.1 = "name")) ∧
    lookupJ (parseExampleCode "curl"
      "curl -d '\x7b\"name\":\"Ada\",\"age\":30\x7d'" [("name", "text")] none) "age" =
      Json.undef :=
  ⟨by decide,
   parseExampleCode_keys "curl" "curl -d '\x7b\"name\":\"Ada\",\"age\":30\x7d'"
     [("name", "text")] none "name" (by decide),
   by decide⟩

/-!
## Claim C9: the parser never propagates an exception

The `E` variants below re-run the parsers in an `Except String` monad in
which `JSON.parse` failures are thrown values; `tryCatchE` models the
source's `try`/`catch` blocks at exactly the places the source has them.
That every other step is pure (regex scans and `URLSearchParams` do not
throw) is visible in the definitions: nothing else produces an `error`.
-/

def tryCatchE {α : Type} (body : Except String α) (handler : String → Except String α) :
    Except String α :=
  match body with
  | .ok a => .ok a
  | .error e => handler e

/-- `parseCurlExample` with the thrown `JSON.parse` errors made
explicit, caught by the `try`/`catch` blocks of lines 39–63. -/
def parseCurlExampleE (curlCode : String) : Except String (List (String × Json)) :=
  let values : List (String × Json) := []
  let bodyStep : Except String (List (String × Json)) :=
    match findDFlag curlCode.data with
    | none => .ok values
    | some capture =>
      let content1 := (jsTrim ⟨capture⟩).data
      let content2 := (jsTrim ⟨stripLineCont (content1.length + 1) content1⟩).data
      let content3 :=
        match quoteStrip content2 with
        | some mid => mid
        | none => content2
      let jsonContent := unescapeChain content3
      tryCatchE
        (match jsonParse ⟨jsonContent⟩ with
         | .ok j => .ok (jsAssign values j)
         | .error e => .error e)
        (fun _ =>
          match extractBraces jsonContent with
          | none => .ok values
          | some objStr =>
            tryCatchE
              (match jsonParse ⟨objStr⟩ with
               | .ok j => .ok (jsAssign values j)
               | .error e => .error e)
              (fun _ =>
                let fixed := stripTrailingComma ']' (objStr.length + 1)
                  (stripTrailingComma chRBrace (objStr.length + 1) objStr)
                tryCatchE
                  (match jsonParse ⟨fixed⟩ with
                   | .ok j => .ok (jsAssign values j)
                   | .error e => .error e)
                  (fun _ => .ok values)))
  match bodyStep with
  | .error e => .error e
  | .ok values =>
    match findQueryStr curlCode.data with
    | none => .ok values
    | some qs => .ok ((parseQueryPairs qs).foldl
        (fun acc kv => Json.setKey acc kv.1 (Json.str kv.2)) values)

/-- The default-language branch of `parseExampleCode` (lines 296–304)
with the thrown `JSON.parse` error made explicit, caught by the
`try`/`catch` of lines 299–303. -/
def parseDefaultE (code : String) : Except String (List (String × Json)) :=
  match extractBraces code.data with
  | some objStr =>
    tryCatchE
      (match jsonParse ⟨objStr⟩ with
       | .ok (Json.obj es) => .ok es
       | .ok _ => .ok []
       | .error e => .error e)
      (fun _ => .ok [])
  | none => .ok []

/-- `parseExampleCode` in the explicit-exception monad: the Python,
Node.js and Go scanners contain no throwing operation (their `try` block
on lines 148–167 guards pure regex work), so they are `.ok` by
construction; the cURL and default branches carry their caught
`JSON.parse` throws. -/
def parseExampleCodeE (language : String) (code : String)
    (formFields : List (String × String)) (urlFieldName : Option String) :
    Except String (List (String × Json)) :=
  let lang := strToLower language
  let parsedE : Except String (List (String × Json)) :=
    if lang = "curl" then parseCurlExampleE code
    else if lang = "python" then .ok (parsePythonExample code)
    else if lang = "node.js" || lang = "node" || lang = "javascript" || lang = "js" then
      .ok (parseNodeJsExample code)
    else if lang = "go" then .ok (parseGoExample code)
    else parseDefaultE code
  match parsedE with
  | .error e => .error e
  | .ok parsed =>
    let parsed :=
      match urlFieldName with
      | some ufn =>
        if ufn ≠ "" then
          let parsed :=
            if lang = "curl" then
              match curlPathLastSegment code.data with
              | some seg =>
                if !seg.isEmpty && !seg.contains chLBrace && !seg.contains chRBrace then
                  Json.setKey parsed ufn (Json.str ⟨seg⟩)
                else parsed
              | none => parsed
            else parsed
          if lang = "python" || lang = "node.js" || lang = "node" then
            match findSimpleCallArg code.data with
            | some arg => Json.setKey parsed ufn (Json.str arg)
            | none => parsed
          else parsed
        else parsed
      | none => parsed
    .ok (filterPhase formFields parsed)

theorem parseCurlExampleE_ok (c : String) :
    parseCurlExampleE c = .ok (parseCurlExample c) := by
  unfold parseCurlExampleE parseCurlExample
  cases hd : findDFlag c.data with
  | none => cases findQueryStr c.data <;> rfl
  | some capture =>
    dsimp only
    cases h1 : jsonParse ⟨unescapeChain (match quoteStrip
        (jsTrim ⟨stripLineCont ((jsTrim ⟨capture⟩).data.length + 1)
          (jsTrim ⟨capture⟩).data⟩).data with
        | some mid => mid
        | none => (jsTrim ⟨stripLineCont ((jsTrim ⟨capture⟩).data.length + 1)
            (jsTrim ⟨capture⟩).data⟩).data)⟩ with
    | ok j => cases findQueryStr c.data <;> rfl
    | error e =>
      dsimp only [tryCatchE]
      cases h2 : extractBraces (unescapeChain (match quoteStrip
          (jsTrim ⟨stripLineCont ((jsTrim ⟨capture⟩).data.length + 1)
            (jsTrim ⟨capture⟩).data⟩).data with
          | some mid => mid
          | none => (jsTrim ⟨stripLineCont ((jsTrim ⟨capture⟩).data.length + 1)
              (jsTrim ⟨capture⟩).data⟩).data)) with
      | none => cases findQueryStr c.data <;> rfl
      | some objStr =>
        dsimp only
        cases h3 : jsonParse ⟨objStr⟩ with
        | ok j => cases findQueryStr c.data <;> rfl
        | error e2 =>
          dsimp only [tryCatchE]
          cases h4 : jsonParse ⟨stripTrailingComma ']' (objStr.length + 1)
              (stripTrailingComma chRBrace (objStr.length + 1) objStr)⟩ with
          | ok j => cases findQueryStr c.data <;> rfl
          | error e3 => cases findQueryStr c.data <;> rfl

/-- C9: for every language tag, source text, field list and optional
URL field name, the explicit-exception run of the Example Parser returns
`.ok` of exactly the Parsed Value Map of the pure run — every
`JSON.parse` throw is caught inside the parser, and no other operation
throws, so parsing never propagates an exception. -/
theorem parseExampleCode_noThrow (language code : String)
    (formFields : List (String × String)) (urlFieldName : Option String) :
    parseExampleCodeE language code formFields urlFieldName =
      .ok (parseExampleCode language code formFields urlFieldName) := by
  unfold parseExampleCodeE parseExampleCode
  by_cases hc : strToLower language = "curl"
  · simp only [hc, if_true, parseCurlExampleE_ok]
  · simp only [hc, if_false]
    by_cases hp : strToLower language = "python"
    · simp [hp]
    · simp only [hp, if_false]
      by_cases hn : (strToLower language = "node.js" || strToLower language = "node" ||
          strToLower language = "javascript" || strToLower language = "js") = true
      · simp only [hn, if_true]
      · simp only [hn, if_false]
        by_cases hg : strToLower language = "go"
        · simp [hg]
        · simp only [hg, if_false]
          unfold parseDefaultE
          cases hb : extractBraces code.data with
          | none => rfl
          | some objStr =>
            dsimp only
            cases hj : jsonParse ⟨objStr⟩ with
            | ok j => cases j <;> rfl
            | error e => rfl

/-!
## Claim C1: round-tripping a generated cURL sample
-/

theorem char_toNat_digit (m : Nat) (h : m < 10) : (Char.ofNat (48 + m)).toNat = 48 + m := by
  interval_cases m <;> decide

theorem char_digit_isDigit (m : Nat) (h : m < 10) : (Char.ofNat (48 + m)).isDigit = true := by
  interval_cases m <;> decide

theorem natDigits_ne_nil (fuel : Nat) : ∀ n, n < fuel → Json.natDigits fuel n ≠ [] := by
  induction fuel with
  | zero => intro n h; omega
  | succ f ih =>
    intro n h
    by_cases h10 : n < 10
    · simp [Json.natDigits, h10]
    · simp only [Json.natDigits, h10, if_false]
      simp

theorem natDigits_all_digit (fuel : Nat) : ∀ n, n < fuel →
    ∀ c ∈ Json.natDigits fuel n, c.isDigit = true := by
  induction fuel with
  | zero => intro n h; omega
  | succ f ih =>
    intro n h c hc
    by_cases h10 : n < 10
    · simp only [Json.natDigits, h10, if_true, List.mem_singleton] at hc
      exact hc ▸ char_digit_isDigit n h10
    · simp only [Json.natDigits, h10, if_false, List.mem_append, List.mem_singleton] at hc
      have hdiv : n / 10 < n := Nat.div_lt_self (by omega) (by omega)
      rcases hc with hc | hc
      · exact ih (n / 10) (by omega) c hc
      · exact hc ▸ char_digit_isDigit (n % 10) (Nat.mod_lt _ (by omega))

theorem natDigits_head (fuel : Nat) : ∀ n, n < fuel → 1 ≤ n →
    ∀ c, (Json.natDigits fuel n).head? = some c → c ≠ '0' := by
  induction fuel with
  | zero => intro n h; omega
  | succ f ih =>
    intro n h h1 c hc
    by_cases h10 : n < 10
    · simp only [Json.natDigits, h10, if_true, List.head?_cons, Option.some_inj] at hc
      subst hc
      intro hcon
      interval_cases n <;> simp_all
    · simp only [Json.natDigits, h10, if_false] at hc
      have hdiv : n / 10 < n := Nat.div_lt_self (by omega) (by omega)
      have hne := natDigits_ne_nil f (n / 10) (by omega)
      obtain ⟨a, as, ha⟩ := List.exists_cons_of_ne_nil hne
      rw [ha, List.cons_append, List.head?_cons, Option.some_inj] at hc
      subst hc
      exact ih (n / 10) (by omega) (by omega) a (by rw [ha]; rfl)

theorem natDigits_len1 (fuel : Nat) (n : Nat) (h : n < fuel) (h10 : n < 10) :
    (Json.natDigits fuel n).length = 1 := by
  cases fuel with
  | zero => omega
  | succ f => simp [Json.natDigits, h10]

theorem natDigits_foldl (fuel : Nat) : ∀ n, n < fuel → ∀ acc,
    (Json.natDigits fuel n).foldl (fun a c => a * 10 + (c.toNat - 48)) acc =
      acc * 10 ^ (Json.natDigits fuel n).length + n := by
  induction fuel with
  | zero => intro n h; omega
  | succ f ih =>
    intro n h acc
    by_cases h10 : n < 10
    · simp only [Json.natDigits, h10, if_true, List.foldl_cons, List.foldl_nil,
        List.length_singleton, pow_one]
      rw [char_toNat_digit n h10]
      omega
    · simp only [Json.natDigits, h10, if_false]
      have hdiv : n / 10 < n := Nat.div_lt_self (by omega) (by omega)
      rw [List.foldl_append, ih (n / 10) (by omega) acc]
      simp only [List.foldl_cons, List.foldl_nil, List.length_append,
        List.length_singleton]
      rw [char_toNat_digit (n % 10) (Nat.mod_lt _ (by omega))]
      have h1 : (acc * 10 ^ (Json.natDigits f (n / 10)).length + n / 10) * 10 +
          (48 + n % 10 - 48) =
          acc * (10 ^ (Json.natDigits f (n / 10)).length * 10) +
            (10 * (n / 10) + n % 10) := by
        have : 48 + n % 10 - 48 = n % 10 := by omega
        rw [this]
        ring
      rw [h1, Nat.div_add_mod, ← pow_succ]

theorem takeWhile_append_all (p : Char → Bool) (l1 l2 : List Char)
    (h1 : ∀ c ∈ l1, p c = true) (h2 : ∀ c, l2.head? = some c → p c = false) :
    (l1 ++ l2).takeWhile p = l1 ∧ (l1 ++ l2).dropWhile p = l2 := by
  induction l1 with
  | nil =>
    simp only [List.nil_append]
    cases l2 with
    | nil => simp
    | cons c cs =>
      have := h2 c rfl
      simp [List.takeWhile_cons, List.dropWhile_cons, this]
  | cons a l1 ih =>
    have ha := h1 a (List.mem_cons_self _ _)
    have ⟨iht, ihd⟩ := ih (fun c hc => h1 c (List.mem_cons.mpr (Or.inr hc))) 
    rw [List.cons_append]
    constructor
    · rw [List.takeWhile_cons, if_pos ha, iht]
    · rw [List.dropWhile_cons, if_pos ha, ihd]

theorem isDigit_ne_of (c : Char) (h : c.isDigit = true) (d : Char)
    (hd : d.isDigit = false) : c ≠ d := by
  intro hc
  rw [hc, hd] at h
  exact Bool.noConfusion h

theorem isDigit_ne_chars (c : Char) (h : c.isDigit = true) :
    c ≠ '-' ∧ c ≠ '.' ∧ c ≠ 'e' ∧ c ≠ 'E' ∧ c ≠ '?' ∧ c ≠ chBackslash ∧ c ≠ chDQuote ∧
    c ≠ chLBrace ∧ c ≠ '[' ∧ c ≠ 't' ∧ c ≠ 'f' ∧ c ≠ 'n' ∧ isJsonWs c = false ∧
    c ≠ chSQuote := by
  refine ⟨isDigit_ne_of c h _ (by decide), isDigit_ne_of c h _ (by decide),
    isDigit_ne_of c h _ (by decide), isDigit_ne_of c h _ (by decide),
    isDigit_ne_of c h _ (by decide), isDigit_ne_of c h _ (by decide),
    isDigit_ne_of c h _ (by decide), isDigit_ne_of c h _ (by decide),
    isDigit_ne_of c h _ (by decide), isDigit_ne_of c h _ (by decide),
    isDigit_ne_of c h _ (by decide), isDigit_ne_of c h _ (by decide), ?_,
    isDigit_ne_of c h _ (by decide)⟩
  cases hw : isJsonWs c with
  | false => rfl
  | true =>
    exfalso
    simp only [isJsonWs, Bool.or_eq_true, decide_eq_true_eq] at hw
    rcases hw with ((hw | hw) | hw) | hw <;> (rw [hw] at h; exact absurd h (by decide))

theorem jsonParseNumCore_digits (m : Nat) (neg : Bool) (rest : List Char)
    (hrest : ∀ c, rest.head? = some c →
      c.isDigit = false ∧ c ≠ '.' ∧ c ≠ 'e' ∧ c ≠ 'E') :
    jsonParseNumCore neg (Json.natDigits (m + 1) m ++ rest) =
      .ok (Json.num (if neg then -(m : Int) else (m : Int)), rest) := by
  have hall := natDigits_all_digit (m + 1) m (by omega)
  obtain ⟨htake, hdrop⟩ := takeWhile_append_all Char.isDigit _ rest hall
    (fun c hc => (hrest c hc).1)
  have hne := natDigits_ne_nil (m + 1) m (by omega)
  unfold jsonParseNumCore
  dsimp only
  rw [htake, hdrop]
  rw [if_neg (by simpa [List.isEmpty_iff] using hne)]
  rw [if_neg (by
    rintro ⟨hlen, hhead⟩
    have hm10 : ¬ m < 10 := by
      intro h10
      rw [natDigits_len1 (m + 1) m (by omega) h10] at hlen
      omega
    exact natDigits_head (m + 1) m (by omega) (by omega) '0' hhead rfl)]
  rw [if_neg (by
    intro hc
    exact absurd rfl (hrest '.' hc).2.1)]
  rw [if_neg (by
    rintro (hc | hc)
    · exact absurd rfl (hrest 'e' hc).2.2.1
    · exact absurd rfl (hrest 'E' hc).2.2.2)]
  have hfold := natDigits_foldl (m + 1) m (by omega) 0
  rw [zero_mul, zero_add] at hfold
  rw [hfold]

theorem jsonParseNum_intToString (n : Int) (rest : List Char)
    (hrest : ∀ c, rest.head? = some c →
      c.isDigit = false ∧ c ≠ '.' ∧ c ≠ 'e' ∧ c ≠ 'E') :
    jsonParseNum ((Json.intToString n).data ++ rest) = .ok (Json.num n, rest) := by
  by_cases hn : n < 0
  · unfold Json.intToString
    rw [if_pos hn]
    have hsplit : (("-" ++ Json.natToString n.natAbs).data ++ rest) =
        '-' :: (Json.natDigits (n.natAbs + 1) n.natAbs ++ rest) := rfl
    rw [hsplit]
    unfold jsonParseNum
    rw [if_pos (by rw [List.head?_cons])]
    rw [List.tail_cons, jsonParseNumCore_digits _ _ _ hrest, if_pos rfl]
    have : -((n.natAbs : Nat) : Int) = n := by omega
    rw [this]
  · unfold Json.intToString
    rw [if_neg hn]
    have hsplit : ((Json.natToString n.natAbs).data ++ rest) =
        Json.natDigits (n.natAbs + 1) n.natAbs ++ rest := rfl
    rw [hsplit]
    unfold jsonParseNum
    rw [if_neg (by
      intro hc
      obtain ⟨a, as, ha⟩ := List.exists_cons_of_ne_nil
        (natDigits_ne_nil (n.natAbs + 1) n.natAbs (by omega))
      rw [ha, List.cons_append, List.head?_cons, Option.some_inj] at hc
      have hd := natDigits_all_digit (n.natAbs + 1) n.natAbs (by omega) a
        (by rw [ha]; exact List.mem_cons_self _ _)
      rw [hc] at hd
      exact absurd hd (by decide))]
    rw [jsonParseNumCore_digits _ _ _ hrest, if_neg (by simp)]
    have : ((n.natAbs : Nat) : Int) = n := by omega
    rw [this]

/-- The characters a C1-clean string may contain: no double quote,
backslash, single quote, backtick, question mark or control character.
Everything else — letters, digits, spaces, punctuation — is allowed. -/
def c1CleanChar (c : Char) : Bool :=
  !(c = chDQuote || c = chBackslash || c = chSQuote || c = chBacktick ||
    c = '?' || decide (c.toNat < 32))

/-- A C1-clean body field key: clean characters, dot-free (a flat body),
and not an internal `__` key. -/
def c1CleanKey (k : String) : Bool :=
  k.data.all c1CleanChar && !k.data.contains '.' && !strStartsWith k "__"

/-- A C1-clean body field value: a non-empty clean string, or an
integer. -/
def c1CleanValue : Json → Bool
  | .str s => !s.data.isEmpty && s.data.all c1CleanChar
  | .num _ => true
  | _ => false

def c1CleanEntry (e : String × Json) : Bool := c1CleanKey e.1 && c1CleanValue e.2

theorem jsonQuoteChar_clean (c : Char) (h : c1CleanChar c = true) : jsonQuoteChar c = [c] := by
  simp only [c1CleanChar, Bool.not_eq_true', Bool.or_eq_false_iff, decide_eq_false_iff_not] at h
  obtain ⟨⟨⟨⟨⟨hdq, hbs⟩, _⟩, _⟩, _⟩, hctl⟩ := h
  unfold jsonQuoteChar
  rw [if_neg hdq, if_neg hbs]
  rw [if_neg (by intro hc; rw [hc] at hctl; exact hctl (by decide))]
  rw [if_neg (by intro hc; rw [hc] at hctl; exact hctl (by decide))]
  rw [if_neg (by intro hc; rw [hc] at hctl; exact hctl (by decide))]
  rw [if_neg (by intro hc; rw [hc] at hctl; exact hctl (by decide))]
  rw [if_neg (by intro hc; rw [hc] at hctl; exact hctl (by decide))]
  rw [if_neg (by simpa using hctl)]

theorem foldr_quoteChar_clean (l : List Char) (h : l.all c1CleanChar = true) :
    l.foldr (fun c acc => jsonQuoteChar c ++ acc) [chDQuote] = l ++ [chDQuote] := by
  induction l with
  | nil => rfl
  | cons c l ih =>
    simp only [List.all_cons, Bool.and_eq_true] at h
    rw [List.foldr_cons, jsonQuoteChar_clean c h.1, ih h.2]
    rfl

theorem jsonQuote_clean (s : String) (h : s.data.all c1CleanChar = true) :
    (jsonQuote s).data = chDQuote :: (s.data ++ [chDQuote]) := by
  obtain ⟨l⟩ := s
  show chDQuote :: l.foldr (fun c acc => jsonQuoteChar c ++ acc) [chDQuote] =
    chDQuote :: (l ++ [chDQuote])
  rw [foldr_quoteChar_clean l h]

theorem jsonParseStr_clean (l : List Char) (rest : List Char)
    (h : ∀ c ∈ l, c1CleanChar c = true) :
    jsonParseStr (l ++ chDQuote :: rest) = some (⟨l⟩, rest) := by
  induction l with
  | nil =>
    rw [List.nil_append]
    unfold jsonParseStr
    rw [if_pos rfl]
  | cons c l ih =>
    have hc := h c (List.mem_cons_self _ _)
    simp only [c1CleanChar, Bool.not_eq_true', Bool.or_eq_false_iff,
      decide_eq_false_iff_not] at hc
    obtain ⟨⟨⟨⟨⟨hdq, hbs⟩, _⟩, _⟩, _⟩, hctl⟩ := hc
    rw [List.cons_append]
    unfold jsonParseStr
    rw [if_neg hdq, if_neg hbs, if_neg hctl]
    rw [ih (fun c hcm => h c (List.mem_cons.mpr (Or.inr hcm)))]

/-- The character rendering of a clean body value in the compact
`JSON.stringify` output. -/
def renderValue : Json → List Char
  | .str s => chDQuote :: (s.data ++ [chDQuote])
  | .num n => (Json.intToString n).data
  | _ => []

/-- The character rendering of one body entry. -/
def renderEntry (e : String × Json) : List Char :=
  chDQuote :: (e.1.data ++ (chDQuote :: ':' :: renderValue e.2))

/-- The renderings of the second and later entries, each preceded by a
comma. -/
def renderTail : List (String × Json) → List Char
  | [] => []
  | e :: es => ',' :: (renderEntry e ++ renderTail es)

/-- The comma-separated renderings of all entries. -/
def renderEntries : List (String × Json) → List Char
  | [] => []
  | e :: es => renderEntry e ++ renderTail es

theorem jsonStringify_clean_some (v : Json) (h : c1CleanValue v = true) :
    ∃ sv, jsonStringify v = some sv ∧ sv.data = renderValue v := by
  cases v with
  | str s =>
    refine ⟨jsonQuote s, rfl, ?_⟩
    simp only [c1CleanValue, Bool.and_eq_true] at h
    exact jsonQuote_clean s h.2
  | num n => exact ⟨Json.intToString n, rfl, rfl⟩
  | null => exact absurd h (by decide)
  | undef => exact absurd h (by decide)
  | bool b => simp [c1CleanValue] at h
  | arr xs => simp [c1CleanValue] at h
  | obj es => simp [c1CleanValue] at h

theorem entryStr_clean (e : String × Json) (h : c1CleanEntry e = true) :
    ∃ sv, jsonStringify e.2 = some sv ∧
      (jsonQuote e.1 ++ ":" ++ sv).data = renderEntry e := by
  simp only [c1CleanEntry, Bool.and_eq_true] at h
  obtain ⟨sv, hsv, hdata⟩ := jsonStringify_clean_some e.2 h.2
  refine ⟨sv, hsv, ?_⟩
  rw [strData_append, strData_append, hdata]
  have hkey : e.1.data.all c1CleanChar = true := by
    have := h.1
    simp only [c1CleanKey, Bool.and_eq_true] at this
    exact this.1.1
  rw [jsonQuote_clean e.1 hkey]
  simp [renderEntry, List.append_assoc]

theorem jsonStringifyEntries_cons (k : String) (v : Json) (sv : String)
    (es : List (String × Json)) (hsv : jsonStringify v = some sv) :
    jsonStringifyEntries ((k, v) :: es) =
      (jsonQuote k ++ ":" ++ sv) :: jsonStringifyEntries es := by
  simp only [jsonStringifyEntries]
  rw [hsv]

theorem joinTail_entries_clean (es : List (String × Json))
    (h : ∀ e ∈ es, c1CleanEntry e = true) :
    (joinTail "," (jsonStringifyEntries es)).data = renderTail es := by
  induction es with
  | nil => rfl
  | cons e es ih =>
    obtain ⟨k, v⟩ := e
    obtain ⟨sv, hsv, hdata⟩ := entryStr_clean (k, v) (h _ (List.mem_cons_self _ _))
    rw [jsonStringifyEntries_cons k v sv es hsv]
    show ("," ++ (jsonQuote k ++ ":" ++ sv) ++
      joinTail "," (jsonStringifyEntries es)).data = renderTail ((k, v) :: es)
    rw [strData_append, strData_append, hdata,
      ih (fun x hx => h x (List.mem_cons.mpr (Or.inr hx)))]
    rfl

theorem joinSep_entries_clean (fv : List (String × Json))
    (h : ∀ e ∈ fv, c1CleanEntry e = true) :
    (joinSep "," (jsonStringifyEntries fv)).data = renderEntries fv := by
  cases fv with
  | nil => rfl
  | cons e es =>
    obtain ⟨k, v⟩ := e
    obtain ⟨sv, hsv, hdata⟩ := entryStr_clean (k, v) (h _ (List.mem_cons_self _ _))
    rw [jsonStringifyEntries_cons k v sv es hsv]
    rw [joinSep_cons, strData_append, hdata,
      joinTail_entries_clean es (fun x hx => h x (List.mem_cons.mpr (Or.inr hx)))]
    rfl

theorem jsonStringify_obj_clean (fv : List (String × Json))
    (h : ∀ e ∈ fv, c1CleanEntry e = true) :
    ∃ s, jsonStringify (Json.obj fv) = some s ∧
      s.data = chLBrace :: (renderEntries fv ++ [chRBrace]) := by
  refine ⟨_, rfl, ?_⟩
  rw [strData_append, strData_append, joinSep_entries_clean fv h]
  rfl

theorem dropWhile_jsonWs_cons (c : Char) (l : List Char) (h : isJsonWs c = false) :
    (c :: l).dropWhile isJsonWs = c :: l := by
  rw [List.dropWhile_cons, h]
  simp

theorem jsonParseVal_clean_value (v : Json) (hv : c1CleanValue v = true) (f : Nat)
    (rest : List Char)
    (hrest : rest.head? = some ',' ∨ rest.head? = some chRBrace) :
    jsonParseVal (f + 1) (renderValue v ++ rest) = .ok (v, rest) := by
  have hrestc : ∀ c, rest.head? = some c →
      c.isDigit = false ∧ c ≠ '.' ∧ c ≠ 'e' ∧ c ≠ 'E' := by
    intro c hc
    rcases hrest with h | h <;>
      (rw [h, Option.some_inj] at hc
       subst hc
       exact ⟨by decide, by decide, by decide, by decide⟩)
  cases v with
  | str s =>
    obtain ⟨l⟩ := s
    have hall : ∀ c ∈ l, c1CleanChar c = true := by
      simp only [c1CleanValue, Bool.and_eq_true] at hv
      exact fun c hc => List.all_eq_true.mp hv.2 c hc
    show jsonParseVal (f + 1) ((chDQuote :: (l ++ [chDQuote])) ++ rest) = _
    rw [List.cons_append, List.append_assoc, List.singleton_append]
    simp only [jsonParseVal]
    rw [dropWhile_jsonWs_cons _ _ (by decide)]
    dsimp only
    rw [if_neg (by decide), if_neg (by decide), if_pos rfl,
      jsonParseStr_clean l rest hall]
  | num n =>
    show jsonParseVal (f + 1) ((Json.intToString n).data ++ rest) = _
    have hsplit : ∃ c t, (Json.intToString n).data = c :: t ∧
        (c = '-' ∨ c.isDigit = true) := by
      by_cases hn : n < 0
      · refine ⟨'-', (Json.natToString n.natAbs).data, ?_, Or.inl rfl⟩
        unfold Json.intToString
        rw [if_pos hn]
        rfl
      · obtain ⟨a, as, ha⟩ := List.exists_cons_of_ne_nil
          (natDigits_ne_nil (n.natAbs + 1) n.natAbs (by omega))
        refine ⟨a, as, ?_, Or.inr ?_⟩
        · unfold Json.intToString
          rw [if_neg hn]
          exact ha
        · exact natDigits_all_digit (n.natAbs + 1) n.natAbs (by omega) a
            (by rw [ha]; exact List.mem_cons_self _ _)
    obtain ⟨c, t, hct, hc⟩ := hsplit
    rw [hct, List.cons_append]
    simp only [jsonParseVal]
    have hcne : isJsonWs c = false ∧ c ≠ chLBrace ∧ c ≠ '[' ∧ c ≠ chDQuote ∧
        c ≠ 't' ∧ c ≠ 'f' ∧ c ≠ 'n' ∧ (c = '-' ∨ c.isDigit = true) := by
      rcases hc with hc | hc
      · subst hc
        exact ⟨by decide, by decide, by decide, by decide, by decide, by decide,
          by decide, Or.inl rfl⟩
      · obtain ⟨_, _, _, _, _, _, hdq, hlb, hlbr, ht, hf, hn2, hws, _⟩ :=
          isDigit_ne_chars c hc
        exact ⟨hws, hlb, hlbr, hdq, ht, hf, hn2, Or.inr hc⟩
    rw [dropWhile_jsonWs_cons _ _ hcne.1]
    dsimp only
    rw [if_neg hcne.2.1, if_neg hcne.2.2.1, if_neg hcne.2.2.2.1,
      if_neg hcne.2.2.2.2.1, if_neg hcne.2.2.2.2.2.1, if_neg hcne.2.2.2.2.2.2.1]
    rw [if_pos (by
      rcases hcne.2.2.2.2.2.2.2 with h | h
      · simp [h]
      · simp [h])]
    rw [← List.cons_append, ← hct, jsonParseNum_intToString n rest hrestc]
  | null => exact absurd hv (by decide)
  | undef => exact absurd hv (by decide)
  | bool b => simp [c1CleanValue] at hv
  | arr xs => simp [c1CleanValue] at hv
  | obj es => simp [c1CleanValue] at hv

theorem jsonParseMembers_clean (fv : List (String × Json)) :
    ∀ (f : Nat) (acc : List (String × Json)) (rest : List Char),
    (∀ e ∈ fv, c1CleanEntry e = true) → fv ≠ [] → fv.length < f + 1 →
    jsonParseMembers (f + 1) (renderEntries fv ++ chRBrace :: rest) acc =
      .ok (Json.obj (acc ++ fv), rest) := by
  induction fv with
  | nil => intro f acc rest _ hne _; exact absurd rfl hne
  | cons e es ih =>
    intro f acc rest hclean _ hlen
    obtain ⟨k, v⟩ := e
    obtain ⟨kl⟩ := k
    have he := hclean _ (List.mem_cons_self _ _)
    simp only [c1CleanEntry, Bool.and_eq_true] at he
    have hkall : ∀ c ∈ kl, c1CleanChar c = true := by
      have := he.1
      simp only [c1CleanKey, Bool.and_eq_true] at this
      exact fun c hc => List.all_eq_true.mp this.1.1 c hc
    have hf : ∃ f2, f = f2 + 1 := by
      cases f with
      | zero => simp at hlen
      | succ f2 => exact ⟨f2, rfl⟩
    obtain ⟨f2, rfl⟩ := hf
    have hT : (renderTail es ++ chRBrace :: rest).head? = some ',' ∨
        (renderTail es ++ chRBrace :: rest).head? = some chRBrace := by
      cases es with
      | nil => exact Or.inr rfl
      | cons e2 es2 => exact Or.inl rfl
    simp only [renderEntries, renderEntry, List.cons_append, List.append_assoc]
    simp only [jsonParseMembers, if_true]
    rw [jsonParseStr_clean kl _ hkall]
    show (match jsonParseVal (f2 + 1)
        (renderValue v ++ (renderTail es ++ chRBrace :: rest)) with
      | Except.ok (v, rest4) =>
        (match rest4.dropWhile isJsonWs with
          | ',' :: rest5 =>
            jsonParseMembers (f2 + 1) (rest5.dropWhile isJsonWs)
              (acc ++ [(String.mk kl, v)])
          | c2 :: rest5 =>
            if c2 = chRBrace then
              Except.ok (Json.obj (acc ++ [(String.mk kl, v)]), rest5)
            else Except.error "expected comma or close"
          | [] => Except.error "unexpected end")
      | Except.error e => Except.error e) =
      Except.ok (Json.obj (acc ++ (String.mk kl, v) :: es), rest)
    rw [jsonParseVal_clean_value v he.2 f2 _ hT]
    cases es with
    | nil => rfl
    | cons e2 es2 =>
      show jsonParseMembers (f2 + 1)
          ((renderEntries (e2 :: es2) ++ chRBrace :: rest).dropWhile isJsonWs)
          (acc ++ [(String.mk kl, v)]) =
        Except.ok (Json.obj (acc ++ (String.mk kl, v) :: (e2 :: es2)), rest)
      have hdw : (renderEntries (e2 :: es2) ++ chRBrace :: rest).dropWhile isJsonWs =
          renderEntries (e2 :: es2) ++ chRBrace :: rest := by
        simp only [renderEntries, renderEntry, List.cons_append, List.append_assoc]
        exact dropWhile_jsonWs_cons _ _ (by decide)
      rw [hdw]
      rw [ih f2 (acc ++ [(String.mk kl, v)]) rest
        (fun x hx => hclean x (List.mem_cons.mpr (Or.inr hx)))
        (by simp) (by simp at hlen ⊢; omega)]
      simp

theorem length_renderTail_ge (es : List (String × Json)) :
    es.length ≤ (renderTail es).length := by
  induction es with
  | nil => simp [renderTail]
  | cons e es ih =>
    simp only [renderTail, List.length_cons, List.length_append]
    omega

theorem length_renderEntries_ge (fv : List (String × Json)) :
    fv.length ≤ (renderEntries fv).length := by
  cases fv with
  | nil => simp [renderEntries]
  | cons e es =>
    have := length_renderTail_ge es
    simp only [renderEntries, renderEntry, List.length_cons, List.length_append]
    omega

theorem renderEntries_head (fv : List (String × Json)) (h : fv ≠ []) :
    ∃ t, renderEntries fv = chDQuote :: t := by
  cases fv with
  | nil => exact absurd rfl h
  | cons e es => exact ⟨(e.1.data ++ (chDQuote :: ':' :: renderValue e.2)) ++ renderTail es,
      by simp [renderEntries, renderEntry]⟩

theorem jsonParse_render (fv : List (String × Json))
    (hclean : ∀ e ∈ fv, c1CleanEntry e = true) (hfv : fv ≠ []) :
    jsonParse ⟨chLBrace :: (renderEntries fv ++ [chRBrace])⟩ = .ok (Json.obj fv) := by
  obtain ⟨t, ht⟩ := renderEntries_head fv hfv
  have hval : ∀ F : Nat, fv.length ≤ F →
      jsonParseVal (F + 1 + 1) (chLBrace :: (renderEntries fv ++ [chRBrace])) =
        .ok (Json.obj fv, []) := by
    intro F hF
    rw [show chLBrace :: (renderEntries fv ++ [chRBrace]) =
      chLBrace :: chDQuote :: (t ++ [chRBrace]) from by rw [ht]; rfl]
    show jsonParseMembers (F + 1) (chDQuote :: (t ++ [chRBrace])) [] =
      .ok (Json.obj fv, [])
    rw [show chDQuote :: (t ++ [chRBrace]) = renderEntries fv ++ chRBrace :: [] from by
      rw [ht]; rfl]
    rw [jsonParseMembers_clean fv F [] [] hclean hfv (by omega)]
    simp
  unfold jsonParse
  show (match jsonParseVal ((renderEntries fv ++ [chRBrace]).length + 1 + 1)
      (chLBrace :: (renderEntries fv ++ [chRBrace])) with
    | Except.ok (v, rest) =>
        if (rest.dropWhile isJsonWs).isEmpty then Except.ok v
        else Except.error "trailing"
    | Except.error e => Except.error e) = Except.ok (Json.obj fv)
  rw [hval ((renderEntries fv ++ [chRBrace]).length)
    (le_trans (length_renderEntries_ge fv) (by simp))]
  rfl

theorem findDFlag_cons (c : Char) (rest : List Char)
    (h : headDFlagB (c :: rest) = false) : findDFlag (c :: rest) = findDFlag rest := by
  cases rest with
  | nil => rfl
  | cons d rest2 =>
    cases rest2 with
    | nil => rfl
    | cons w tail =>
      simp only [headDFlagB] at h
      simp only [findDFlag, h, Bool.false_eq_true, if_false]

theorem findDFlag_append (P : List Char) (r : List Char)
    (hP : containsDFlag P = false) :
    findDFlag (P ++ '-' :: 'd' :: r) = findDFlag ('-' :: 'd' :: r) := by
  induction P with
  | nil => rfl
  | cons c P ih =>
    simp only [containsDFlag, Bool.or_eq_false_iff] at hP
    rw [List.cons_append, findDFlag_cons, ih hP.2]
    cases P with
    | nil => simp [headDFlagB]
    | cons d P2 =>
      cases P2 with
      | nil => simp [headDFlagB, isWsRe]
      | cons w P3 =>
        have h1 := hP.1
        simp only [headDFlagB] at h1 ⊢
        exact h1

theorem findDFlag_at (b : List Char) (hb : b.head? = some chSQuote) :
    findDFlag ('-' :: 'd' :: ' ' :: b) = some b := by
  obtain ⟨c, b', rfl⟩ : ∃ c b', b = c :: b' := by
    cases b with
    | nil => exact absurd hb (by simp)
    | cons c b' => exact ⟨c, b', rfl⟩
  rw [List.head?_cons, Option.some_inj] at hb
  subst hb
  have hdw : (' ' :: chSQuote :: b').dropWhile isWsRe = chSQuote :: b' := by
    rw [List.dropWhile_cons, if_pos (by decide), List.dropWhile_cons, if_neg (by decide)]
  simp only [findDFlag]
  rw [if_pos (by decide)]
  rw [hdw]
  simp

theorem jsTrim_qbody (body : List Char) :
    (jsTrim ⟨chSQuote :: (body ++ [chSQuote, ' ', chBackslash, '\n'])⟩).data =
      chSQuote :: (body ++ [chSQuote, ' ', chBackslash]) := by
  show (((chSQuote :: (body ++ [chSQuote, ' ', chBackslash, '\n'])).dropWhile
    isJsWs).reverse.dropWhile isJsWs).reverse = _
  rw [List.dropWhile_cons]
  simp only [show isJsWs chSQuote = false from by decide, Bool.false_eq_true, if_false]
  rw [show (chSQuote :: (body ++ [chSQuote, ' ', chBackslash, '\n'])).reverse =
    '\n' :: chBackslash :: (' ' :: chSQuote :: body.reverse ++ [chSQuote]) from by simp]
  rw [List.dropWhile_cons]
  simp only [show isJsWs '\n' = true from by decide, if_true]
  rw [List.dropWhile_cons]
  simp only [show isJsWs chBackslash = false from by decide, Bool.false_eq_true, if_false]
  simp [List.append_assoc]

theorem jsTrim_qbody2 (body : List Char) :
    (jsTrim ⟨chSQuote :: (body ++ [chSQuote, ' '])⟩).data =
      chSQuote :: (body ++ [chSQuote]) := by
  show (((chSQuote :: (body ++ [chSQuote, ' '])).dropWhile
    isJsWs).reverse.dropWhile isJsWs).reverse = _
  rw [List.dropWhile_cons]
  simp only [show isJsWs chSQuote = false from by decide, Bool.false_eq_true, if_false]
  rw [show (chSQuote :: (body ++ [chSQuote, ' '])).reverse =
    ' ' :: chSQuote :: (body.reverse ++ [chSQuote]) from by simp]
  rw [List.dropWhile_cons]
  simp only [show isJsWs ' ' = true from by decide, if_true]
  rw [List.dropWhile_cons]
  simp only [show isJsWs chSQuote = false from by decide, Bool.false_eq_true, if_false]
  simp [List.append_assoc]

theorem stripLineCont_no_bs (l : List Char) : ∀ fuel, (∀ c ∈ l, c ≠ chBackslash) →
    l.length < fuel → stripLineCont fuel (l ++ [chBackslash]) = l := by
  induction l with
  | nil =>
    intro fuel _ hlen
    cases fuel with
    | zero => omega
    | succ f =>
      show stripLineCont (f + 1) [chBackslash] = []
      simp only [stripLineCont, if_pos rfl]
      cases f <;> rfl
  | cons c l ih =>
    intro fuel h hlen
    cases fuel with
    | zero => simp at hlen
    | succ f =>
      rw [List.cons_append]
      simp only [stripLineCont]
      rw [if_neg (h c (List.mem_cons_self _ _))]
      rw [ih f (fun x hx => h x (List.mem_cons.mpr (Or.inr hx))) (by simp at hlen ⊢; omega)]

theorem earliestClose_last (body : List Char) :
    earliestClose (body ++ [chSQuote]) = some body := by
  induction body with
  | nil => decide
  | cons c body ih =>
    rw [List.cons_append]
    simp only [earliestClose]
    rw [show (body ++ [chSQuote]).all isWsRe = false from by
      rw [List.all_append]
      simp [show isWsRe chSQuote = false from by decide]]
    simp only [Bool.and_false, Bool.false_eq_true, if_false, ih]

theorem replacePair_id (a b r : Char) (l : List Char) (h : ∀ c ∈ l, c ≠ a) :
    replacePair a b r l = l := by
  induction l with
  | nil => rfl
  | cons x xs ih =>
    cases xs with
    | nil => rfl
    | cons y ys =>
      have hx := h x (List.mem_cons_self _ _)
      simp only [replacePair]
      rw [if_neg (by simp [hx])]
      rw [ih (fun c hc => h c (List.mem_cons.mpr (Or.inr hc)))]

theorem unescapeChain_id (l : List Char) (h : ∀ c ∈ l, c ≠ chBackslash) :
    unescapeChain l = l := by
  unfold unescapeChain
  rw [replacePair_id _ _ _ _ h, replacePair_id _ _ _ _ h, replacePair_id _ _ _ _ h,
    replacePair_id _ _ _ _ h, replacePair_id _ _ _ _ h]

theorem findQueryStr_none (l : List Char) (h : ∀ c ∈ l, c ≠ '?') :
    findQueryStr l = none := by
  induction l with
  | nil => rfl
  | cons c l ih =>
    simp only [findQueryStr]
    rw [if_neg (h c (List.mem_cons_self _ _))]
    exact ih (fun x hx => h x (List.mem_cons.mpr (Or.inr hx)))

/-- The body characters avoided by the parse pipeline: no backslash (the
escape cleanups are the identity), no question mark (no query match), no
single quote. -/
def bodyCharOk (c : Char) : Bool := c ≠ chBackslash && c ≠ '?' && c ≠ chSQuote

theorem c1CleanChar_bodyOk (c : Char) (h : c1CleanChar c = true) : bodyCharOk c = true := by
  simp only [c1CleanChar, Bool.not_eq_true', Bool.or_eq_false_iff,
    decide_eq_false_iff_not] at h
  simp only [bodyCharOk, Bool.and_eq_true, decide_eq_true_eq]
  exact ⟨⟨h.1.1.1.1.2, h.1.2⟩, h.1.1.1.2⟩

theorem intToString_bodyOk (n : Int) : ∀ c ∈ (Json.intToString n).data, bodyCharOk c = true := by
  intro c hc
  have hdig : c = '-' ∨ c.isDigit = true := by
    unfold Json.intToString at hc
    by_cases hn : n < 0
    · rw [if_pos hn] at hc
      rw [show ("-" ++ Json.natToString n.natAbs).data =
        '-' :: (Json.natDigits (n.natAbs + 1) n.natAbs) from rfl] at hc
      rcases List.mem_cons.mp hc with hc | hc
      · exact Or.inl hc
      · exact Or.inr (natDigits_all_digit _ _ (by omega) c hc)
    · rw [if_neg hn] at hc
      exact Or.inr (natDigits_all_digit _ _ (by omega) c hc)
  rcases hdig with hc2 | hc2
  · subst hc2; decide
  · obtain ⟨_, _, _, _, hq, hbs, _, _, _, _, _, _, _, hsq⟩ := isDigit_ne_chars c hc2
    simp only [bodyCharOk, Bool.and_eq_true, decide_eq_true_eq]
    exact ⟨⟨hbs, hq⟩, hsq⟩

theorem renderValue_bodyOk (v : Json) (hv : c1CleanValue v = true) :
    ∀ c ∈ renderValue v, bodyCharOk c = true := by
  cases v with
  | str s =>
    intro c hc
    simp only [renderValue] at hc
    rcases List.mem_cons.mp hc with hc | hc
    · subst hc; decide
    · rcases List.mem_append.mp hc with hc | hc
      · simp only [c1CleanValue, Bool.and_eq_true] at hv
        exact c1CleanChar_bodyOk c (List.all_eq_true.mp hv.2 c hc)
      · rw [List.mem_singleton.mp hc]; decide
  | num n => exact intToString_bodyOk n
  | null => exact absurd hv (by decide)
  | undef => exact absurd hv (by decide)
  | bool b => simp [c1CleanValue] at hv
  | arr xs => simp [c1CleanValue] at hv
  | obj es => simp [c1CleanValue] at hv

theorem renderEntry_bodyOk (e : String × Json) (he : c1CleanEntry e = true) :
    ∀ c ∈ renderEntry e, bodyCharOk c = true := by
  intro c hc
  simp only [c1CleanEntry, Bool.and_eq_true] at he
  simp only [renderEntry] at hc
  rcases List.mem_cons.mp hc with hc | hc
  · subst hc; decide
  · rcases List.mem_append.mp hc with hc | hc
    · have : e.1.data.all c1CleanChar = true := by
        have := he.1
        simp only [c1CleanKey, Bool.and_eq_true] at this
        exact this.1.1
      exact c1CleanChar_bodyOk c (List.all_eq_true.mp this c hc)
    · rcases List.mem_cons.mp hc with hc | hc
      · subst hc; decide
      · rcases List.mem_cons.mp hc with hc | hc
        · subst hc; decide
        · exact renderValue_bodyOk e.2 he.2 c hc

theorem renderEntries_bodyOk (fv : List (String × Json))
    (h : ∀ e ∈ fv, c1CleanEntry e = true) :
    ∀ c ∈ renderEntries fv, bodyCharOk c = true := by
  have htail : ∀ (es : List (String × Json)), (∀ e ∈ es, c1CleanEntry e = true) →
      ∀ c ∈ renderTail es, bodyCharOk c = true := by
    intro es
    induction es with
    | nil => intro _ c hc; simp [renderTail] at hc
    | cons e es ih =>
      intro hes c hc
      simp only [renderTail] at hc
      rcases List.mem_cons.mp hc with hc | hc
      · subst hc; decide
      · rcases List.mem_append.mp hc with hc | hc
        · exact renderEntry_bodyOk e (hes e (List.mem_cons_self _ _)) c hc
        · exact ih (fun x hx => hes x (List.mem_cons.mpr (Or.inr hx))) c hc
  intro c hc
  cases fv with
  | nil => simp [renderEntries] at hc
  | cons e es =>
    simp only [renderEntries] at hc
    rcases List.mem_append.mp hc with hc | hc
    · exact renderEntry_bodyOk e (h e (List.mem_cons_self _ _)) c hc
    · exact htail es (fun x hx => h x (List.mem_cons.mpr (Or.inr hx))) c hc

theorem bodyChars_ok (fv : List (String × Json)) (h : ∀ e ∈ fv, c1CleanEntry e = true) :
    ∀ c ∈ chLBrace :: (renderEntries fv ++ [chRBrace]), bodyCharOk c = true := by
  intro c hc
  rcases List.mem_cons.mp hc with hc | hc
  · subst hc; decide
  · rcases List.mem_append.mp hc with hc | hc
    · exact renderEntries_bodyOk fv h c hc
    · rw [List.mem_singleton.mp hc]; decide

theorem setKey_not_mem (es : List (String × Json)) (k : String) (v : Json)
    (h : ∀ e ∈ es, e.1 ≠ k) : Json.setKey es k v = es ++ [(k, v)] := by
  induction es with
  | nil => rfl
  | cons e es ih =>
    simp only [Json.setKey]
    rw [if_neg (h e (List.mem_cons_self _ _))]
    rw [ih (fun x hx => h x (List.mem_cons.mpr (Or.inr hx)))]
    rfl

theorem formBodyStep_clean (body : List (String × Json)) (e : String × Json)
    (he : c1CleanEntry e = true) : formBodyStep body e = Json.setKey body e.1 e.2 := by
  simp only [c1CleanEntry, Bool.and_eq_true] at he
  have hss : strStartsWith e.1 "__" = false := by
    have := he.1
    simp only [c1CleanKey, Bool.and_eq_true, Bool.not_eq_true'] at this
    exact this.2
  dsimp only [formBodyStep]
  rw [hss]
  simp only [Bool.false_eq_true, if_false]
  cases hv : e.2 with
  | str s =>
    have hsne : s ≠ "" := by
      rw [hv] at he
      simp only [c1CleanValue, Bool.and_eq_true, Bool.not_eq_true'] at he
      intro hcon
      subst hcon
      exact absurd he.2.1 (by decide)
    rw [show ((Json.str s == Json.undef) || (Json.str s == Json.null) ||
        (Json.str s == Json.str "")) = false from by
      simp only [Bool.or_eq_false_iff]
      refine ⟨⟨rfl, rfl⟩, ?_⟩
      exact beq_eq_false_iff_ne.mpr (by simp [hsne])]
    simp only [Bool.false_eq_true, if_false]
    rfl
  | num n => rfl
  | null =>
    rw [hv] at he
    exact absurd he.2 (by decide)
  | undef =>
    rw [hv] at he
    exact absurd he.2 (by decide)
  | bool b =>
    rw [hv] at he
    simp [c1CleanValue] at he
  | arr xs =>
    rw [hv] at he
    simp [c1CleanValue] at he
  | obj es2 =>
    rw [hv] at he
    simp [c1CleanValue] at he

theorem foldl_formBodyStep_clean (fv : List (String × Json)) :
    ∀ acc, (∀ e ∈ fv, c1CleanEntry e = true) → (fv.map Prod.fst).Nodup →
    (∀ e ∈ fv, ∀ a ∈ acc, a.1 ≠ e.1) →
    fv.foldl formBodyStep acc = acc ++ fv := by
  induction fv with
  | nil => intro acc _ _ _; simp
  | cons e es ih =>
    intro acc hclean hnd hdisj
    rw [List.foldl_cons, formBodyStep_clean acc e (hclean e (List.mem_cons_self _ _))]
    rw [setKey_not_mem acc e.1 e.2 (fun a ha => hdisj e (List.mem_cons_self _ _) a ha)]
    rw [List.map_cons] at hnd
    have hnd2 := List.nodup_cons.mp hnd
    rw [ih (acc ++ [(e.1, e.2)])
      (fun x hx => hclean x (List.mem_cons.mpr (Or.inr hx)))
      hnd2.2
      (fun x hx a ha => by
        rcases List.mem_append.mp ha with ha | ha
        · exact hdisj x (List.mem_cons.mpr (Or.inr hx)) a ha
        · rw [List.mem_singleton.mp ha]
          intro hcon
          exact hnd2.1 (hcon ▸ List.mem_map.mpr ⟨x, hx, rfl⟩))]
    simp

theorem buildBodyFromForm_clean (fv : List (String × Json))
    (hclean : ∀ e ∈ fv, c1CleanEntry e = true) (hnd : (fv.map Prod.fst).Nodup) :
    buildBodyFromForm fv = fv := by
  unfold buildBodyFromForm
  rw [foldl_formBodyStep_clean fv [] hclean hnd (fun _ _ _ ha => by simp at ha)]
  rfl

theorem cleanEntries_clean (fv : List (String × Json))
    (hclean : ∀ e ∈ fv, c1CleanEntry e = true) : cleanEntries fv = fv := by
  induction fv with
  | nil => rfl
  | cons e es ih =>
    obtain ⟨k, v⟩ := e
    have he := hclean _ (List.mem_cons_self _ _)
    simp only [c1CleanEntry, Bool.and_eq_true] at he
    have hval : cleanEmptyArrays v = v ∧ (v != Json.undef) = true := by
      cases v with
      | str s => exact ⟨rfl, rfl⟩
      | num n => exact ⟨rfl, rfl⟩
      | null => exact absurd he.2 (by decide)
      | undef => exact absurd he.2 (by decide)
      | bool b => simp [c1CleanValue] at he
      | arr xs => simp [c1CleanValue] at he
      | obj es2 => simp [c1CleanValue] at he
    simp only [cleanEntries]
    rw [hval.1]
    simp only [hval.2, if_true]
    rw [ih (fun x hx => hclean x (List.mem_cons.mpr (Or.inr hx)))]

theorem buildRequestBody_clean (jc : Json) (fv : List (String × Json))
    (hjc : jc.truthy = true) (hfv : fv ≠ [])
    (hclean : ∀ e ∈ fv, c1CleanEntry e = true) (hnd : (fv.map Prod.fst).Nodup) :
    buildRequestBody (some [("application/json", jc)]) (some fv) = Json.obj fv := by
  have hlen : fv.length > 0 := List.length_pos.mpr hfv
  have hbf := buildBodyFromForm_clean fv hclean hnd
  unfold buildRequestBody
  dsimp only
  rw [show lookupJ [("application/json", jc)]
    (match ([("application/json", jc)] : List (String × Json)).head? with
     | some e => if e.1 ≠ "" then e.1 else "application/json"
     | none => "application/json") = jc from by
      simp [lookupJ, List.find?]]
  rw [hjc]
  simp only [Bool.not_true, Bool.false_eq_true, if_false]
  have hraw : rawRequestBody jc (some fv) = Json.obj fv := by
    unfold rawRequestBody
    dsimp only
    simp only [hlen, if_true, hbf]
    rw [if_neg (by
      intro hcon
      simp only [Json.truthy_obj, Bool.not_true, Bool.false_or,
        decide_eq_true_eq] at hcon
      rw [show jsKeysLength (Json.obj fv) = fv.length from rfl] at hcon
      omega)]
  rw [hraw]
  unfold finalizeBody
  rw [if_pos (show (Json.obj fv).truthy = true from rfl)]
  dsimp only
  rw [show cleanEmptyArrays (Json.obj fv) =
    (if (cleanEntries fv).length > 0 then Json.obj (cleanEntries fv) else Json.undef)
    from rfl]
  rw [cleanEntries_clean fv hclean, if_pos (show fv.length > 0 from by omega),
    if_pos (show ((Json.obj fv).truthy && (Json.obj fv).typeofObject &&
      !(Json.obj fv).isArr) = true from rfl)]

theorem foldl_setKey_clean (fv : List (String × Json)) :
    ∀ acc, (fv.map Prod.fst).Nodup →
    (∀ e ∈ fv, ∀ a ∈ acc, a.1 ≠ e.1) →
    fv.foldl (fun acc e => Json.setKey acc e.1 e.2) acc = acc ++ fv := by
  induction fv with
  | nil => intro acc _ _; simp
  | cons e es ih =>
    intro acc hnd hdisj
    rw [List.foldl_cons,
      setKey_not_mem acc e.1 e.2 (fun a ha => hdisj e (List.mem_cons_self _ _) a ha)]
    rw [List.map_cons] at hnd
    have hnd2 := List.nodup_cons.mp hnd
    rw [ih (acc ++ [(e.1, e.2)]) hnd2.2
      (fun x hx a ha => by
        rcases List.mem_append.mp ha with ha | ha
        · exact hdisj x (List.mem_cons.mpr (Or.inr hx)) a ha
        · rw [List.mem_singleton.mp ha]
          intro hcon
          exact hnd2.1 (hcon ▸ List.mem_map.mpr ⟨x, hx, rfl⟩))]
    simp

/-- The text of the generated cURL sample that precedes the `-d` body
flag, for a parameter-free unauthenticated JSON operation. -/
def c1CurlPrefix (m url : String) : List Char :=
  (("curl -X " ++ strToUpper m ++ " \\\n") ++ ("  " ++ sqS ++ url) ++ (sqS ++ " \\\n") ++
   ("  -H " ++ sqS ++ "Content-Type: " ++ "application/json" ++ sqS ++ " \\\n") ++
   "  ").data

theorem generateCurlCode_c1_data (method2 path baseUrl : String)
    (fv : List (String × Json)) (hfv : fv ≠ [])
    (hclean : ∀ e ∈ fv, c1CleanEntry e = true) :
    (generateCurlCode method2 path baseUrl [] (Json.obj fv) false none
      Json.null "YOUR_API_KEY" "application/json").data =
    c1CurlPrefix method2 (baseUrl ++ path) ++ '-' :: 'd' :: ' ' ::
      (chSQuote :: ((chLBrace :: (renderEntries fv ++ [chRBrace])) ++
        [chSQuote, ' ', chBackslash, '\n'])) := by
  obtain ⟨bs, hbs, hbsdata⟩ := jsonStringify_obj_clean fv hclean
  have hB : ((Json.obj fv).truthy && decide (jsKeysLength (Json.obj fv) > 0)) = true := by
    simp only [Json.truthy_obj, Bool.true_and, decide_eq_true_eq]
    rw [show jsKeysLength (Json.obj fv) = fv.length from rfl]
    exact List.length_pos.mpr hfv
  dsimp only [generateCurlCode]
  rw [show (decide (([] : List (String × Json)).length > 0) &&
    decide ((buildQueryParts []).length > 0)) = false from by decide]
  rw [hB]
  simp only [Bool.false_eq_true, if_false, Bool.not_true, if_true, Bool.true_eq_false]
  rw [hbs]
  simp only [Option.getD_some]
  simp only [c1CurlPrefix, strData_append, strAppend_empty, hbsdata,
    List.append_assoc, List.cons_append, List.nil_append]
  rfl

theorem parseCurl_generated (method2 path baseUrl : String) (fv : List (String × Json))
    (hfv : fv ≠ []) (hnd : (fv.map Prod.fst).Nodup)
    (hclean : ∀ e ∈ fv, c1CleanEntry e = true)
    (hpre : containsDFlag (c1CurlPrefix method2 (baseUrl ++ path)) = false)
    (hnoq : ∀ c ∈ c1CurlPrefix method2 (baseUrl ++ path), c ≠ '?') :
    parseCurlExample (generateCurlCode method2 path baseUrl [] (Json.obj fv) false none
      Json.null "YOUR_API_KEY" "application/json") = fv := by
  have hcode := generateCurlCode_c1_data method2 path baseUrl fv hfv hclean
  have hbodyOk := bodyChars_ok fv hclean
  have hnobs : ∀ c ∈ chLBrace :: (renderEntries fv ++ [chRBrace]), c ≠ chBackslash := by
    intro c hc
    have := hbodyOk c hc
    simp only [bodyCharOk, Bool.and_eq_true, decide_eq_true_eq] at this
    exact this.1.1
  have hnoq2 : ∀ c ∈ chLBrace :: (renderEntries fv ++ [chRBrace]), c ≠ '?' := by
    intro c hc
    have := hbodyOk c hc
    simp only [bodyCharOk, Bool.and_eq_true, decide_eq_true_eq] at this
    exact this.1.2
  have hfind : findDFlag (generateCurlCode method2 path baseUrl [] (Json.obj fv) false none
      Json.null "YOUR_API_KEY" "application/json").data =
      some (chSQuote :: ((chLBrace :: (renderEntries fv ++ [chRBrace])) ++
        [chSQuote, ' ', chBackslash, '\n'])) := by
    rw [hcode, findDFlag_append _ _ hpre]
    exact findDFlag_at _ rfl
  have hquery : findQueryStr (generateCurlCode method2 path baseUrl [] (Json.obj fv) false
      none Json.null "YOUR_API_KEY" "application/json").data = none := by
    rw [hcode]
    apply findQueryStr_none
    intro c hc
    rcases List.mem_append.mp hc with hc | hc
    · exact hnoq c hc
    · rcases List.mem_cons.mp hc with hc | hc
      · subst hc; decide
      · rcases List.mem_cons.mp hc with hc | hc
        · subst hc; decide
        · rcases List.mem_cons.mp hc with hc | hc
          · subst hc; decide
          · rcases List.mem_cons.mp hc with hc | hc
            · subst hc; decide
            · rcases List.mem_append.mp hc with hc | hc
              · exact hnoq2 c hc
              · rcases List.mem_cons.mp hc with hc | hc
                · subst hc; decide
                · rcases List.mem_cons.mp hc with hc | hc
                  · subst hc; decide
                  · rcases List.mem_cons.mp hc with hc | hc
                    · subst hc; decide
                    · rw [List.mem_singleton.mp hc]; decide
  have htrim1 := jsTrim_qbody (chLBrace :: (renderEntries fv ++ [chRBrace]))
  have hstrip : stripLineCont
      ((chSQuote :: ((chLBrace :: (renderEntries fv ++ [chRBrace])) ++
        [chSQuote, ' ', chBackslash])).length + 1)
      (chSQuote :: ((chLBrace :: (renderEntries fv ++ [chRBrace])) ++
        [chSQuote, ' ', chBackslash])) =
      chSQuote :: ((chLBrace :: (renderEntries fv ++ [chRBrace])) ++ [chSQuote, ' ']) := by
    rw [show chSQuote :: ((chLBrace :: (renderEntries fv ++ [chRBrace])) ++
        [chSQuote, ' ', chBackslash]) =
      (chSQuote :: ((chLBrace :: (renderEntries fv ++ [chRBrace])) ++ [chSQuote, ' '])) ++
        [chBackslash] from by simp]
    rw [stripLineCont_no_bs _ _ ?hnb ?hlen]
    case hnb =>
      intro c hc
      rcases List.mem_cons.mp hc with hc | hc
      · subst hc; decide
      · rcases List.mem_append.mp hc with hc | hc
        · exact hnobs c hc
        · rcases List.mem_cons.mp hc with hc | hc
          · subst hc; decide
          · rw [List.mem_singleton.mp hc]; decide
    case hlen => simp
  have hqs : quoteStrip (chSQuote :: ((chLBrace :: (renderEntries fv ++ [chRBrace])) ++
      [chSQuote])) = some (chLBrace :: (renderEntries fv ++ [chRBrace])) := by
    simp only [quoteStrip]
    rw [if_pos (by decide)]
    exact earliestClose_last _
  unfold parseCurlExample
  rw [hfind, hquery]
  dsimp only
  rw [htrim1]
  rw [hstrip]
  rw [jsTrim_qbody2 (chLBrace :: (renderEntries fv ++ [chRBrace]))]
  rw [hqs]
  dsimp only
  rw [unescapeChain_id _ hnobs]
  rw [jsonParse_render fv hclean hfv]
  show jsAssign [] (Json.obj fv) = fv
  show fv.foldl (fun acc e => Json.setKey acc e.1 e.2) [] = fv
  rw [foldl_setKey_clean fv [] hnd (fun _ _ _ ha => by simp at ha)]
  rfl

theorem lookupJ_cons_self (e : String × Json) (es : List (String × Json)) (k : String)
    (he : e.1 = k) : lookupJ (e :: es) k = e.2 := by
  simp [lookupJ, List.find?, he]

theorem lookupJ_cons_ne (e : String × Json) (es : List (String × Json)) (k : String)
    (he : e.1 ≠ k) : lookupJ (e :: es) k = lookupJ es k := by
  simp only [lookupJ, List.find?]
  rw [show (decide (e.1 = k)) = false from by simp [he]]

theorem setKey_lookup_self (es : List (String × Json)) (k : String)
    (hk : k ∈ es.map Prod.fst) : Json.setKey es k (lookupJ es k) = es := by
  induction es with
  | nil => simp at hk
  | cons e es ih =>
    by_cases he : e.1 = k
    · rw [lookupJ_cons_self e es k he]
      simp only [Json.setKey, he, if_true]
      rw [show (k, e.2) = e from by rw [← he]]
    · rw [lookupJ_cons_ne e es k he]
      simp only [Json.setKey, he, if_false]
      have hk2 : k ∈ es.map Prod.fst := by
        simp only [List.map_cons, List.mem_cons] at hk
        rcases hk with hk | hk
        · exact absurd hk.symm he
        · exact hk
      rw [ih hk2]

theorem filterPhase_clean (formFields : List (String × String))
    (fv : List (String × Json))
    (hnames : formFields.map Prod.fst = fv.map Prod.fst)
    (hnd : (fv.map Prod.fst).Nodup)
    (hclean : ∀ e ∈ fv, c1CleanEntry e = true) :
    filterPhase formFields fv = fv := by
  have hdotfree : ∀ f ∈ formFields, f.1.data.contains '.' = false := by
    intro f hf
    have hmem : f.1 ∈ fv.map Prod.fst := by
      rw [← hnames]
      exact List.mem_map.mpr ⟨f, hf, rfl⟩
    obtain ⟨e, he, hek⟩ := List.mem_map.mp hmem
    have hce := hclean e he
    simp only [c1CleanEntry, c1CleanKey, Bool.and_eq_true, Bool.not_eq_true'] at hce
    rw [← hek]
    exact hce.1.1.2
  have htop : ((formFields.filter (fun f => !f.1.data.contains '.')).map (fun f => f.1)) =
      fv.map Prod.fst := by
    rw [List.filter_eq_self.mpr (fun f hf => by rw [hdotfree f hf]; rfl)]
    exact hnames
  simp only [filterPhase]
  rw [htop]
  have hfold1 : ∀ (sub : List (String × Json)), (∀ e ∈ sub, e.1 ∈ fv.map Prod.fst) →
      ∀ acc, sub.foldl (fun acc kv =>
        if (fv.map Prod.fst).contains kv.1 then Json.setKey acc kv.1 kv.2
        else
          match formFields.find? (fun f => firstDotSegment f.1 = kv.1) with
          | some _ => Json.setKey acc kv.1 kv.2
          | none => acc) acc =
      sub.foldl (fun acc e => Json.setKey acc e.1 e.2) acc := by
    intro sub
    induction sub with
    | nil => intro _ _; rfl
    | cons e es ih =>
      intro hsub acc
      rw [List.foldl_cons, List.foldl_cons]
      rw [if_pos (List.elem_iff.mpr (hsub e (List.mem_cons_self _ _)))]
      exact ih (fun x hx => hsub x (List.mem_cons.mpr (Or.inr hx))) _
  rw [hfold1 fv (fun e he => List.mem_map.mpr ⟨e, he, rfl⟩) []]
  rw [foldl_setKey_clean fv [] hnd (fun _ _ _ ha => by simp at ha), List.nil_append]
  have hfold2 : ∀ (fs : List (String × String)), (∀ f ∈ fs, f.1 ∈ fv.map Prod.fst) →
      fs.foldl (fun acc f =>
        if lookupJ fv f.1 != Json.undef && !(lookupJ acc f.1).truthy then
          Json.setKey acc f.1 (lookupJ fv f.1)
        else acc) fv = fv := by
    intro fs
    induction fs with
    | nil => intro _; rfl
    | cons f fs ih =>
      intro hfs
      rw [List.foldl_cons]
      have hstep : (if lookupJ fv f.1 != Json.undef && !(lookupJ fv f.1).truthy then
          Json.setKey fv f.1 (lookupJ fv f.1) else fv) = fv := by
        by_cases hc : (lookupJ fv f.1 != Json.undef && !(lookupJ fv f.1).truthy) = true
        · rw [if_pos hc, setKey_lookup_self fv f.1 (hfs f (List.mem_cons_self _ _))]
        · rw [if_neg hc]
      rw [hstep]
      exact ih (fun x hx => hfs x (List.mem_cons.mpr (Or.inr hx)))
  rw [hfold2 formFields (fun f hf => by rw [← hnames]; exact List.mem_map.mpr ⟨f, hf, rfl⟩)]

theorem specBaseUrl_server (u : String) :
    specBaseUrl ⟨some [Json.obj [("url", Json.str u)]], none, none⟩ = u := by
  unfold specBaseUrl
  dsimp only
  rw [show (Json.obj [("url", Json.str u)]).get "url" = Json.str u from by
    simp [Json.get, List.find?]]
  by_cases h : u = ""
  · subst h; rfl
  · rw [Json.jsOr_pos _ (by simp [Json.truthy, h])]
    rfl

theorem parseExampleCode_curl_none (code : String) (formFields : List (String × String)) :
    parseExampleCode "curl" code formFields none =
    filterPhase formFields (parseCurlExample code) := rfl

theorem generateCodeSamples_c1 (method2 path baseUrl : String) (jc : Json)
    (fv : List (String × Json)) (hjc : jc.truthy = true) (hfv : fv ≠ [])
    (hclean : ∀ e ∈ fv, c1CleanEntry e = true) (hnd : (fv.map Prod.fst).Nodup) :
    generateCodeSamples ⟨method2, path, none, some [("application/json", jc)], none⟩
      ⟨some [Json.obj [("url", Json.str baseUrl)]], none, none⟩ none (some fv) =
    [("python", generatePythonCode (strToLower method2) path baseUrl [] (Json.obj fv) false
        none Json.null "YOUR_API_KEY" "application/json"),
     ("javascript", generateJavaScriptCode (strToLower method2) path baseUrl [] (Json.obj fv)
        false none Json.null "YOUR_API_KEY" "application/json"),
     ("curl", generateCurlCode (strToLower method2) path baseUrl [] (Json.obj fv) false
        none Json.null "YOUR_API_KEY" "application/json")] := by
  simp only [generateCodeSamples]
  rw [specBaseUrl_server baseUrl, buildRequestBody_clean jc fv hjc hfv hclean hnd]
  rfl

/-- C1 counterexample: the round trip fails when a string form value
contains a double quote. For the form value map assigning `name` the
value `say "hi"`, parsing the generated cURL sample returns the empty
map — the quote terminates the JSON string early and, after the escape
cleanup of the captured `-d` payload, the body no longer parses — so the
result differs from the form values used to generate it. -/
theorem curl_roundtrip_quote_fails :
    ((generateCodeSamples
        ⟨"post", "/items", none, some [("application/json", Json.obj [])], none⟩
        ⟨some [Json.obj [("url", Json.str "https://api.example.com")]], none, none⟩
        none (some [("name", Json.str "say \"hi\"")])).lookup "curl").map
      (fun code => parseExampleCode "curl" code [("name", "text")] none) ≠
    some [("name", Json.str "say \"hi\"")] := by decide

/-- C1 (amended): for an operation with no parameters, no auth, and an
`application/json` request body, and a non-empty form value map whose
values are integers or non-empty strings free of quote characters
(single, double, backtick), backslashes, `?` and control characters, and
whose keys additionally are dot-free, do not start with `__`, are free of
the same characters, and are pairwise distinct, parsing the generated
cURL sample (language `curl`) with the Example Parser, given the
operation's field list, recovers exactly the form values used to
generate it. The two hypotheses on `c1CurlPrefix` state that the
rendered method/URL prefix of the sample contains no `-d` flag text and
no `?`; they hold for ordinary methods and URLs and are discharged by
evaluation in the witness. The original, unrestricted claim is false:
`curl_roundtrip_quote_fails` exhibits a string value containing a double
quote for which the parse returns the empty map instead. -/
theorem curl_roundtrip_clean (method2 path baseUrl : String) (jc : Json)
    (fv : List (String × Json))
    (hjc : jc.truthy = true) (hfv : fv ≠ [])
    (hnd : (fv.map Prod.fst).Nodup)
    (hclean : ∀ e ∈ fv, c1CleanEntry e = true)
    (hpre : containsDFlag (c1CurlPrefix (strToLower method2) (baseUrl ++ path)) = false)
    (hnoq : ∀ c ∈ c1CurlPrefix (strToLower method2) (baseUrl ++ path), c ≠ '?') :
    ∀ s ∈ generateCodeSamples
        ⟨method2, path, none, some [("application/json", jc)], none⟩
        ⟨some [Json.obj [("url", Json.str baseUrl)]], none, none⟩
        none (some fv),
      s.1 = "curl" →
      parseExampleCode s.1 s.2 (fv.map (fun e => (e.1, "text"))) none = fv := by
  intro s hs hcurl
  rw [generateCodeSamples_c1 method2 path baseUrl jc fv hjc hfv hclean hnd] at hs
  rcases List.mem_cons.mp hs with hs | hs
  · subst hs
    exact absurd (show ("python" : String) = "curl" from hcurl) (by decide)
  rcases List.mem_cons.mp hs with hs | hs
  · subst hs
    exact absurd (show ("javascript" : String) = "curl" from hcurl) (by decide)
  rw [List.mem_singleton] at hs
  subst hs
  show parseExampleCode "curl"
    (generateCurlCode (strToLower method2) path baseUrl [] (Json.obj fv) false none
      Json.null "YOUR_API_KEY" "application/json")
    (fv.map (fun e => (e.1, "text"))) none = fv
  rw [parseExampleCode_curl_none,
    parseCurl_generated (strToLower method2) path baseUrl fv hfv hnd hclean hpre hnoq]
  exact filterPhase_clean (fv.map (fun e => (e.1, "text"))) fv
    (by rw [List.map_map]; rfl) hnd hclean

theorem curl_roundtrip_clean_witness :
    ("curl", generateCurlCode "post" "/items" "https://api.example.com" []
        (Json.obj [("name", Json.str "Ada"), ("age", Json.num 30)]) false none Json.null
        "YOUR_API_KEY" "application/json") ∈
      generateCodeSamples
        ⟨"post", "/items", none, some [("application/json", Json.obj [])], none⟩
        ⟨some [Json.obj [("url", Json.str "https://api.example.com")]], none, none⟩
        none (some [("name", Json.str "Ada"), ("age", Json.num 30)]) ∧
    parseExampleCode "curl"
      (generateCurlCode "post" "/items" "https://api.example.com" []
        (Json.obj [("name", Json.str "Ada"), ("age", Json.num 30)]) false none Json.null
        "YOUR_API_KEY" "application/json")
      [("name", "text"), ("age", "text")] none =
      [("name", Json.str "Ada"), ("age", Json.num 30)] :=
  ⟨by decide,
   curl_roundtrip_clean "post" "/items" "https://api.example.com" (Json.obj [])
     [("name", Json.str "Ada"), ("age", Json.num 30)]
     (by decide) (by decide) (by decide) (by decide) (by decide) (by decide)
     ("curl", generateCurlCode "post" "/items" "https://api.example.com" []
        (Json.obj [("name", Json.str "Ada"), ("age", Json.num 30)]) false none Json.null
        "YOUR_API_KEY" "application/json")
     (by decide) rfl⟩
